import Mathlib

/-!
# Functional memory of the MIPS simulator (`func_memory.cpp`)

Shallow embedding of `FuncMemory`: the three-level store
(`sets_array[set][page][offset]`), the constructor's section loader, `startPC`,
`read` and `write` with their `RDWR / CNG_PG / CNG_SET / EXIT` loops.

Conventions of the embedding
* `uint64` values are `Nat` taken modulo `2^64` where the code can wrap,
  `uint8` values are `Nat` below `256`, `int` is a 32-bit two's complement
  integer.
* A C pointer is an `Option`: `none` is `NULL`.  `calloc` yields an array of
  `NULL`s (a set) or of zero bytes (a page) and is assumed to succeed.
* `assert` is enabled.  A run ends either with a value or with a `Fault`.
-/

namespace FuncMem

/-- Ways in which a run of the C++ code ends without a value. -/
inductive Fault where
  /-- An `assert` fired. -/
  | assertion
  /-- A `NULL` pointer was indexed. -/
  | nullDeref
  /-- An array was indexed outside the bounds it was allocated with. -/
  | outOfBounds
  /-- An `int` was shifted by 32 or more positions. -/
  | undefinedShift
  /-- The `int` loop counter of the loader left the range of `int`. -/
  | intOverflow
  /-- The member `text_start_addr` was read before any assignment. -/
  | uninitialised
  /-- The iteration budget of a loop model was used up. -/
  | outOfFuel
  deriving DecidableEq, Repr

/-- Outcomes of `read` can be compared. -/
instance decEqOutcome : DecidableEq (Except Fault Nat) := fun a b =>
  match a, b with
  | .ok x, .ok y =>
    if h : x = y then isTrue (by rw [h]) else isFalse (fun e => h (by cases e; rfl))
  | .error x, .error y =>
    if h : x = y then isTrue (by rw [h]) else isFalse (fun e => h (by cases e; rfl))
  | .ok _, .error _ => isFalse (fun e => by cases e)
  | .error _, .ok _ => isFalse (fun e => by cases e)

/-- The enumeration `States` of the traversal loops. -/
inductive States where
  | RDWR
  | CNG_PG
  | CNG_SET
  | EXIT
  deriving DecidableEq, Repr

/-- A page: `uint8*` pointing at `page_size` bytes. -/
abbrev Page := Nat → Nat

/-- A set: `uint8**` pointing at `pages_array_size` page pointers. -/
abbrev PageTable := Nat → Option Page

/-- The data members of `FuncMemory`.  `text_start_addr` is `none` until the
constructor assigns it. -/
structure FuncMemory where
  addr_bits : Nat
  page_num_size : Nat
  offset_size : Nat
  sets_array_size : Nat
  pages_array_size : Nat
  page_size : Nat
  text_start_addr : Option Nat
  sets_array : Nat → Option PageTable

/-- Modelled from the spec: the record `ElfSection` of the section reader
(`elf_parser.h`), with the four fields the memory reads. -/
structure ElfSection where
  name : String
  start_addr : Nat
  size : Nat
  content : List Nat

/-- Two to the power 64, the modulus of `uint64`. -/
def twoTo64 : Nat := 18446744073709551616

/-- Modelled from the spec: the helper `getSetIdx( set_bits, addr, addr_bits)` of
`func_memory.h`: the address shifted right by `page_bits + offset_bits`
(that is `addr_bits - set_bits`) and masked to `set_bits` bits. -/
def getSetIdx (set_bits addr addr_bits : Nat) : Nat :=
  (addr / 2 ^ (addr_bits - set_bits)) % 2 ^ set_bits

/-- Modelled from the spec: the helper `getPageIdx( page_bits, offset_bits, addr)`
of `func_memory.h`: the address shifted right by `offset_bits` and masked to
`page_bits` bits. -/
def getPageIdx (page_bits offset_bits addr : Nat) : Nat :=
  (addr / 2 ^ offset_bits) % 2 ^ page_bits

/-- Modelled from the spec: the helper `getOffsetIdx( offset_bits, addr)` of
`func_memory.h`: the address masked to `offset_bits` bits. -/
def getOffsetIdx (offset_bits addr : Nat) : Nat :=
  addr % 2 ^ offset_bits

/-- The C expression `x << k` for an `int`-promoted non-negative `x`.  For a
count below 32 the low 32 bits of the product are reinterpreted as a signed
`int`.  For a count of 32 or more the source has undefined behaviour; it raises
no fault of its own, and this definition ends the run there with
`undefinedShift`.  `shlIntWith` is the same shift with the undefined cases
resolved to a value. -/
def shlInt (x k : Nat) : Except Fault Int :=
  if 32 ≤ k then .error .undefinedShift
  else
    let r := (x * 2 ^ k) % 4294967296
    .ok (if r < 2147483648 then (r : Int) else (r : Int) - 4294967296)

/-- Conversion of an `int` to `uint64`. -/
def toUint64 (i : Int) : Nat := (i % 18446744073709551616).toNat

/-- The read `sets_array[ i]`. -/
def setAt (m : FuncMemory) (i : Nat) : Except Fault (Option PageTable) :=
  if i < m.sets_array_size then .ok (m.sets_array i) else .error .outOfBounds

/-- The read `sets_array[ i][ j]`. -/
def pageAt (m : FuncMemory) (i j : Nat) : Except Fault (Option Page) :=
  match setAt m i with
  | .error e => .error e
  | .ok none => .error .nullDeref
  | .ok (some t) => if j < m.pages_array_size then .ok (t j) else .error .outOfBounds

/-- The read `sets_array[ i][ j][ k]`. -/
def byteAt (m : FuncMemory) (i j k : Nat) : Except Fault Nat :=
  match pageAt m i j with
  | .error e => .error e
  | .ok none => .error .nullDeref
  | .ok (some p) => if k < m.page_size then .ok (p k) else .error .outOfBounds

/-- The assignment `sets_array[ i] = calloc( pages_array_size, ...)`. -/
def allocSet (m : FuncMemory) (i : Nat) : Except Fault FuncMemory :=
  if i < m.sets_array_size then
    .ok { m with sets_array := Function.update m.sets_array i (some (fun _ => none)) }
  else .error .outOfBounds

/-- The assignment `sets_array[ i][ j] = calloc( page_size, ...)`. -/
def allocPage (m : FuncMemory) (i j : Nat) : Except Fault FuncMemory :=
  match setAt m i with
  | .error e => .error e
  | .ok none => .error .nullDeref
  | .ok (some t) =>
    if j < m.pages_array_size then
      let t1 : PageTable := Function.update t j (some (fun _ => 0))
      .ok { m with sets_array := Function.update m.sets_array i (some t1) }
    else .error .outOfBounds

/-- The assignment `sets_array[ i][ j][ k] = b`. -/
def storeByte (m : FuncMemory) (i j k b : Nat) : Except Fault FuncMemory :=
  match pageAt m i j with
  | .error e => .error e
  | .ok none => .error .nullDeref
  | .ok (some p) =>
    if k < m.page_size then
      match m.sets_array i with
      | none => .error .nullDeref
      | some t =>
        let p1 : Page := Function.update p k b
        let t1 : PageTable := Function.update t j (some p1)
        .ok { m with sets_array := Function.update m.sets_array i (some t1) }
    else .error .outOfBounds

/-- Body of the loader's inner `for` loop (constructor, lines 67-88): decompose
the address, create the set and the page when they are `NULL`, store the byte. -/
def loadByte (m : FuncMemory) (addr b : Nat) : Except Fault FuncMemory :=
  let set_idx := getSetIdx (m.addr_bits - m.page_num_size - m.offset_size) addr m.addr_bits
  match setAt m set_idx with
  | .error e => .error e
  | .ok s =>
    match (match s with
           | none => allocSet m set_idx
           | some _ => .ok m) with
    | .error e => .error e
    | .ok m1 =>
      let page_idx := getPageIdx m.page_num_size m.offset_size addr
      match pageAt m1 set_idx page_idx with
      | .error e => .error e
      | .ok p =>
        match (match p with
               | none => allocPage m1 set_idx page_idx
               | some _ => .ok m1) with
        | .error e => .error e
        | .ok m2 =>
          let offset_idx := getOffsetIdx m.offset_size addr
          storeByte m2 set_idx page_idx offset_idx b

/-- The inner `for ( int i = 0; i < size; i++)` loop of the loader from counter
value `i` on, with `remaining = size - i` iterations left. -/
def loadFrom (sec : ElfSection) : Nat → Nat → FuncMemory → Except Fault FuncMemory
  | 0, _, m => .ok m
  | remaining + 1, i, m =>
    match sec.content.get? i with
    | none => .error .outOfBounds
    | some b =>
      match loadByte m ((sec.start_addr + i) % twoTo64) b with
      | .error e => .error e
      | .ok m1 =>
        if 2147483647 ≤ i then .error .intOverflow
        else loadFrom sec remaining (i + 1) m1

/-- The statement `if ( strcmp( name, ".text") == 0) text_start_addr = start_addr;`
of the loader (lines 62-63). -/
def markText (m : FuncMemory) (sec : ElfSection) : FuncMemory :=
  if sec.name = ".text" then { m with text_start_addr := some sec.start_addr } else m

/-- One iteration of the loader's `while` loop over the sections (lines 60-91). -/
def loadSection (m : FuncMemory) (sec : ElfSection) : Except Fault FuncMemory :=
  loadFrom sec sec.size 0 (markText m sec)

/-- The loader's `while` loop over the section list. -/
def loadSections : List ElfSection → FuncMemory → Except Fault FuncMemory
  | [], m => .ok m
  | sec :: rest, m =>
    match loadSection m sec with
    | .error e => .error e
    | .ok m1 => loadSections rest m1

/-- The statement `assert( page_bits + offset_bits <= addr_size)` of the
constructor (line 39); the sum is a `uint64` sum.  The `assert` on the file
name in front of it holds for every (non-`NULL`) file name. -/
def configCheck (addr_size page_bits offset_bits : Nat) : Except Fault Unit :=
  if (page_bits + offset_bits) % twoTo64 ≤ addr_size then .ok () else .error .assertion

/-- The constructor `FuncMemory::FuncMemory`, applied to the section list that
`ElfSection::getAllElfSections` delivers for the (non-`NULL`) file name: the
check, the three sizes (lines 51-53), the `calloc` of the top-level array
(line 56) and the loader loop.  When the check has passed with a sum that did
not wrap, `addr_size - page_bits - offset_bits` is an exact difference; when
the sum wrapped, one of the two later shifts is undefined whatever line 51
gave. -/
def create (sections : List ElfSection) (addr_size page_bits offset_bits : Nat) :
    Except Fault FuncMemory :=
  match configCheck addr_size page_bits offset_bits with
  | .error e => .error e
  | .ok _ =>
    match shlInt 1 (addr_size - page_bits - offset_bits) with
    | .error e => .error e
    | .ok nsets =>
      match shlInt 1 page_bits with
      | .error e => .error e
      | .ok npages =>
        match shlInt 1 offset_bits with
        | .error e => .error e
        | .ok psize =>
          loadSections sections
            { addr_bits := addr_size
              page_num_size := page_bits
              offset_size := offset_bits
              sets_array_size := toUint64 nsets
              pages_array_size := toUint64 npages
              page_size := toUint64 psize
              text_start_addr := none
              sets_array := fun _ => none }

/-- The method `FuncMemory::startPC`. -/
def startPC (m : FuncMemory) : Except Fault Nat :=
  match m.text_start_addr with
  | none => .error .uninitialised
  | some a => .ok a

/-- The local variables of the traversal loops of `read` and `write`:
`state`, the three indices and `bytes_read` / `bytes_write`. -/
structure Cursor where
  state : States
  set_idx : Nat
  page_idx : Nat
  offset_idx : Nat
  bytes : Nat
  deriving DecidableEq, Repr

/-- One iteration of the `switch` in `read` (lines 144-186) on the accumulator
`number`. -/
def readStep (m : FuncMemory) (c : Cursor) (number : Nat) : Except Fault (Cursor × Nat) :=
  match c.state with
  | .RDWR =>
    match byteAt m c.set_idx c.page_idx c.offset_idx with
    | .error e => .error e
    | .ok b =>
      match shlInt b (c.bytes * 8) with
      | .error e => .error e
      | .ok sh =>
        let number1 := (number + toUint64 sh) % twoTo64
        let offset1 := (c.offset_idx + 1) % twoTo64
        if m.page_size ≤ offset1 then
          .ok ({ c with bytes := c.bytes + 1, offset_idx := offset1, state := .CNG_PG,
                        page_idx := (c.page_idx + 1) % twoTo64 }, number1)
        else
          .ok ({ c with bytes := c.bytes + 1, offset_idx := offset1 }, number1)
  | .CNG_PG =>
    if m.pages_array_size ≤ c.page_idx then
      .ok ({ c with offset_idx := 0, state := .CNG_SET,
                    set_idx := (c.set_idx + 1) % twoTo64 }, number)
    else
      match pageAt m c.set_idx c.page_idx with
      | .error e => .error e
      | .ok none => .ok ({ c with offset_idx := 0, state := .EXIT }, number)
      | .ok (some _) => .ok ({ c with offset_idx := 0, state := .RDWR }, number)
  | .CNG_SET =>
    if m.sets_array_size ≤ c.set_idx then
      .ok ({ c with page_idx := 0, state := .EXIT }, number)
    else
      match setAt m c.set_idx with
      | .error e => .error e
      | .ok none => .ok ({ c with page_idx := 0, state := .EXIT }, number)
      | .ok (some _) => .ok ({ c with page_idx := 0, state := .CNG_PG }, number)
  | .EXIT => .error .assertion

/-- The `while ( bytes_read < num_of_bytes)` loop of `read`, with an iteration
budget. -/
def readLoop (m : FuncMemory) (num_of_bytes : Nat) : Nat → Cursor → Nat → Except Fault Nat
  | 0, c, number => if c.bytes < num_of_bytes then .error .outOfFuel else .ok number
  | fuel + 1, c, number =>
    if c.bytes < num_of_bytes then
      match readStep m c number with
      | .error e => .error e
      | .ok (c1, number1) => readLoop m num_of_bytes fuel c1 number1
    else .ok number

/-- The residency test in front of the loop of `read` (lines 125-133): the first
`assert` indexes `sets_array` with the value of the comparison `set_idx == NULL`
(1 when `set_idx` is 0, else 0) and holds when that entry is not `NULL`; the
second `assert` holds whenever its branch is entered. -/
def readCheck (m : FuncMemory) (set_idx page_idx : Nat) : Except Fault Unit :=
  match setAt m set_idx with
  | .error e => .error e
  | .ok none =>
    match setAt m (if set_idx = 0 then 1 else 0) with
    | .error e => .error e
    | .ok none => .error .assertion
    | .ok (some _) => .ok ()
  | .ok (some _) =>
    match pageAt m set_idx page_idx with
    | .error e => .error e
    | .ok _ => .ok ()

/-- The method `FuncMemory::read( addr, num_of_bytes)`.  The statement
`assert( sets_array != NULL)` (line 124, written without its semicolon) holds
for every constructed memory and is left out.  The loop gets a budget of
`4 * num_of_bytes` iterations. -/
def read (m : FuncMemory) (addr num_of_bytes : Nat) : Except Fault Nat :=
  if ¬ (0 < num_of_bytes) then .error .assertion
  else
    let set_idx := getSetIdx (m.addr_bits - m.page_num_size - m.offset_size) addr m.addr_bits
    let page_idx := getPageIdx m.page_num_size m.offset_size addr
    let offset_idx := getOffsetIdx m.offset_size addr
    match readCheck m set_idx page_idx with
    | .error e => .error e
    | .ok _ =>
      readLoop m num_of_bytes (4 * num_of_bytes)
        { state := .RDWR, set_idx := set_idx, page_idx := page_idx,
          offset_idx := offset_idx, bytes := 0 } 0

/-- The member `bytes[ i]` of the anonymous union in `write` that overlays
`uint64 number` (little-endian host): out of bounds from index 8 on. -/
def unionByte (number i : Nat) : Except Fault Nat :=
  if i < 8 then .ok ((number / 256 ^ i) % 256) else .error .outOfBounds

/-- One iteration of the `switch` in `write` (lines 233-273). -/
def writeStep (number : Nat) (m : FuncMemory) (c : Cursor) :
    Except Fault (FuncMemory × Cursor) :=
  match c.state with
  | .RDWR =>
    match unionByte number c.bytes with
    | .error e => .error e
    | .ok b =>
      match storeByte m c.set_idx c.page_idx c.offset_idx b with
      | .error e => .error e
      | .ok m1 =>
        let offset1 := (c.offset_idx + 1) % twoTo64
        if m.page_size ≤ offset1 then
          .ok (m1, { c with bytes := c.bytes + 1, offset_idx := offset1, state := .CNG_PG,
                            page_idx := (c.page_idx + 1) % twoTo64 })
        else
          .ok (m1, { c with bytes := c.bytes + 1, offset_idx := offset1 })
  | .CNG_PG =>
    if m.pages_array_size ≤ c.page_idx then
      .ok (m, { c with offset_idx := 0, state := .CNG_SET,
                       set_idx := (c.set_idx + 1) % twoTo64 })
    else
      match pageAt m c.set_idx c.page_idx with
      | .error e => .error e
      | .ok none =>
        match allocPage m c.set_idx c.page_idx with
        | .error e => .error e
        | .ok m1 => .ok (m1, { c with offset_idx := 0, state := .RDWR })
      | .ok (some _) => .ok (m, { c with offset_idx := 0, state := .RDWR })
  | .CNG_SET =>
    if m.sets_array_size ≤ c.set_idx then
      .ok (m, { c with page_idx := 0, state := .EXIT })
    else
      match setAt m c.set_idx with
      | .error e => .error e
      | .ok none =>
        match allocSet m c.set_idx with
        | .error e => .error e
        | .ok m1 => .ok (m1, { c with page_idx := 0, state := .CNG_PG })
      | .ok (some _) => .ok (m, { c with page_idx := 0, state := .CNG_PG })
  | .EXIT => .error .assertion

/-- The `while ( bytes_write < num_of_bytes)` loop of `write`, with an iteration
budget. -/
def writeLoop (number num_of_bytes : Nat) : Nat → FuncMemory → Cursor → Except Fault FuncMemory
  | 0, m, c => if c.bytes < num_of_bytes then .error .outOfFuel else .ok m
  | fuel + 1, m, c =>
    if c.bytes < num_of_bytes then
      match writeStep number m c with
      | .error e => .error e
      | .ok (m1, c1) => writeLoop number num_of_bytes fuel m1 c1
    else .ok m

/-- The allocation in front of the loop of `write` (lines 217-222). -/
def writeInit (m : FuncMemory) (set_idx page_idx : Nat) : Except Fault FuncMemory :=
  match setAt m set_idx with
  | .error e => .error e
  | .ok none =>
    match allocSet m set_idx with
    | .error e => .error e
    | .ok m1 => allocPage m1 set_idx page_idx
  | .ok (some _) =>
    match pageAt m set_idx page_idx with
    | .error e => .error e
    | .ok none => allocPage m set_idx page_idx
    | .ok (some _) => .ok m

/-- The method `FuncMemory::write( value, addr, num_of_bytes)`: the value comes
first, the address second.  The loop gets a budget of `4 * num_of_bytes`
iterations. -/
def write (m : FuncMemory) (value addr num_of_bytes : Nat) : Except Fault FuncMemory :=
  if ¬ (0 < num_of_bytes) then .error .assertion
  else
    let set_idx := getSetIdx (m.addr_bits - m.page_num_size - m.offset_size) addr m.addr_bits
    let page_idx := getPageIdx m.page_num_size m.offset_size addr
    let offset_idx := getOffsetIdx m.offset_size addr
    match writeInit m set_idx page_idx with
    | .error e => .error e
    | .ok m1 =>
      writeLoop (value % twoTo64) num_of_bytes (4 * num_of_bytes) m1
        { state := .RDWR, set_idx := set_idx, page_idx := page_idx,
          offset_idx := offset_idx, bytes := 0 }

/-- A sequence of `write` calls, each given as `(value, addr, num_of_bytes)`. -/
def writes : List (Nat × Nat × Nat) → FuncMemory → Except Fault FuncMemory
  | [], m => .ok m
  | (value, addr, n) :: rest, m =>
    match write m value addr n with
    | .error e => .error e
    | .ok m1 => writes rest m1

/-! ## Observations and reference operations used to state the properties -/

/-- The configuration invariant of a constructed memory: the three derived sizes
are the powers of two of their bit widths and fit `uint64`. -/
def Configured (m : FuncMemory) : Prop :=
  m.page_num_size + m.offset_size ≤ m.addr_bits ∧
  m.sets_array_size = 2 ^ (m.addr_bits - m.page_num_size - m.offset_size) ∧
  m.pages_array_size = 2 ^ m.page_num_size ∧
  m.page_size = 2 ^ m.offset_size ∧
  m.sets_array_size < twoTo64 ∧ m.pages_array_size < twoTo64 ∧ m.page_size < twoTo64

/-- The set index of an address under the configuration of `m`, as `read`,
`write` and the loader compute it. -/
def setIdx (m : FuncMemory) (addr : Nat) : Nat :=
  getSetIdx (m.addr_bits - m.page_num_size - m.offset_size) addr m.addr_bits

/-- The page index of an address under the configuration of `m`. -/
def pageIdx (m : FuncMemory) (addr : Nat) : Nat :=
  getPageIdx m.page_num_size m.offset_size addr

/-- The offset index of an address under the configuration of `m`. -/
def offsetIdx (m : FuncMemory) (addr : Nat) : Nat :=
  getOffsetIdx m.offset_size addr

/-- Residency of the pair (set, page): both pointers are not `NULL`. -/
def isResident (m : FuncMemory) (s p : Nat) : Bool :=
  match m.sets_array s with
  | none => false
  | some t => (t p).isSome

/-- The byte held at (set, page, offset), when that page is resident. -/
def peek (m : FuncMemory) (s p o : Nat) : Option Nat :=
  match m.sets_array s with
  | none => none
  | some t =>
    match t p with
    | none => none
    | some pg => some (pg o)

/-- The byte held at an address, when its page is resident. -/
def byteOf (m : FuncMemory) (addr : Nat) : Option Nat :=
  peek m (setIdx m addr) (pageIdx m addr) (offsetIdx m addr)

/-- Reference operation: make (set, page) resident, creating the set as an array
of `NULL`s and the page as zero bytes when they are missing. -/
def ensureAllocated (m : FuncMemory) (s p : Nat) : FuncMemory :=
  match m.sets_array s with
  | none =>
    let t1 : PageTable := Function.update (fun _ => none) p (some (fun _ => 0))
    { m with sets_array := Function.update m.sets_array s (some t1) }
  | some t =>
    match t p with
    | none =>
      let t1 : PageTable := Function.update t p (some (fun _ => 0))
      { m with sets_array := Function.update m.sets_array s (some t1) }
    | some _ => m

/-- Reference operation: overwrite one byte of a resident page. -/
def poke (m : FuncMemory) (s p o b : Nat) : FuncMemory :=
  match m.sets_array s with
  | none => m
  | some t =>
    match t p with
    | none => m
    | some pg =>
      let p1 : Page := Function.update pg o b
      let t1 : PageTable := Function.update t p (some p1)
      { m with sets_array := Function.update m.sets_array s (some t1) }

/-- Reference operation: store one byte at an address, allocating on demand. -/
def putByte (m : FuncMemory) (addr b : Nat) : FuncMemory :=
  poke (ensureAllocated m (setIdx m addr) (pageIdx m addr))
    (setIdx m addr) (pageIdx m addr) (offsetIdx m addr) b

/-- Reference operation: store a list of bytes at consecutive addresses. -/
def putBytes (m : FuncMemory) : Nat → List Nat → FuncMemory
  | _, [] => m
  | addr, b :: bs => putBytes (putByte m addr b) (addr + 1) bs

/-- The bytes `k, k+1, ..., k+r-1` of a value, least significant first. -/
def valueBytes (value : Nat) : Nat → Nat → List Nat
  | _, 0 => []
  | k, r + 1 => (value / 256 ^ k) % 256 :: valueBytes value (k + 1) r

/-- Reference operation: make a set resident, as an array of `NULL`s. -/
def ensureSet (m : FuncMemory) (s : Nat) : FuncMemory :=
  match m.sets_array s with
  | none => { m with sets_array := Function.update m.sets_array s (some (fun _ => none)) }
  | some _ => m

/-- The address whose decomposition is (set, page, offset). -/
def addrOf (m : FuncMemory) (s p o : Nat) : Nat :=
  (s * m.pages_array_size + p) * m.page_size + o

/-- Number of bytes of the configured address space:
`sets_array_size * pages_array_size * page_size`. -/
def spaceSize (m : FuncMemory) : Nat :=
  m.sets_array_size * m.pages_array_size * m.page_size

/-- The memory that the constructor builds for `addr_size = 16`, `page_bits = 4`,
`offset_bits = 4` and an empty section list: 256 sets of 16 pages of 16 bytes,
nothing resident. -/
def emptyMemory16 : FuncMemory :=
  { addr_bits := 16
    page_num_size := 4
    offset_size := 4
    sets_array_size := 256
    pages_array_size := 16
    page_size := 16
    text_start_addr := none
    sets_array := fun _ => none }

/-- The memory the constructor holds when its loader loop starts, for bit widths
whose sizes `1 << bits` are exact. -/
def emptyMemory (addr_size page_bits offset_bits : Nat) : FuncMemory :=
  { addr_bits := addr_size
    page_num_size := page_bits
    offset_size := offset_bits
    sets_array_size := 2 ^ (addr_size - page_bits - offset_bits)
    pages_array_size := 2 ^ page_bits
    page_size := 2 ^ offset_bits
    text_start_addr := none
    sets_array := fun _ => none }

/-- Bit widths the constructor accepts and for which every `1 << bits` is an
exact `int`, with addresses of at most 64 bits. -/
def ConfigOk (addr_size page_bits offset_bits : Nat) : Prop :=
  page_bits + offset_bits ≤ addr_size ∧ addr_size ≤ 64 ∧
  addr_size - page_bits - offset_bits ≤ 30 ∧ page_bits ≤ 30 ∧ offset_bits ≤ 30

/-- A section the loader can consume: `content` has `size` bytes, the `int`
counter can reach `size`, and the section lies inside the address space. -/
def SectionOk (addr_size : Nat) (sec : ElfSection) : Prop :=
  sec.content.length = sec.size ∧ sec.size < 2147483648 ∧
  sec.start_addr + sec.size ≤ 2 ^ addr_size ∧ ∀ b ∈ sec.content, b < 256

/-- Reference operation: load one section byte by byte. -/
def loadSectionRef (m : FuncMemory) (sec : ElfSection) : FuncMemory :=
  putBytes (markText m sec) sec.start_addr sec.content

/-- Reference operation: load a section list in order. -/
def loadAllRef : List ElfSection → FuncMemory → FuncMemory
  | [], m => m
  | sec :: rest, m => loadAllRef rest (loadSectionRef m sec)

/-- Reference operation: a sequence of writes, byte by byte. -/
def writesRef : List (Nat × Nat × Nat) → FuncMemory → FuncMemory
  | [], m => m
  | (value, addr, n) :: rest, m =>
    writesRef rest (putBytes m addr (valueBytes (value % twoTo64) 0 n))

/-- The claim "the first `.text` section wins", for a constructed memory `m`. -/
def FirstTextWins (sections : List ElfSection) (m : FuncMemory) : Prop :=
  ∀ sec, sections.find? (fun s => decide (s.name = ".text")) = some sec →
    startPC m = .ok sec.start_addr

/-! ## `read` with the memory passed along -/

/-- One iteration of the `switch` in `read` in state-passing form: the memory
the iteration leaves behind, and its result.  No branch assigns to `sets_array`
or to what it points at, and none calls `calloc`; where `write` allocates
(`CNG_PG`, `CNG_SET`), `read` only sets `state = EXIT`. -/
def readStepS (m : FuncMemory) (c : Cursor) (number : Nat) :
    FuncMemory × Except Fault (Cursor × Nat) :=
  match c.state with
  | .RDWR =>
    match byteAt m c.set_idx c.page_idx c.offset_idx with
    | .error e => (m, .error e)
    | .ok b =>
      match shlInt b (c.bytes * 8) with
      | .error e => (m, .error e)
      | .ok sh =>
        let number1 := (number + toUint64 sh) % twoTo64
        let offset1 := (c.offset_idx + 1) % twoTo64
        if m.page_size ≤ offset1 then
          (m, .ok ({ c with bytes := c.bytes + 1, offset_idx := offset1, state := .CNG_PG,
                            page_idx := (c.page_idx + 1) % twoTo64 }, number1))
        else
          (m, .ok ({ c with bytes := c.bytes + 1, offset_idx := offset1 }, number1))
  | .CNG_PG =>
    if m.pages_array_size ≤ c.page_idx then
      (m, .ok ({ c with offset_idx := 0, state := .CNG_SET,
                        set_idx := (c.set_idx + 1) % twoTo64 }, number))
    else
      match pageAt m c.set_idx c.page_idx with
      | .error e => (m, .error e)
      | .ok none => (m, .ok ({ c with offset_idx := 0, state := .EXIT }, number))
      | .ok (some _) => (m, .ok ({ c with offset_idx := 0, state := .RDWR }, number))
  | .CNG_SET =>
    if m.sets_array_size ≤ c.set_idx then
      (m, .ok ({ c with page_idx := 0, state := .EXIT }, number))
    else
      match setAt m c.set_idx with
      | .error e => (m, .error e)
      | .ok none => (m, .ok ({ c with page_idx := 0, state := .EXIT }, number))
      | .ok (some _) => (m, .ok ({ c with page_idx := 0, state := .CNG_PG }, number))
  | .EXIT => (m, .error .assertion)

/-- The loop of `read` in state-passing form: every iteration runs on the
memory the previous one left behind. -/
def readLoopS (num_of_bytes : Nat) :
    Nat → FuncMemory → Cursor → Nat → FuncMemory × Except Fault Nat
  | 0, m, c, number =>
    if c.bytes < num_of_bytes then (m, .error .outOfFuel) else (m, .ok number)
  | fuel + 1, m, c, number =>
    if c.bytes < num_of_bytes then
      match readStepS m c number with
      | (m1, .error e) => (m1, .error e)
      | (m1, .ok (c1, number1)) => readLoopS num_of_bytes fuel m1 c1 number1
    else (m, .ok number)

/-- The method `read` in state-passing form: the memory after the call, whether
it returned or faulted, and its outcome. -/
def readS (m : FuncMemory) (addr num_of_bytes : Nat) : FuncMemory × Except Fault Nat :=
  if ¬ (0 < num_of_bytes) then (m, .error .assertion)
  else
    let set_idx := getSetIdx (m.addr_bits - m.page_num_size - m.offset_size) addr m.addr_bits
    let page_idx := getPageIdx m.page_num_size m.offset_size addr
    let offset_idx := getOffsetIdx m.offset_size addr
    match readCheck m set_idx page_idx with
    | .error e => (m, .error e)
    | .ok _ =>
      readLoopS num_of_bytes (4 * num_of_bytes) m
        { state := .RDWR, set_idx := set_idx, page_idx := page_idx,
          offset_idx := offset_idx, bytes := 0 } 0

/-! ## Heap blocks and the destructor -/

/-- The heap blocks a memory can own: the top-level array behind `sets_array`,
the page-pointer array of a set, the byte array of a page. -/
inductive Block where
  | top
  | set (s : Nat)
  | page (s p : Nat)
  deriving DecidableEq, Repr

/-- The blocks a memory owns: the top-level array always (the constructor
allocates it), a set or a page when its pointer is not `NULL`. -/
def isAllocated (m : FuncMemory) : Block → Bool
  | .top => true
  | .set s => (m.sets_array s).isSome
  | .page s p => isResident m s p

/-- The destructor `FuncMemory::~FuncMemory`: its only statement
`delete [] this->sets_array;` releases the top-level array. -/
def destructorReleases : Block → Bool
  | .top => true
  | .set _ => false
  | .page _ _ => false

/-- The blocks still allocated after the destructor has run. -/
def remainsAfterDestructor (m : FuncMemory) (b : Block) : Bool :=
  isAllocated m b && !destructorReleases b

/-! ## The loops with a log of their byte accesses and iterations -/

/-- What a run of a traversal loop did: the (set, page, offset) index triples of
the byte accesses `sets_array[ set_idx][ page_idx][ offset_idx]` in order, and
the number of loop iterations. -/
structure RunLog where
  accesses : List (Nat × Nat × Nat)
  iterations : Nat
  deriving DecidableEq, Repr

/-- The log after one more iteration entered with cursor `c`: only the `RDWR`
case indexes a byte. -/
def logStep (log : RunLog) (c : Cursor) : RunLog :=
  match c.state with
  | .RDWR =>
    { accesses := log.accesses ++ [(c.set_idx, c.page_idx, c.offset_idx)],
      iterations := log.iterations + 1 }
  | _ => { accesses := log.accesses, iterations := log.iterations + 1 }

/-- The loop of `read`, logging every iteration. -/
def readLoopLog (m : FuncMemory) (num_of_bytes : Nat) :
    Nat → Cursor → Nat → RunLog → RunLog × Except Fault Nat
  | 0, c, number, log =>
    if c.bytes < num_of_bytes then (log, .error .outOfFuel) else (log, .ok number)
  | fuel + 1, c, number, log =>
    if c.bytes < num_of_bytes then
      match readStep m c number with
      | .error e => (logStep log c, .error e)
      | .ok (c1, number1) => readLoopLog m num_of_bytes fuel c1 number1 (logStep log c)
    else (log, .ok number)

/-- The method `read`, logging the iterations of its loop. -/
def readLog (m : FuncMemory) (addr num_of_bytes : Nat) : RunLog × Except Fault Nat :=
  if ¬ (0 < num_of_bytes) then (⟨[], 0⟩, .error .assertion)
  else
    let set_idx := getSetIdx (m.addr_bits - m.page_num_size - m.offset_size) addr m.addr_bits
    let page_idx := getPageIdx m.page_num_size m.offset_size addr
    let offset_idx := getOffsetIdx m.offset_size addr
    match readCheck m set_idx page_idx with
    | .error e => (⟨[], 0⟩, .error e)
    | .ok _ =>
      readLoopLog m num_of_bytes (4 * num_of_bytes)
        { state := .RDWR, set_idx := set_idx, page_idx := page_idx,
          offset_idx := offset_idx, bytes := 0 } 0 ⟨[], 0⟩

/-- The loop of `write`, logging every iteration. -/
def writeLoopLog (number num_of_bytes : Nat) :
    Nat → FuncMemory → Cursor → RunLog → RunLog × Except Fault FuncMemory
  | 0, m, c, log =>
    if c.bytes < num_of_bytes then (log, .error .outOfFuel) else (log, .ok m)
  | fuel + 1, m, c, log =>
    if c.bytes < num_of_bytes then
      match writeStep number m c with
      | .error e => (logStep log c, .error e)
      | .ok (m1, c1) => writeLoopLog number num_of_bytes fuel m1 c1 (logStep log c)
    else (log, .ok m)

/-- The method `write`, logging the iterations of its loop. -/
def writeLog (m : FuncMemory) (value addr num_of_bytes : Nat) :
    RunLog × Except Fault FuncMemory :=
  if ¬ (0 < num_of_bytes) then (⟨[], 0⟩, .error .assertion)
  else
    let set_idx := getSetIdx (m.addr_bits - m.page_num_size - m.offset_size) addr m.addr_bits
    let page_idx := getPageIdx m.page_num_size m.offset_size addr
    let offset_idx := getOffsetIdx m.offset_size addr
    match writeInit m set_idx page_idx with
    | .error e => (⟨[], 0⟩, .error e)
    | .ok m1 =>
      writeLoopLog (value % twoTo64) num_of_bytes (4 * num_of_bytes) m1
        { state := .RDWR, set_idx := set_idx, page_idx := page_idx,
          offset_idx := offset_idx, bytes := 0 } ⟨[], 0⟩

/-- The index triple of an address under the configuration of `m`. -/
def decompose (m : FuncMemory) (addr : Nat) : Nat × Nat × Nat :=
  (setIdx m addr, pageIdx m addr, offsetIdx m addr)

/-- The index triples of the `j` consecutive addresses from `addr` on. -/
def triplesFrom (m : FuncMemory) : Nat → Nat → List (Nat × Nat × Nat)
  | _, 0 => []
  | addr, j + 1 => decompose m addr :: triplesFrom m (addr + 1) j

/-- The address decomposition in the words of the specification: the set index
is the address shifted right by `page_bits + offset_bits` and masked to
`set_bits = addr_bits - page_bits - offset_bits` bits, the page index is the
address shifted right by `offset_bits` and masked to `page_bits` bits, the
offset index is the address masked to `offset_bits` bits. -/
def specDecompose (addr_bits page_bits offset_bits addr : Nat) : Nat × Nat × Nat :=
  ((addr >>> (page_bits + offset_bits)) &&& (2 ^ (addr_bits - page_bits - offset_bits) - 1),
   (addr >>> offset_bits) &&& (2 ^ page_bits - 1),
   addr &&& (2 ^ offset_bits - 1))

/-! ## The loader as a sequence of one-byte writes -/

/-- The value of a list of bytes, least significant first. -/
def leValue : List Nat → Nat
  | [] => 0
  | b :: bs => b + 256 * leValue bs

/-! ## `read` however the undefined shift resolves -/

/-- The C expression `x << k` with its undefined cases resolved: for a count of
32 or more, where compiled code goes on with some `int`, that `int` is `u x k`;
for a count below 32 this is `shlInt`. -/
def shlIntWith (u : Nat → Nat → Int) (x k : Nat) : Except Fault Int :=
  if 32 ≤ k then .ok (u x k) else shlInt x k

/-- One resolution of the undefined shift: the count is taken modulo 32, as the
shift instruction of an x86 processor does. -/
def shlMasked (x k : Nat) : Int :=
  let r := (x * 2 ^ (k % 32)) % 4294967296
  if r < 2147483648 then (r : Int) else (r : Int) - 4294967296

/-- One iteration of the `switch` in `read` (lines 144-186), with the shift of
line 147 given as the parameter `shl`; `readStep` is the case `shl = shlInt`. -/
def readStepWith (shl : Nat → Nat → Except Fault Int) (m : FuncMemory) (c : Cursor)
    (number : Nat) : Except Fault (Cursor × Nat) :=
  match c.state with
  | .RDWR =>
    match byteAt m c.set_idx c.page_idx c.offset_idx with
    | .error e => .error e
    | .ok b =>
      match shl b (c.bytes * 8) with
      | .error e => .error e
      | .ok sh =>
        let number1 := (number + toUint64 sh) % twoTo64
        let offset1 := (c.offset_idx + 1) % twoTo64
        if m.page_size ≤ offset1 then
          .ok ({ c with bytes := c.bytes + 1, offset_idx := offset1, state := .CNG_PG,
                        page_idx := (c.page_idx + 1) % twoTo64 }, number1)
        else
          .ok ({ c with bytes := c.bytes + 1, offset_idx := offset1 }, number1)
  | .CNG_PG =>
    if m.pages_array_size ≤ c.page_idx then
      .ok ({ c with offset_idx := 0, state := .CNG_SET,
                    set_idx := (c.set_idx + 1) % twoTo64 }, number)
    else
      match pageAt m c.set_idx c.page_idx with
      | .error e => .error e
      | .ok none => .ok ({ c with offset_idx := 0, state := .EXIT }, number)
      | .ok (some _) => .ok ({ c with offset_idx := 0, state := .RDWR }, number)
  | .CNG_SET =>
    if m.sets_array_size ≤ c.set_idx then
      .ok ({ c with page_idx := 0, state := .EXIT }, number)
    else
      match setAt m c.set_idx with
      | .error e => .error e
      | .ok none => .ok ({ c with page_idx := 0, state := .EXIT }, number)
      | .ok (some _) => .ok ({ c with page_idx := 0, state := .CNG_PG }, number)
  | .EXIT => .error .assertion

/-- The loop of `read` with the shift `shl`, logging every iteration. -/
def readLoopLogWith (shl : Nat → Nat → Except Fault Int) (m : FuncMemory)
    (num_of_bytes : Nat) : Nat → Cursor → Nat → RunLog → RunLog × Except Fault Nat
  | 0, c, number, log =>
    if c.bytes < num_of_bytes then (log, .error .outOfFuel) else (log, .ok number)
  | fuel + 1, c, number, log =>
    if c.bytes < num_of_bytes then
      match readStepWith shl m c number with
      | .error e => (logStep log c, .error e)
      | .ok (c1, number1) =>
        readLoopLogWith shl m num_of_bytes fuel c1 number1 (logStep log c)
    else (log, .ok number)

/-- The method `read` with the shift `shl`, logging the iterations of its loop. -/
def readLogWith (shl : Nat → Nat → Except Fault Int) (m : FuncMemory)
    (addr num_of_bytes : Nat) : RunLog × Except Fault Nat :=
  if ¬ (0 < num_of_bytes) then (⟨[], 0⟩, .error .assertion)
  else
    let set_idx := getSetIdx (m.addr_bits - m.page_num_size - m.offset_size) addr m.addr_bits
    let page_idx := getPageIdx m.page_num_size m.offset_size addr
    let offset_idx := getOffsetIdx m.offset_size addr
    match readCheck m set_idx page_idx with
    | .error e => (⟨[], 0⟩, .error e)
    | .ok _ =>
      readLoopLogWith shl m num_of_bytes (4 * num_of_bytes)
        { state := .RDWR, set_idx := set_idx, page_idx := page_idx,
          offset_idx := offset_idx, bytes := 0 } 0 ⟨[], 0⟩

/-- The memory `emptyMemory16` after the bytes `8, 7, ..., 1` were stored at
`0x00FC .. 0x0103`: the last four bytes of set 0 and the first four of set 1. -/
def storedMemory16 : FuncMemory :=
  putBytes emptyMemory16 0x00FC [8, 7, 6, 5, 4, 3, 2, 1]

end FuncMem

/-! ## Address arithmetic -/

namespace FuncMem

theorem mul_add_div_self (a P o : Nat) (h : o < P) : (a * P + o) / P = a := by
  have hP : 0 < P := by omega
  rw [Nat.add_comm, Nat.add_mul_div_right _ _ hP, Nat.div_eq_of_lt h, Nat.zero_add]

theorem mul_add_mod_self (a P o : Nat) (h : o < P) : (a * P + o) % P = o := by
  rw [Nat.add_comm, Nat.add_mul_mod_self_right, Nat.mod_eq_of_lt h]

theorem getOffsetIdx_compose (ob a o : Nat) (ho : o < 2 ^ ob) :
    getOffsetIdx ob (a * 2 ^ ob + o) = o := by
  unfold getOffsetIdx
  exact mul_add_mod_self _ _ _ ho

theorem getPageIdx_compose (pb ob s p o : Nat) (hp : p < 2 ^ pb) (ho : o < 2 ^ ob) :
    getPageIdx pb ob ((s * 2 ^ pb + p) * 2 ^ ob + o) = p := by
  unfold getPageIdx
  rw [mul_add_div_self _ _ _ ho, mul_add_mod_self _ _ _ hp]

theorem getSetIdx_compose (sb pb ob ab s p o : Nat) (hab : ab - sb = pb + ob)
    (hs : s < 2 ^ sb) (hp : p < 2 ^ pb) (ho : o < 2 ^ ob) :
    getSetIdx sb ((s * 2 ^ pb + p) * 2 ^ ob + o) ab = s := by
  unfold getSetIdx
  rw [hab, Nat.add_comm pb ob, pow_add, ← Nat.div_div_eq_div_mul, mul_add_div_self _ _ _ ho,
    mul_add_div_self _ _ _ hp, Nat.mod_eq_of_lt hs]

theorem addr_decompose (P Q a : Nat) :
    a = ((a / P / Q) * Q + (a / P) % Q) * P + a % P := by
  rw [Nat.mul_comm (a / P / Q) Q, Nat.div_add_mod, Nat.mul_comm, Nat.div_add_mod]

end FuncMem

/-! ## The primitive accesses against the reference operations -/

namespace FuncMem

theorem ensureAllocated_fields (m : FuncMemory) (s p : Nat) :
    (ensureAllocated m s p).addr_bits = m.addr_bits ∧
    (ensureAllocated m s p).page_num_size = m.page_num_size ∧
    (ensureAllocated m s p).offset_size = m.offset_size ∧
    (ensureAllocated m s p).sets_array_size = m.sets_array_size ∧
    (ensureAllocated m s p).pages_array_size = m.pages_array_size ∧
    (ensureAllocated m s p).page_size = m.page_size ∧
    (ensureAllocated m s p).text_start_addr = m.text_start_addr := by
  cases h : m.sets_array s with
  | none => simp [ensureAllocated, h]
  | some t => cases h2 : t p <;> simp [ensureAllocated, h, h2]

theorem poke_fields (m : FuncMemory) (s p o b : Nat) :
    (poke m s p o b).addr_bits = m.addr_bits ∧
    (poke m s p o b).page_num_size = m.page_num_size ∧
    (poke m s p o b).offset_size = m.offset_size ∧
    (poke m s p o b).sets_array_size = m.sets_array_size ∧
    (poke m s p o b).pages_array_size = m.pages_array_size ∧
    (poke m s p o b).page_size = m.page_size ∧
    (poke m s p o b).text_start_addr = m.text_start_addr := by
  cases h : m.sets_array s with
  | none => simp [poke, h]
  | some t => cases h2 : t p <;> simp [poke, h, h2]

theorem putByte_fields (m : FuncMemory) (a b : Nat) :
    (putByte m a b).addr_bits = m.addr_bits ∧
    (putByte m a b).page_num_size = m.page_num_size ∧
    (putByte m a b).offset_size = m.offset_size ∧
    (putByte m a b).sets_array_size = m.sets_array_size ∧
    (putByte m a b).pages_array_size = m.pages_array_size ∧
    (putByte m a b).page_size = m.page_size ∧
    (putByte m a b).text_start_addr = m.text_start_addr := by
  unfold putByte
  have h1 := poke_fields (ensureAllocated m (setIdx m a) (pageIdx m a))
    (setIdx m a) (pageIdx m a) (offsetIdx m a) b
  have h2 := ensureAllocated_fields m (setIdx m a) (pageIdx m a)
  obtain ⟨a1, a2, a3, a4, a5, a6, a7⟩ := h1
  obtain ⟨b1, b2, b3, b4, b5, b6, b7⟩ := h2
  exact ⟨a1.trans b1, a2.trans b2, a3.trans b3, a4.trans b4, a5.trans b5, a6.trans b6,
    a7.trans b7⟩

theorem Configured_of_fields {m m1 : FuncMemory} (h : Configured m)
    (h1 : m1.addr_bits = m.addr_bits) (h2 : m1.page_num_size = m.page_num_size)
    (h3 : m1.offset_size = m.offset_size) (h4 : m1.sets_array_size = m.sets_array_size)
    (h5 : m1.pages_array_size = m.pages_array_size) (h6 : m1.page_size = m.page_size) :
    Configured m1 := by
  unfold Configured at *
  rw [h1, h2, h3, h4, h5, h6]
  exact h

theorem Configured_ensureAllocated {m : FuncMemory} (h : Configured m) (s p : Nat) :
    Configured (ensureAllocated m s p) := by
  obtain ⟨a1, a2, a3, a4, a5, a6, _⟩ := ensureAllocated_fields m s p
  exact Configured_of_fields h a1 a2 a3 a4 a5 a6

theorem Configured_poke {m : FuncMemory} (h : Configured m) (s p o b : Nat) :
    Configured (poke m s p o b) := by
  obtain ⟨a1, a2, a3, a4, a5, a6, _⟩ := poke_fields m s p o b
  exact Configured_of_fields h a1 a2 a3 a4 a5 a6

theorem Configured_putByte {m : FuncMemory} (h : Configured m) (a b : Nat) :
    Configured (putByte m a b) := by
  obtain ⟨a1, a2, a3, a4, a5, a6, _⟩ := putByte_fields m a b
  exact Configured_of_fields h a1 a2 a3 a4 a5 a6

theorem setIdx_lt {m : FuncMemory} (h : Configured m) (a : Nat) :
    setIdx m a < m.sets_array_size := by
  obtain ⟨_, h2, _⟩ := h
  rw [h2]
  unfold setIdx getSetIdx
  exact Nat.mod_lt _ (Nat.two_pow_pos _)

theorem pageIdx_lt {m : FuncMemory} (h : Configured m) (a : Nat) :
    pageIdx m a < m.pages_array_size := by
  obtain ⟨_, _, h3, _⟩ := h
  rw [h3]
  unfold pageIdx getPageIdx
  exact Nat.mod_lt _ (Nat.two_pow_pos _)

theorem offsetIdx_lt {m : FuncMemory} (h : Configured m) (a : Nat) :
    offsetIdx m a < m.page_size := by
  obtain ⟨_, _, _, h4, _⟩ := h
  rw [h4]
  unfold offsetIdx getOffsetIdx
  exact Nat.mod_lt _ (Nat.two_pow_pos _)

theorem isResident_ensureAllocated (m : FuncMemory) (s p : Nat) :
    isResident (ensureAllocated m s p) s p = true := by
  cases h : m.sets_array s with
  | none => simp [ensureAllocated, isResident, h]
  | some t => cases h2 : t p <;> simp [ensureAllocated, isResident, h, h2]

theorem ensureAllocated_of_resident {m : FuncMemory} {s p : Nat}
    (h : isResident m s p = true) : ensureAllocated m s p = m := by
  cases h1 : m.sets_array s with
  | none => simp [isResident, h1] at h
  | some t =>
    cases h2 : t p with
    | none => simp [isResident, h1, h2] at h
    | some pg => simp [ensureAllocated, h1, h2]

theorem isResident_poke (m : FuncMemory) (s p o b s1 p1 : Nat) :
    isResident (poke m s p o b) s1 p1 = isResident m s1 p1 := by
  cases h : m.sets_array s with
  | none => simp [poke, h]
  | some t =>
    cases h2 : t p with
    | none => simp [poke, h, h2]
    | some pg =>
      by_cases hs : s1 = s
      · subst hs
        by_cases hp : p1 = p
        · subst hp
          simp [poke, isResident, h, h2]
        · simp [poke, isResident, h, h2, Function.update_noteq hp]
      · simp [poke, isResident, h, h2, Function.update_noteq hs]

theorem storeByte_eq_poke {m : FuncMemory} {s p o : Nat} (b : Nat)
    (hs : s < m.sets_array_size) (hp : p < m.pages_array_size) (ho : o < m.page_size)
    (h : isResident m s p = true) : storeByte m s p o b = .ok (poke m s p o b) := by
  cases h1 : m.sets_array s with
  | none => simp [isResident, h1] at h
  | some t =>
    cases h2 : t p with
    | none => simp [isResident, h1, h2] at h
    | some pg => simp [storeByte, pageAt, setAt, poke, hs, hp, ho, h1, h2]

theorem writeInit_eq {m : FuncMemory} {s p : Nat}
    (hs : s < m.sets_array_size) (hp : p < m.pages_array_size) :
    writeInit m s p = .ok (ensureAllocated m s p) := by
  cases h1 : m.sets_array s with
  | none => simp [writeInit, setAt, pageAt, allocSet, allocPage, ensureAllocated, hs, hp, h1]
  | some t =>
    cases h2 : t p <;>
      simp [writeInit, setAt, pageAt, allocSet, allocPage, ensureAllocated, hs, hp, h1, h2]

theorem loadByte_eq_putByte {m : FuncMemory} (h : Configured m) (a b : Nat) :
    loadByte m a b = .ok (putByte m a b) := by
  have hs := setIdx_lt h a
  have hp := pageIdx_lt h a
  have ho := offsetIdx_lt h a
  unfold setIdx at hs
  unfold pageIdx at hp
  unfold offsetIdx at ho
  cases h1 : m.sets_array
      (getSetIdx (m.addr_bits - m.page_num_size - m.offset_size) a m.addr_bits) with
  | none =>
    simp [loadByte, putByte, setIdx, pageIdx, offsetIdx, setAt, pageAt, allocSet, allocPage,
      storeByte, ensureAllocated, poke, hs, hp, ho, h1]
  | some t =>
    cases h2 : t (getPageIdx m.page_num_size m.offset_size a) <;>
      simp [loadByte, putByte, setIdx, pageIdx, offsetIdx, setAt, pageAt, allocSet, allocPage,
        storeByte, ensureAllocated, poke, hs, hp, ho, h1, h2]

end FuncMem

/-! ## The traversal loop of `write` -/

namespace FuncMem

theorem setIdx_addrOf {m : FuncMemory} (h : Configured m) {s p o : Nat}
    (hs : s < m.sets_array_size) (hp : p < m.pages_array_size) (ho : o < m.page_size) :
    setIdx m (addrOf m s p o) = s := by
  obtain ⟨h1, h2, h3, h4, _⟩ := h
  unfold setIdx addrOf
  rw [h3, h4]
  rw [h2] at hs
  rw [h3] at hp
  rw [h4] at ho
  exact getSetIdx_compose _ _ _ _ s p o (by omega) hs hp ho

theorem pageIdx_addrOf {m : FuncMemory} (h : Configured m) {s p o : Nat}
    (hp : p < m.pages_array_size) (ho : o < m.page_size) :
    pageIdx m (addrOf m s p o) = p := by
  obtain ⟨h1, h2, h3, h4, _⟩ := h
  unfold pageIdx addrOf
  rw [h3, h4]
  rw [h3] at hp
  rw [h4] at ho
  exact getPageIdx_compose _ _ s p o hp ho

theorem offsetIdx_addrOf {m : FuncMemory} (h : Configured m) {s p o : Nat}
    (ho : o < m.page_size) :
    offsetIdx m (addrOf m s p o) = o := by
  obtain ⟨h1, h2, h3, h4, _⟩ := h
  unfold offsetIdx addrOf
  rw [h4]
  rw [h4] at ho
  exact getOffsetIdx_compose _ _ o ho

theorem addrOf_lt_spaceSize (m : FuncMemory) {s p o : Nat}
    (hs : s < m.sets_array_size) (hp : p < m.pages_array_size) (ho : o < m.page_size) :
    addrOf m s p o < spaceSize m := by
  unfold addrOf spaceSize
  have h1 : s * m.pages_array_size + p + 1 ≤ m.sets_array_size * m.pages_array_size := by
    have : (s + 1) * m.pages_array_size ≤ m.sets_array_size * m.pages_array_size :=
      Nat.mul_le_mul_right _ hs
    rw [Nat.add_mul, Nat.one_mul] at this
    omega
  have h2 : (s * m.pages_array_size + p + 1) * m.page_size
      ≤ m.sets_array_size * m.pages_array_size * m.page_size :=
    Nat.mul_le_mul_right _ h1
  rw [Nat.add_mul, Nat.one_mul] at h2
  omega

theorem addrOf_setIdx {m : FuncMemory} (h : Configured m) {a : Nat} (ha : a < spaceSize m) :
    addrOf m (setIdx m a) (pageIdx m a) (offsetIdx m a) = a := by
  obtain ⟨h1, h2, h3, h4, _⟩ := h
  have hq : 0 < 2 ^ m.page_num_size := Nat.two_pow_pos _
  have hP : 0 < 2 ^ m.offset_size := Nat.two_pow_pos _
  unfold spaceSize at ha
  unfold addrOf setIdx pageIdx offsetIdx getSetIdx getPageIdx getOffsetIdx
  rw [h2, h3, h4] at ha
  rw [h3, h4]
  have e1 : m.addr_bits - (m.addr_bits - m.page_num_size - m.offset_size)
      = m.offset_size + m.page_num_size := by omega
  rw [e1, pow_add, ← Nat.div_div_eq_div_mul]
  have hlt : a / 2 ^ m.offset_size / 2 ^ m.page_num_size
      < 2 ^ (m.addr_bits - m.page_num_size - m.offset_size) := by
    rw [Nat.div_div_eq_div_mul, Nat.div_lt_iff_lt_mul (Nat.mul_pos hP hq)]
    calc a < 2 ^ (m.addr_bits - m.page_num_size - m.offset_size) * 2 ^ m.page_num_size
              * 2 ^ m.offset_size := ha
      _ = _ := by ring
  rw [Nat.mod_eq_of_lt hlt]
  exact (addr_decompose _ _ a).symm

end FuncMem

namespace FuncMem

theorem ensureSet_fields (m : FuncMemory) (s : Nat) :
    (ensureSet m s).addr_bits = m.addr_bits ∧
    (ensureSet m s).page_num_size = m.page_num_size ∧
    (ensureSet m s).offset_size = m.offset_size ∧
    (ensureSet m s).sets_array_size = m.sets_array_size ∧
    (ensureSet m s).pages_array_size = m.pages_array_size ∧
    (ensureSet m s).page_size = m.page_size ∧
    (ensureSet m s).text_start_addr = m.text_start_addr := by
  cases h : m.sets_array s <;> simp [ensureSet, h]

theorem ensureAllocated_ensureSet (m : FuncMemory) (s p : Nat) :
    ensureAllocated (ensureSet m s) s p = ensureAllocated m s p := by
  cases h : m.sets_array s with
  | none => simp [ensureSet, ensureAllocated, h]
  | some t => cases h2 : t p <;> simp [ensureSet, ensureAllocated, h, h2]

theorem ensureAllocated_idem (m : FuncMemory) (s p : Nat) :
    ensureAllocated (ensureAllocated m s p) s p = ensureAllocated m s p :=
  ensureAllocated_of_resident (isResident_ensureAllocated m s p)

theorem setIdx_congr {m m1 : FuncMemory} (h1 : m1.addr_bits = m.addr_bits)
    (h2 : m1.page_num_size = m.page_num_size) (h3 : m1.offset_size = m.offset_size) (a : Nat) :
    setIdx m1 a = setIdx m a := by
  unfold setIdx
  rw [h1, h2, h3]

theorem pageIdx_congr {m m1 : FuncMemory}
    (h2 : m1.page_num_size = m.page_num_size) (h3 : m1.offset_size = m.offset_size) (a : Nat) :
    pageIdx m1 a = pageIdx m a := by
  unfold pageIdx
  rw [h2, h3]

theorem offsetIdx_congr {m m1 : FuncMemory} (h3 : m1.offset_size = m.offset_size) (a : Nat) :
    offsetIdx m1 a = offsetIdx m a := by
  unfold offsetIdx
  rw [h3]

theorem putByte_ensureAllocated (m : FuncMemory) (a b : Nat) :
    putByte (ensureAllocated m (setIdx m a) (pageIdx m a)) a b = putByte m a b := by
  obtain ⟨a1, a2, a3, _⟩ := ensureAllocated_fields m (setIdx m a) (pageIdx m a)
  unfold putByte
  rw [setIdx_congr a1 a2 a3, pageIdx_congr a2 a3, offsetIdx_congr a3, ensureAllocated_idem]

theorem putByte_of_resident {m : FuncMemory} {a : Nat} (b : Nat)
    (h : isResident m (setIdx m a) (pageIdx m a) = true) :
    putByte m a b = poke m (setIdx m a) (pageIdx m a) (offsetIdx m a) b := by
  unfold putByte
  rw [ensureAllocated_of_resident h]

theorem mod_twoTo64 {x : Nat} (h : x < twoTo64) : x % twoTo64 = x := Nat.mod_eq_of_lt h

theorem writeLoop_done (v n fuel : Nat) (m : FuncMemory) (c : Cursor) (h : ¬ c.bytes < n) :
    writeLoop v n fuel m c = .ok m := by
  cases fuel <;> simp [writeLoop, h]

theorem writeLoop_succ (v n fuel : Nat) (m : FuncMemory) (c : Cursor) (h : c.bytes < n) :
    writeLoop v n (fuel + 1) m c =
      match writeStep v m c with
      | .error e => .error e
      | .ok (m1, c1) => writeLoop v n fuel m1 c1 := by
  simp [writeLoop, h]

theorem writeStep_RDWR_stay (v : Nat) {m : FuncMemory} {s p o k : Nat} (hk : k < 8)
    (hs : s < m.sets_array_size) (hp : p < m.pages_array_size) (ho : o < m.page_size)
    (hr : isResident m s p = true) (hz : m.page_size < twoTo64) (hn : o + 1 < m.page_size) :
    writeStep v m ⟨.RDWR, s, p, o, k⟩ =
      .ok (poke m s p o ((v / 256 ^ k) % 256), ⟨.RDWR, s, p, o + 1, k + 1⟩) := by
  have e : (o + 1) % twoTo64 = o + 1 := mod_twoTo64 (by omega)
  simp [writeStep, unionByte, hk, storeByte_eq_poke _ hs hp ho hr, e, hn]

theorem writeStep_RDWR_cross (v : Nat) {m : FuncMemory} {s p o k : Nat} (hk : k < 8)
    (hs : s < m.sets_array_size) (hp : p < m.pages_array_size) (ho : o < m.page_size)
    (hr : isResident m s p = true) (hz : m.page_size < twoTo64)
    (hq : m.pages_array_size < twoTo64) (hn : m.page_size ≤ o + 1) :
    writeStep v m ⟨.RDWR, s, p, o, k⟩ =
      .ok (poke m s p o ((v / 256 ^ k) % 256), ⟨.CNG_PG, s, p + 1, o + 1, k + 1⟩) := by
  have e : (o + 1) % twoTo64 = o + 1 := mod_twoTo64 (by omega)
  have e2 : (p + 1) % twoTo64 = p + 1 := mod_twoTo64 (by omega)
  simp [writeStep, unionByte, hk, storeByte_eq_poke _ hs hp ho hr, e, e2, hn]

theorem writeStep_CNG_PG_alloc (v : Nat) {m : FuncMemory} {s p o k : Nat}
    (hs : s < m.sets_array_size) (hp : p < m.pages_array_size)
    (hr : (m.sets_array s).isSome = true) :
    writeStep v m ⟨.CNG_PG, s, p, o, k⟩ =
      .ok (ensureAllocated m s p, ⟨.RDWR, s, p, 0, k⟩) := by
  cases h1 : m.sets_array s with
  | none => simp [h1] at hr
  | some t =>
    cases h2 : t p <;>
      simp [writeStep, pageAt, setAt, allocPage, ensureAllocated, hs, hp, h1, h2]

theorem writeStep_CNG_PG_wrap (v : Nat) {m : FuncMemory} {s p o k : Nat}
    (hs : s < m.sets_array_size) (hz : m.sets_array_size < twoTo64)
    (hp : m.pages_array_size ≤ p) :
    writeStep v m ⟨.CNG_PG, s, p, o, k⟩ = .ok (m, ⟨.CNG_SET, s + 1, p, 0, k⟩) := by
  have e : (s + 1) % twoTo64 = s + 1 := mod_twoTo64 (by omega)
  simp [writeStep, hp, e]

theorem writeStep_CNG_SET_exit (v : Nat) {m : FuncMemory} {s p o k : Nat}
    (hs : m.sets_array_size ≤ s) :
    writeStep v m ⟨.CNG_SET, s, p, o, k⟩ = .ok (m, ⟨.EXIT, s, 0, o, k⟩) := by
  simp [writeStep, hs]

theorem writeStep_CNG_SET_alloc (v : Nat) {m : FuncMemory} {s p o k : Nat}
    (hs : s < m.sets_array_size) :
    writeStep v m ⟨.CNG_SET, s, p, o, k⟩ = .ok (ensureSet m s, ⟨.CNG_PG, s, 0, o, k⟩) := by
  cases h1 : m.sets_array s <;>
    simp [writeStep, setAt, allocSet, ensureSet, hs, h1]

theorem writeStep_EXIT (v : Nat) (m : FuncMemory) (s p o k : Nat) :
    writeStep v m ⟨.EXIT, s, p, o, k⟩ = .error .assertion := by
  simp [writeStep]

theorem isSome_set_of_resident {m : FuncMemory} {s p : Nat} (h : isResident m s p = true) :
    (m.sets_array s).isSome = true := by
  cases h1 : m.sets_array s with
  | none => simp [isResident, h1] at h
  | some t => rfl

theorem isSome_set_ensureSet (m : FuncMemory) (s : Nat) :
    ((ensureSet m s).sets_array s).isSome = true := by
  cases h1 : m.sets_array s <;> simp [ensureSet, h1]

end FuncMem

namespace FuncMem

theorem putByte_addrOf {m : FuncMemory} (h : Configured m) {s p o : Nat} (b : Nat)
    (hs : s < m.sets_array_size) (hp : p < m.pages_array_size) (ho : o < m.page_size)
    (hr : isResident m s p = true) :
    putByte m (addrOf m s p o) b = poke m s p o b := by
  have e1 := setIdx_addrOf h hs hp ho
  have e2 := pageIdx_addrOf (s := s) h hp ho
  have e3 := offsetIdx_addrOf (s := s) (p := p) h ho
  unfold putByte
  rw [e1, e2, e3, ensureAllocated_of_resident hr]

theorem putBytes_ensureAllocated_addrOf {m : FuncMemory} (h : Configured m) {s p o : Nat}
    (b : Nat) (bs : List Nat)
    (hs : s < m.sets_array_size) (hp : p < m.pages_array_size) (ho : o < m.page_size) :
    putBytes (ensureAllocated m s p) (addrOf m s p o) (b :: bs)
      = putBytes m (addrOf m s p o) (b :: bs) := by
  have e1 := setIdx_addrOf h hs hp ho
  have e2 := pageIdx_addrOf (s := s) h hp ho
  have e := putByte_ensureAllocated m (addrOf m s p o) b
  rw [e1, e2] at e
  simp only [putBytes, e]

theorem addrOf_congr {m m1 : FuncMemory} (h5 : m1.pages_array_size = m.pages_array_size)
    (h6 : m1.page_size = m.page_size) (s p o : Nat) : addrOf m1 s p o = addrOf m s p o := by
  unfold addrOf
  rw [h5, h6]

theorem spaceSize_congr {m m1 : FuncMemory} (h4 : m1.sets_array_size = m.sets_array_size)
    (h5 : m1.pages_array_size = m.pages_array_size)
    (h6 : m1.page_size = m.page_size) : spaceSize m1 = spaceSize m := by
  unfold spaceSize
  rw [h4, h5, h6]

theorem addrOf_succ_offset (m : FuncMemory) (s p o : Nat) :
    addrOf m s p (o + 1) = addrOf m s p o + 1 := by
  unfold addrOf
  omega

theorem addrOf_succ_page (m : FuncMemory) (s p o : Nat) (h : o + 1 = m.page_size) :
    addrOf m s (p + 1) 0 = addrOf m s p o + 1 := by
  unfold addrOf
  rw [← h]
  ring

theorem addrOf_succ_set (m : FuncMemory) (s p o : Nat) (h : o + 1 = m.page_size)
    (hp : p + 1 = m.pages_array_size) :
    addrOf m (s + 1) 0 0 = addrOf m s p o + 1 := by
  unfold addrOf
  rw [← h, ← hp]
  ring

theorem spaceSize_eq_succ (m : FuncMemory) (s p o : Nat) (h : o + 1 = m.page_size)
    (hp : p + 1 = m.pages_array_size) (hs : s + 1 = m.sets_array_size) :
    spaceSize m = addrOf m s p o + 1 := by
  unfold addrOf spaceSize
  rw [← h, ← hp, ← hs]
  ring

end FuncMem

namespace FuncMem

theorem writeLoop_run (v n : Nat) (hn8 : n ≤ 8) :
    ∀ (r : Nat) (m : FuncMemory) (s p o k fuel : Nat), Configured m →
      isResident m s p = true → s < m.sets_array_size → p < m.pages_array_size →
      o < m.page_size → k + (r + 1) = n → 4 * (r + 1) ≤ fuel →
      writeLoop v n fuel m ⟨.RDWR, s, p, o, k⟩ =
        if addrOf m s p o + (r + 1) ≤ spaceSize m then
          .ok (putBytes m (addrOf m s p o) (valueBytes v k (r + 1)))
        else .error .assertion := by
  intro r
  induction r with
  | zero =>
    intro m s p o k fuel hc hr hs hp ho hk hf
    obtain ⟨f, rfl⟩ : ∃ f, fuel = f + 1 := ⟨fuel - 1, by omega⟩
    have hlt := addrOf_lt_spaceSize m hs hp ho
    have hz := hc.2.2.2.2.2.2
    have hq := hc.2.2.2.2.2.1
    rw [writeLoop_succ _ _ _ _ _ (by show k < n; omega)]
    rw [if_pos (by omega)]
    simp only [valueBytes, putBytes, putByte_addrOf hc _ hs hp ho hr]
    rcases Nat.lt_or_ge (o + 1) m.page_size with hn | hn
    · rw [writeStep_RDWR_stay v (by omega) hs hp ho hr hz hn]
      exact writeLoop_done _ _ _ _ _ (by show ¬ k + 1 < n; omega)
    · rw [writeStep_RDWR_cross v (by omega) hs hp ho hr hz hq hn]
      exact writeLoop_done _ _ _ _ _ (by show ¬ k + 1 < n; omega)
  | succ r ih =>
    intro m s p o k fuel hc hr hs hp ho hk hf
    obtain ⟨f, rfl⟩ : ∃ f, fuel = f + 4 := ⟨fuel - 4, by omega⟩
    have hz := hc.2.2.2.2.2.2
    have hq := hc.2.2.2.2.2.1
    have hS := hc.2.2.2.2.1
    have hk1 : k < n := by omega
    have hk2 : k + 1 < n := by omega
    obtain ⟨a1, a2, a3, a4, a5, a6, _⟩ := poke_fields m s p o ((v / 256 ^ k) % 256)
    have hc1 : Configured (poke m s p o ((v / 256 ^ k) % 256)) := Configured_poke hc _ _ _ _
    have hr1 : isResident (poke m s p o ((v / 256 ^ k) % 256)) s p = true := by
      rw [isResident_poke]; exact hr
    have hput : putBytes m (addrOf m s p o) (valueBytes v k (r + 1 + 1))
        = putBytes (poke m s p o ((v / 256 ^ k) % 256)) (addrOf m s p o + 1)
            (valueBytes v (k + 1) (r + 1)) := by
      rw [valueBytes, putBytes, putByte_addrOf hc _ hs hp ho hr]
    rw [hput]
    rw [show f + 4 = (f + 3) + 1 from rfl, writeLoop_succ _ _ _ _ _ (by show k < n; omega)]
    rcases Nat.lt_or_ge (o + 1) m.page_size with hn | hn
    · -- the next byte lies in the same page
      rw [writeStep_RDWR_stay v (by omega) hs hp ho hr hz hn]
      simp only []
      rw [ih _ s p (o + 1) (k + 1) (f + 3) hc1 hr1 (by rw [a4]; exact hs) (by rw [a5]; exact hp)
        (by rw [a6]; exact hn) (by omega) (by omega)]
      rw [addrOf_congr a5 a6, spaceSize_congr a4 a5 a6, addrOf_succ_offset]
      have e : addrOf m s p o + 1 + (r + 1) = addrOf m s p o + (r + 1 + 1) := by omega
      rw [e]
    · have hP : o + 1 = m.page_size := by omega
      rw [writeStep_RDWR_cross v (by omega) hs hp ho hr hz hq hn]
      simp only []
      rw [show f + 3 = (f + 2) + 1 from rfl, writeLoop_succ _ _ _ _ _ (by show k + 1 < n; omega)]
      rcases Nat.lt_or_ge (p + 1) m.pages_array_size with hpn | hpn
      · -- the next byte lies in the next page of the same set
        rw [writeStep_CNG_PG_alloc v (by rw [a4]; exact hs) (by rw [a5]; exact hpn)
          (isSome_set_of_resident hr1)]
        simp only []
        obtain ⟨b1, b2, b3, b4, b5, b6, _⟩ :=
          ensureAllocated_fields (poke m s p o ((v / 256 ^ k) % 256)) s (p + 1)
        rw [ih _ s (p + 1) 0 (k + 1) (f + 2) (Configured_ensureAllocated hc1 _ _)
          (isResident_ensureAllocated _ _ _) (by rw [b4, a4]; exact hs)
          (by rw [b5, a5]; exact hpn) (by rw [b6, a6]; omega) (by omega) (by omega)]
        rw [addrOf_congr b5 b6, spaceSize_congr b4 b5 b6, valueBytes,
          putBytes_ensureAllocated_addrOf hc1 _ _ (by rw [a4]; exact hs)
            (by rw [a5]; exact hpn) (by rw [a6]; omega)]
        rw [addrOf_congr a5 a6, spaceSize_congr a4 a5 a6, addrOf_succ_page m s p o hP]
        have e : addrOf m s p o + 1 + (r + 1) = addrOf m s p o + (r + 1 + 1) := by omega
        rw [e]
      · have hQ : p + 1 = m.pages_array_size := by omega
        rw [writeStep_CNG_PG_wrap v (by rw [a4]; exact hs) (by rw [a4]; exact hS)
          (by rw [a5]; exact hpn)]
        simp only []
        rw [show f + 2 = (f + 1) + 1 from rfl,
          writeLoop_succ _ _ _ _ _ (by show k + 1 < n; omega)]
        rcases Nat.lt_or_ge (s + 1) m.sets_array_size with hsn | hsn
        · -- the next byte lies in page 0 of the next set
          rw [writeStep_CNG_SET_alloc v (by rw [a4]; exact hsn)]
          simp only []
          obtain ⟨d1, d2, d3, d4, d5, d6, _⟩ :=
            ensureSet_fields (poke m s p o ((v / 256 ^ k) % 256)) (s + 1)
          have hQpos : 0 < m.pages_array_size := by omega
          rw [writeLoop_succ _ _ _ _ _ (by show k + 1 < n; omega),
            writeStep_CNG_PG_alloc v (by rw [d4, a4]; exact hsn) (by rw [d5, a5]; exact hQpos)
              (isSome_set_ensureSet _ _)]
          simp only []
          rw [ensureAllocated_ensureSet]
          obtain ⟨b1, b2, b3, b4, b5, b6, _⟩ :=
            ensureAllocated_fields (poke m s p o ((v / 256 ^ k) % 256)) (s + 1) 0
          rw [ih _ (s + 1) 0 0 (k + 1) f (Configured_ensureAllocated hc1 _ _)
            (isResident_ensureAllocated _ _ _) (by rw [b4, a4]; exact hsn)
            (by rw [b5, a5]; exact hQpos) (by rw [b6, a6]; omega) (by omega) (by omega)]
          rw [addrOf_congr b5 b6, spaceSize_congr b4 b5 b6, valueBytes,
            putBytes_ensureAllocated_addrOf hc1 _ _ (by rw [a4]; exact hsn)
              (by rw [a5]; exact hQpos) (by rw [a6]; omega)]
          rw [addrOf_congr a5 a6, spaceSize_congr a4 a5 a6, addrOf_succ_set m s p o hP hQ]
          have e : addrOf m s p o + 1 + (r + 1) = addrOf m s p o + (r + 1 + 1) := by omega
          rw [e]
        · -- the next byte lies beyond the last set
          have hSe : s + 1 = m.sets_array_size := by omega
          rw [writeStep_CNG_SET_exit v (by rw [a4]; exact hsn)]
          simp only []
          rw [writeLoop_succ _ _ _ _ _ (by show k + 1 < n; omega), writeStep_EXIT]
          simp only []
          rw [if_neg]
          rw [spaceSize_eq_succ m s p o hP hQ hSe]
          omega

end FuncMem

namespace FuncMem

theorem spaceSize_eq {m : FuncMemory} (h : Configured m) : spaceSize m = 2 ^ m.addr_bits := by
  obtain ⟨h1, h2, h3, h4, _⟩ := h
  unfold spaceSize
  rw [h2, h3, h4, ← pow_add, ← pow_add]
  congr 1
  omega

theorem write_eq {m : FuncMemory} (hc : Configured m) (v a n : Nat) (h1 : 1 ≤ n) (h8 : n ≤ 8)
    (ha : a < spaceSize m) :
    write m v a n =
      if a + n ≤ spaceSize m then .ok (putBytes m a (valueBytes (v % twoTo64) 0 n))
      else .error .assertion := by
  have hs := setIdx_lt hc a
  have hp := pageIdx_lt hc a
  have ho := offsetIdx_lt hc a
  obtain ⟨b1, b2, b3, b4, b5, b6, _⟩ := ensureAllocated_fields m (setIdx m a) (pageIdx m a)
  obtain ⟨r, rfl⟩ : ∃ r, n = r + 1 := ⟨n - 1, by omega⟩
  have hrun := writeLoop_run (v % twoTo64) (r + 1) h8 r
    (ensureAllocated m (setIdx m a) (pageIdx m a)) (setIdx m a) (pageIdx m a) (offsetIdx m a) 0
    (4 * (r + 1)) (Configured_ensureAllocated hc _ _) (isResident_ensureAllocated _ _ _)
    (by rw [b4]; exact hs) (by rw [b5]; exact hp) (by rw [b6]; exact ho) (by omega) (by omega)
  rw [addrOf_congr b5 b6, spaceSize_congr b4 b5 b6, valueBytes,
    putBytes_ensureAllocated_addrOf hc _ _ hs hp ho, addrOf_setIdx hc ha, ← valueBytes] at hrun
  rw [← hrun]
  have hi := writeInit_eq hs hp
  unfold setIdx pageIdx at hi
  unfold write
  rw [if_neg (by omega)]
  simp only [hi]
  rfl

/-! ## Residency and contents after the reference operations -/

theorem isResident_ensureAllocated_iff (m : FuncMemory) (s p s1 p1 : Nat) :
    isResident (ensureAllocated m s p) s1 p1 = true ↔
      isResident m s1 p1 = true ∨ (s1 = s ∧ p1 = p) := by
  by_cases hs : s1 = s
  · subst hs
    by_cases hp : p1 = p
    · subst hp
      simp [isResident_ensureAllocated]
    · cases h : m.sets_array s1 with
      | none => simp [ensureAllocated, isResident, h, hp, Function.update_noteq hp]
      | some t =>
        cases h2 : t p <;> simp [ensureAllocated, isResident, h, h2, hp, Function.update_noteq hp]
  · cases h : m.sets_array s with
    | none => simp [ensureAllocated, isResident, h, hs, Function.update_noteq hs]
    | some t =>
      cases h2 : t p <;> simp [ensureAllocated, isResident, h, h2, hs, Function.update_noteq hs]

theorem isResident_putByte_iff (m : FuncMemory) (a b s1 p1 : Nat) :
    isResident (putByte m a b) s1 p1 = true ↔
      isResident m s1 p1 = true ∨ (s1 = setIdx m a ∧ p1 = pageIdx m a) := by
  unfold putByte
  rw [isResident_poke, isResident_ensureAllocated_iff]

theorem isResident_putBytes_iff (bs : List Nat) :
    ∀ (m : FuncMemory) (a s1 p1 : Nat),
      isResident (putBytes m a bs) s1 p1 = true ↔
        isResident m s1 p1 = true ∨
          ∃ i, i < bs.length ∧ s1 = setIdx m (a + i) ∧ p1 = pageIdx m (a + i) := by
  induction bs with
  | nil => intro m a s1 p1; simp [putBytes]
  | cons b bs ih =>
    intro m a s1 p1
    obtain ⟨a1, a2, a3, _⟩ := putByte_fields m a b
    rw [putBytes, ih, isResident_putByte_iff]
    constructor
    · rintro ((h | h) | ⟨i, hi, h1, h2⟩)
      · exact Or.inl h
      · exact Or.inr ⟨0, by simp, by simpa using h⟩
      · refine Or.inr ⟨i + 1, by simpa using hi, ?_, ?_⟩
        · rw [h1, setIdx_congr a1 a2 a3]; congr 1; omega
        · rw [h2, pageIdx_congr a2 a3]; congr 1; omega
    · rintro (h | ⟨i, hi, h1, h2⟩)
      · exact Or.inl (Or.inl h)
      · cases i with
        | zero => exact Or.inl (Or.inr (by simpa using ⟨h1, h2⟩))
        | succ j =>
          refine Or.inr ⟨j, by simpa using hi, ?_, ?_⟩
          · rw [h1, setIdx_congr a1 a2 a3]; congr 1; omega
          · rw [h2, pageIdx_congr a2 a3]; congr 1; omega

theorem valueBytes_length (v : Nat) : ∀ (r k : Nat), (valueBytes v k r).length = r := by
  intro r
  induction r with
  | zero => intro k; rfl
  | succ r ih => intro k; simp [valueBytes, ih]

end FuncMem

namespace FuncMem

theorem peek_poke_same {m : FuncMemory} {s p : Nat} (o b : Nat)
    (h : isResident m s p = true) : peek (poke m s p o b) s p o = some b := by
  cases h1 : m.sets_array s with
  | none => simp [isResident, h1] at h
  | some t =>
    cases h2 : t p with
    | none => simp [isResident, h1, h2] at h
    | some pg => simp [poke, peek, h1, h2]

theorem peek_poke_other (m : FuncMemory) {s p o s1 p1 o1 : Nat} (b : Nat)
    (h : ¬ (s1 = s ∧ p1 = p ∧ o1 = o)) :
    peek (poke m s p o b) s1 p1 o1 = peek m s1 p1 o1 := by
  cases h1 : m.sets_array s with
  | none => simp [poke, h1]
  | some t =>
    cases h2 : t p with
    | none => simp [poke, h1, h2]
    | some pg =>
      by_cases hs : s1 = s
      · subst hs
        by_cases hp : p1 = p
        · subst hp
          have ho : o1 ≠ o := fun e => h ⟨rfl, rfl, e⟩
          simp [poke, peek, h1, h2, Function.update_noteq ho]
        · simp [poke, peek, h1, h2, Function.update_noteq hp]
      · simp [poke, peek, h1, h2, Function.update_noteq hs]

theorem peek_ensureAllocated_of_resident (m : FuncMemory) (s p : Nat) {s1 p1 : Nat} (o1 : Nat)
    (h : isResident m s1 p1 = true) :
    peek (ensureAllocated m s p) s1 p1 o1 = peek m s1 p1 o1 := by
  by_cases hs : s1 = s
  · subst hs
    cases h1 : m.sets_array s1 with
    | none => simp [isResident, h1] at h
    | some t =>
      cases h2 : t p with
      | some pg => simp [ensureAllocated, h1, h2]
      | none =>
        have hp : p1 ≠ p := by
          intro e
          subst e
          simp [isResident, h1, h2] at h
        simp [ensureAllocated, peek, h1, h2, Function.update_noteq hp]
  · cases h1 : m.sets_array s with
    | none => simp [ensureAllocated, peek, h1, Function.update_noteq hs]
    | some t =>
      cases h2 : t p <;> simp [ensureAllocated, peek, h1, h2, Function.update_noteq hs]

theorem peek_ensureAllocated_fresh {m : FuncMemory} {s p : Nat} (o : Nat)
    (h : isResident m s p = false) : peek (ensureAllocated m s p) s p o = some 0 := by
  cases h1 : m.sets_array s with
  | none => simp [ensureAllocated, peek, h1]
  | some t =>
    cases h2 : t p with
    | none => simp [ensureAllocated, peek, h1, h2]
    | some pg => simp [isResident, h1, h2] at h

theorem peek_isSome_iff (m : FuncMemory) (s p o : Nat) :
    (peek m s p o).isSome = isResident m s p := by
  cases h1 : m.sets_array s with
  | none => simp [peek, isResident, h1]
  | some t => cases h2 : t p <;> simp [peek, isResident, h1, h2]

theorem byteOf_putByte_same (m : FuncMemory) (a b : Nat) :
    byteOf (putByte m a b) a = some b := by
  obtain ⟨a1, a2, a3, _⟩ := putByte_fields m a b
  unfold byteOf
  rw [setIdx_congr a1 a2 a3, pageIdx_congr a2 a3, offsetIdx_congr a3]
  unfold putByte
  exact peek_poke_same _ _ (isResident_ensureAllocated _ _ _)

theorem decompose_injective {m : FuncMemory} (hc : Configured m) {x a : Nat}
    (hx : x < spaceSize m) (ha : a < spaceSize m)
    (h : setIdx m x = setIdx m a ∧ pageIdx m x = pageIdx m a ∧ offsetIdx m x = offsetIdx m a) :
    x = a := by
  rw [← addrOf_setIdx hc hx, ← addrOf_setIdx hc ha, h.1, h.2.1, h.2.2]

theorem byteOf_putByte_other {m : FuncMemory} (hc : Configured m) {x a : Nat} (b : Nat)
    (hx : x < spaceSize m) (ha : a < spaceSize m) (hne : x ≠ a)
    (hr : isResident m (setIdx m x) (pageIdx m x) = true) :
    byteOf (putByte m a b) x = byteOf m x := by
  obtain ⟨a1, a2, a3, _⟩ := putByte_fields m a b
  unfold byteOf
  rw [setIdx_congr a1 a2 a3, pageIdx_congr a2 a3, offsetIdx_congr a3]
  unfold putByte
  rw [peek_poke_other _ _ (fun e => hne (decompose_injective hc hx ha e)),
    peek_ensureAllocated_of_resident _ _ _ _ hr]

theorem byteOf_putBytes_other (bs : List Nat) :
    ∀ {m : FuncMemory} (_ : Configured m) {x a : Nat} (_ : x < spaceSize m)
      (_ : a + bs.length ≤ spaceSize m) (_ : x < a ∨ a + bs.length ≤ x)
      (_ : isResident m (setIdx m x) (pageIdx m x) = true),
      byteOf (putBytes m a bs) x = byteOf m x := by
  induction bs with
  | nil => intros; rfl
  | cons b bs ih =>
    intro m hc x a hx ha hne hr
    obtain ⟨a1, a2, a3, a4, a5, a6, _⟩ := putByte_fields m a b
    have hsp := spaceSize_congr a4 a5 a6
    simp only [List.length_cons] at ha hne
    rw [putBytes, ih (Configured_putByte hc a b) (by rw [hsp]; exact hx)
      (by rw [hsp]; omega) (by omega)
      (by rw [setIdx_congr a1 a2 a3, pageIdx_congr a2 a3, isResident_putByte_iff]
          exact Or.inl hr)]
    exact byteOf_putByte_other hc b hx (by omega) (by omega) hr

theorem byteOf_putBytes_same (bs : List Nat) :
    ∀ {m : FuncMemory} (_ : Configured m) {a i : Nat} (_ : a + bs.length ≤ spaceSize m)
      (hi : i < bs.length), byteOf (putBytes m a bs) (a + i) = some (bs.get ⟨i, hi⟩) := by
  induction bs with
  | nil => intro m hc a i ha hi; simp at hi
  | cons b bs ih =>
    intro m hc a i ha hi
    obtain ⟨a1, a2, a3, a4, a5, a6, _⟩ := putByte_fields m a b
    have hsp := spaceSize_congr a4 a5 a6
    simp only [List.length_cons] at ha hi
    rw [putBytes]
    cases i with
    | zero =>
      rw [Nat.add_zero, byteOf_putBytes_other bs (Configured_putByte hc a b)
        (by rw [hsp]; omega) (by rw [hsp]; omega) (by omega)
        (by rw [setIdx_congr a1 a2 a3, pageIdx_congr a2 a3, isResident_putByte_iff]
            exact Or.inr ⟨rfl, rfl⟩)]
      exact byteOf_putByte_same m a b
    | succ j =>
      have e : a + (j + 1) = a + 1 + j := by omega
      rw [e, ih (Configured_putByte hc a b) (by rw [hsp]; omega) (by omega)]
      rfl

/-! ## Reading one byte -/

theorem readLoop_done (m : FuncMemory) (n fuel : Nat) (c : Cursor) (number : Nat)
    (h : ¬ c.bytes < n) : readLoop m n fuel c number = .ok number := by
  cases fuel <;> simp [readLoop, h]

theorem readLoop_succ (m : FuncMemory) (n fuel : Nat) (c : Cursor) (number : Nat)
    (h : c.bytes < n) :
    readLoop m n (fuel + 1) c number =
      match readStep m c number with
      | .error e => .error e
      | .ok (c1, number1) => readLoop m n fuel c1 number1 := by
  simp [readLoop, h]

theorem byteAt_of_peek {m : FuncMemory} {s p o b : Nat}
    (hs : s < m.sets_array_size) (hp : p < m.pages_array_size) (ho : o < m.page_size)
    (h : peek m s p o = some b) : byteAt m s p o = .ok b := by
  cases h1 : m.sets_array s with
  | none => simp [peek, h1] at h
  | some t =>
    cases h2 : t p with
    | none => simp [peek, h1, h2] at h
    | some pg =>
      simp only [peek, h1, h2, Option.some.injEq] at h
      simp [byteAt, pageAt, setAt, hs, hp, ho, h1, h2, h]

theorem readStep_RDWR {m : FuncMemory} {s p o k b : Nat} (number : Nat) {z : Int}
    (hs : s < m.sets_array_size) (hp : p < m.pages_array_size) (ho : o < m.page_size)
    (h : peek m s p o = some b) (hz : shlInt b (k * 8) = .ok z) :
    ∃ c1, readStep m ⟨.RDWR, s, p, o, k⟩ number = .ok (c1, (number + toUint64 z) % twoTo64)
      ∧ c1.bytes = k + 1 := by
  by_cases hn : m.page_size ≤ (o + 1) % twoTo64
  · exact ⟨_, by simp [readStep, byteAt_of_peek hs hp ho h, hz, hn]; rfl, rfl⟩
  · exact ⟨_, by simp [readStep, byteAt_of_peek hs hp ho h, hz, hn]; rfl, rfl⟩

theorem readCheck_of_resident {m : FuncMemory} {s p : Nat}
    (hs : s < m.sets_array_size) (hp : p < m.pages_array_size)
    (h : isResident m s p = true) : readCheck m s p = .ok () := by
  cases h1 : m.sets_array s with
  | none => simp [isResident, h1] at h
  | some t => simp [readCheck, pageAt, setAt, hs, hp, h1]

theorem read_one {m : FuncMemory} (hc : Configured m) {x b : Nat}
    (h : byteOf m x = some b) (hb : b < 256) : read m x 1 = .ok b := by
  have hs := setIdx_lt hc x
  have hp := pageIdx_lt hc x
  have ho := offsetIdx_lt hc x
  have hr : isResident m (setIdx m x) (pageIdx m x) = true := by
    rw [← peek_isSome_iff m _ _ (offsetIdx m x)]
    unfold byteOf at h
    rw [h]
    rfl
  have hz : shlInt b (0 * 8) = .ok (b : Int) := by
    have e1 : b % 4294967296 = b := Nat.mod_eq_of_lt (by omega)
    have hb2 : b < 2147483648 := by omega
    simp [shlInt, e1, hb2]
  obtain ⟨c1, hstep, hbytes⟩ := readStep_RDWR 0 hs hp ho h hz
  have e2 : (0 + toUint64 (b : Int)) % twoTo64 = b := by
    unfold toUint64 twoTo64
    omega
  rw [e2] at hstep
  have hck := readCheck_of_resident hs hp hr
  unfold setIdx at hck hstep
  unfold pageIdx at hck hstep
  unfold offsetIdx at hstep
  unfold read
  rw [if_neg (by omega)]
  simp only [hck]
  rw [show 4 * 1 = 3 + 1 from rfl, readLoop_succ _ _ _ _ _ (by show 0 < 1; omega), hstep]
  exact readLoop_done _ _ _ _ _ (by rw [hbytes]; omega)

end FuncMem

namespace FuncMem

theorem valueBytes_get (v : Nat) :
    ∀ (r k i : Nat) (hi : i < (valueBytes v k r).length),
      (valueBytes v k r).get ⟨i, hi⟩ = (v / 256 ^ (k + i)) % 256 := by
  intro r
  induction r with
  | zero => intro k i hi; simp [valueBytes] at hi
  | succ r ih =>
    intro k i hi
    cases i with
    | zero => simp [valueBytes]
    | succ j =>
      simp only [valueBytes, List.get_cons_succ]
      rw [ih]
      congr 3
      omega

theorem uint64_byte (v i : Nat) (hi : i < 8) :
    (v % twoTo64 / 256 ^ i) % 256 = (v / 256 ^ i) % 256 := by
  have e : twoTo64 = 256 ^ i * (256 * 256 ^ (7 - i)) := by
    rw [← pow_succ', ← pow_add]
    have : i + (7 - i + 1) = 8 := by omega
    rw [this]
    rfl
  rw [e, Nat.mod_mul_right_div_self, Nat.mod_mul_right_mod]

theorem shift_mask_eq (v i : Nat) : (v >>> (8 * i)) &&& 0xFF = (v / 256 ^ i) % 256 := by
  have e : (0xFF : Nat) = 2 ^ 8 - 1 := by norm_num
  rw [e, Nat.and_pow_two_sub_one_eq_mod, Nat.shiftRight_eq_div_pow, pow_mul]
  norm_num

theorem configured_emptyMemory16 : Configured emptyMemory16 := by
  unfold Configured emptyMemory16 twoTo64
  decide

theorem create_emptyMemory16 : create [] 16 4 4 = .ok emptyMemory16 := rfl

end FuncMem

namespace FuncMem

theorem setResident_ensureAllocated_iff (m : FuncMemory) (s p s1 : Nat) :
    ((ensureAllocated m s p).sets_array s1).isSome = true ↔
      (m.sets_array s1).isSome = true ∨ s1 = s := by
  by_cases hs : s1 = s
  · subst hs
    cases h : m.sets_array s1 with
    | none => simp [ensureAllocated, h]
    | some t => cases h2 : t p <;> simp [ensureAllocated, h, h2]
  · cases h : m.sets_array s with
    | none => simp [ensureAllocated, h, hs, Function.update_noteq hs]
    | some t => cases h2 : t p <;> simp [ensureAllocated, h, h2, hs, Function.update_noteq hs]

theorem setResident_poke (m : FuncMemory) (s p o b s1 : Nat) :
    ((poke m s p o b).sets_array s1).isSome = (m.sets_array s1).isSome := by
  cases h : m.sets_array s with
  | none => simp [poke, h]
  | some t =>
    cases h2 : t p with
    | none => simp [poke, h, h2]
    | some pg =>
      by_cases hs : s1 = s
      · subst hs
        simp [poke, h, h2]
      · simp [poke, h, h2, Function.update_noteq hs]

theorem setResident_putByte_iff (m : FuncMemory) (a b s1 : Nat) :
    ((putByte m a b).sets_array s1).isSome = true ↔
      (m.sets_array s1).isSome = true ∨ s1 = setIdx m a := by
  unfold putByte
  rw [setResident_poke, setResident_ensureAllocated_iff]

theorem setResident_putBytes_iff (bs : List Nat) :
    ∀ (m : FuncMemory) (a s1 : Nat),
      ((putBytes m a bs).sets_array s1).isSome = true ↔
        (m.sets_array s1).isSome = true ∨ ∃ i, i < bs.length ∧ s1 = setIdx m (a + i) := by
  induction bs with
  | nil => intro m a s1; simp [putBytes]
  | cons b bs ih =>
    intro m a s1
    obtain ⟨a1, a2, a3, _⟩ := putByte_fields m a b
    rw [putBytes, ih, setResident_putByte_iff]
    constructor
    · rintro ((h | h) | ⟨i, hi, h1⟩)
      · exact Or.inl h
      · exact Or.inr ⟨0, by simp, by simpa using h⟩
      · refine Or.inr ⟨i + 1, by simpa using hi, ?_⟩
        rw [h1, setIdx_congr a1 a2 a3]; congr 1; omega
    · rintro (h | ⟨i, hi, h1⟩)
      · exact Or.inl (Or.inl h)
      · cases i with
        | zero => exact Or.inl (Or.inr (by simpa using h1))
        | succ j =>
          refine Or.inr ⟨j, by simpa using hi, ?_⟩
          rw [h1, setIdx_congr a1 a2 a3]; congr 1; omega

theorem putBytes_fields (bs : List Nat) :
    ∀ (m : FuncMemory) (a : Nat),
      (putBytes m a bs).addr_bits = m.addr_bits ∧
      (putBytes m a bs).page_num_size = m.page_num_size ∧
      (putBytes m a bs).offset_size = m.offset_size ∧
      (putBytes m a bs).sets_array_size = m.sets_array_size ∧
      (putBytes m a bs).pages_array_size = m.pages_array_size ∧
      (putBytes m a bs).page_size = m.page_size ∧
      (putBytes m a bs).text_start_addr = m.text_start_addr := by
  induction bs with
  | nil => intro m a; simp [putBytes]
  | cons b bs ih =>
    intro m a
    obtain ⟨a1, a2, a3, a4, a5, a6, a7⟩ := putByte_fields m a b
    obtain ⟨b1, b2, b3, b4, b5, b6, b7⟩ := ih (putByte m a b) (a + 1)
    rw [putBytes]
    exact ⟨b1.trans a1, b2.trans a2, b3.trans a3, b4.trans a4, b5.trans a5, b6.trans a6,
      b7.trans a7⟩

theorem Configured_putBytes (bs : List Nat) {m : FuncMemory} (h : Configured m) (a : Nat) :
    Configured (putBytes m a bs) := by
  obtain ⟨a1, a2, a3, a4, a5, a6, _⟩ := putBytes_fields bs m a
  exact Configured_of_fields h a1 a2 a3 a4 a5 a6

theorem write_ok {m : FuncMemory} (hc : Configured m) (v a n : Nat) (h1 : 1 ≤ n) (h8 : n ≤ 8)
    (ha : a + n ≤ 2 ^ m.addr_bits) :
    write m v a n = .ok (putBytes m a (valueBytes (v % twoTo64) 0 n)) := by
  have hsz := spaceSize_eq hc
  rw [write_eq hc v a n h1 h8 (by omega), if_pos (by omega)]

theorem write_overflow {m : FuncMemory} (hc : Configured m) (v a n : Nat) (h1 : 1 ≤ n)
    (h8 : n ≤ 8) (ha : a < 2 ^ m.addr_bits) (ho : 2 ^ m.addr_bits < a + n) :
    write m v a n = .error .assertion := by
  have hsz := spaceSize_eq hc
  rw [write_eq hc v a n h1 h8 (by omega), if_neg (by omega)]

/-! ## The claims about `write` -/

/-- C6: on a configured memory, whatever is resident, a write of `n` bytes
(`1 ≤ n ≤ 8`) at an address `a` inside the address space returns a memory
exactly when `a + n ≤ 2 ^ addr_bits`, and ends in the failed assertion of the
`EXIT` state exactly when `a + n` exceeds `2 ^ addr_bits`; a missing set or page
never makes it fault, and a write ending on the last byte succeeds. -/
theorem write_faults_iff_overflow (m : FuncMemory) (hc : Configured m) (v a n : Nat)
    (h1 : 1 ≤ n) (h8 : n ≤ 8) (ha : a < 2 ^ m.addr_bits) :
    ((∃ m1, write m v a n = .ok m1) ↔ a + n ≤ 2 ^ m.addr_bits) ∧
    (write m v a n = .error .assertion ↔ 2 ^ m.addr_bits < a + n) ∧
    (∀ e, write m v a n = .error e → e = .assertion) := by
  rcases Nat.lt_or_ge (2 ^ m.addr_bits) (a + n) with h | h
  · have hw := write_overflow hc v a n h1 h8 ha h
    refine ⟨⟨?_, fun h2 => absurd h2 (by omega)⟩, ⟨fun _ => h, fun _ => hw⟩, ?_⟩
    · rintro ⟨m1, hm1⟩
      rw [hw] at hm1
      cases hm1
    · intro e he
      rw [hw] at he
      cases he
      rfl
  · have hw := write_ok hc v a n h1 h8 h
    refine ⟨⟨fun _ => h, fun _ => ⟨_, hw⟩⟩, ⟨?_, fun h2 => absurd h2 (by omega)⟩, ?_⟩
    · intro he
      rw [hw] at he
      cases he
    · intro e he
      rw [hw] at he
      cases he

/-- Witness for C6: a two-byte write at `0xFFFE`, ending on the last byte of the
16-bit address space of the empty memory. -/
theorem write_faults_iff_overflow_witness :
    Configured emptyMemory16 ∧
    ((∃ m1, write emptyMemory16 0x1234 0xFFFE 2 = .ok m1)
      ↔ 0xFFFE + 2 ≤ 2 ^ emptyMemory16.addr_bits) ∧
    (write emptyMemory16 0x1234 0xFFFE 2 = .error .assertion
      ↔ 2 ^ emptyMemory16.addr_bits < 0xFFFE + 2) ∧
    (∀ e, write emptyMemory16 0x1234 0xFFFE 2 = .error e → e = .assertion) :=
  ⟨configured_emptyMemory16,
    write_faults_iff_overflow emptyMemory16 configured_emptyMemory16 0x1234 0xFFFE 2
      (by decide) (by decide) (by decide)⟩

/-- C7: a write of `n` bytes (`1 ≤ n ≤ 8`) at `a` that stays inside the address
space returns a memory whose resident (set, page) pairs are those resident
before together with exactly the pairs that hold an address of `[a, a+n)`, and
whose resident sets are those resident before together with exactly the sets
that hold an address of `[a, a+n)`. -/
theorem write_residency (m : FuncMemory) (hc : Configured m) (v a n : Nat)
    (h1 : 1 ≤ n) (h8 : n ≤ 8) (ha : a + n ≤ 2 ^ m.addr_bits) :
    ∃ m1, write m v a n = .ok m1 ∧
      (∀ s p, isResident m1 s p = true ↔
        (isResident m s p = true ∨
          ∃ i, i < n ∧ s = setIdx m (a + i) ∧ p = pageIdx m (a + i))) ∧
      (∀ s, (m1.sets_array s).isSome = true ↔
        ((m.sets_array s).isSome = true ∨ ∃ i, i < n ∧ s = setIdx m (a + i))) := by
  refine ⟨_, write_ok hc v a n h1 h8 ha, ?_, ?_⟩
  · intro s p
    rw [isResident_putBytes_iff, valueBytes_length]
  · intro s
    rw [setResident_putBytes_iff, valueBytes_length]

/-- Witness for C7: the write of `0x1234` at `0x00FE`, whose last byte is the last
byte of page 15 of set 0. -/
theorem write_residency_witness :
    Configured emptyMemory16 ∧
    ∃ m1, write emptyMemory16 0x1234 0x00FE 2 = .ok m1 ∧
      (∀ s p, isResident m1 s p = true ↔
        (isResident emptyMemory16 s p = true ∨
          ∃ i, i < 2 ∧ s = setIdx emptyMemory16 (0x00FE + i)
            ∧ p = pageIdx emptyMemory16 (0x00FE + i))) ∧
      (∀ s, (m1.sets_array s).isSome = true ↔
        ((emptyMemory16.sets_array s).isSome = true
          ∨ ∃ i, i < 2 ∧ s = setIdx emptyMemory16 (0x00FE + i))) :=
  ⟨configured_emptyMemory16,
    write_residency emptyMemory16 configured_emptyMemory16 0x1234 0x00FE 2
      (by decide) (by decide) (by decide)⟩

/-- C10: after a write of the value `v` with `n` bytes (`1 ≤ n ≤ 8`) at `a`, with
`[a, a+n)` inside the address space, the byte stored at `a + i` is
`(v >> 8i) & 0xFF` for every `i < n`, and `read( a + i, 1)` returns it. -/
theorem write_little_endian (m : FuncMemory) (hc : Configured m) (v a n : Nat)
    (h1 : 1 ≤ n) (h8 : n ≤ 8) (ha : a + n ≤ 2 ^ m.addr_bits) :
    ∃ m1, write m v a n = .ok m1 ∧
      ∀ i, i < n →
        byteOf m1 (a + i) = some ((v >>> (8 * i)) &&& 0xFF) ∧
        read m1 (a + i) 1 = .ok ((v >>> (8 * i)) &&& 0xFF) := by
  refine ⟨_, write_ok hc v a n h1 h8 ha, ?_⟩
  intro i hi
  have hsz := spaceSize_eq hc
  have hlen := valueBytes_length (v % twoTo64) n 0
  have hb : byteOf (putBytes m a (valueBytes (v % twoTo64) 0 n)) (a + i)
      = some ((v >>> (8 * i)) &&& 0xFF) := by
    rw [byteOf_putBytes_same _ hc (by rw [hlen, hsz]; exact ha) (by rw [hlen]; exact hi),
      valueBytes_get, Nat.zero_add, uint64_byte v i (by omega), shift_mask_eq]
  refine ⟨hb, ?_⟩
  refine read_one (Configured_putBytes _ hc a) hb ?_
  rw [shift_mask_eq]
  exact Nat.mod_lt _ (by decide)

/-- Witness for C10: the eight-byte write of `0x0102030405060708` at `0x00FC`,
which crosses from set 0 into set 1 of the empty 16-bit memory. -/
theorem write_little_endian_witness :
    Configured emptyMemory16 ∧
    ∃ m1, write emptyMemory16 0x0102030405060708 0x00FC 8 = .ok m1 ∧
      ∀ i, i < 8 →
        byteOf m1 (0x00FC + i) = some ((0x0102030405060708 >>> (8 * i)) &&& 0xFF) ∧
        read m1 (0x00FC + i) 1 = .ok ((0x0102030405060708 >>> (8 * i)) &&& 0xFF) :=
  ⟨configured_emptyMemory16,
    write_little_endian emptyMemory16 configured_emptyMemory16 0x0102030405060708 0x00FC 8
      (by decide) (by decide) (by decide)⟩

end FuncMem

namespace FuncMem

/-! ## Concrete runs -/

/-- C8: the boundary example.  The constructor with `addr_size = 16`,
`page_bits = 4`, `offset_bits = 4` and no section yields the empty memory;
`write( 0x1234, 0x00FE, 2)` stores `0x34` at set 0, page 15, offset 14 (address
`0x00FE`) and `0x12` at offset 15 of the same page (address `0x00FF`) and leaves
page 0 of set 1 not resident; the following `write( 0x0607, 0x00FF, 2)` makes page 0
of set 1 resident and stores `0x06` there, and `read( 0x00FF, 2)` returns
`0x0607`. -/
theorem boundary_crossing_example :
    create [] 16 4 4 = .ok emptyMemory16 ∧
    ∃ m1 m2,
      write emptyMemory16 0x1234 0x00FE 2 = .ok m1 ∧
      (setIdx m1 0x00FE, pageIdx m1 0x00FE, offsetIdx m1 0x00FE) = (0, 15, 14) ∧
      (setIdx m1 0x00FF, pageIdx m1 0x00FF, offsetIdx m1 0x00FF) = (0, 15, 15) ∧
      peek m1 0 15 14 = some 0x34 ∧
      peek m1 0 15 15 = some 0x12 ∧
      read m1 0x00FE 1 = .ok 0x34 ∧
      read m1 0x00FF 1 = .ok 0x12 ∧
      isResident m1 1 0 = false ∧
      write m1 0x0607 0x00FF 2 = .ok m2 ∧
      isResident m2 1 0 = true ∧
      peek m2 0 15 15 = some 0x07 ∧
      peek m2 1 0 0 = some 0x06 ∧
      read m2 0x00FF 2 = .ok 0x0607 := by
  have hc1 : Configured (putBytes emptyMemory16 0x00FE [0x34, 0x12]) :=
    Configured_putBytes _ configured_emptyMemory16 _
  exact ⟨rfl, putBytes emptyMemory16 0x00FE [0x34, 0x12],
    putBytes (putBytes emptyMemory16 0x00FE [0x34, 0x12]) 0x00FF [0x07, 0x06],
    write_ok configured_emptyMemory16 0x1234 0x00FE 2 (by decide) (by decide) (by decide),
    by decide!, by decide!, by decide!, by decide!, by decide!, by decide!, by decide!,
    write_ok hc1 0x0607 0x00FF 2 (by decide) (by decide) (by decide),
    by decide!, by decide!, by decide!, by decide!⟩

end FuncMem

namespace FuncMem

/-- C1 (failing input): on the empty 16-bit memory, writing `0xFF000000` with 4
bytes at `0x0010` and reading 4 bytes back returns `0xFFFFFFFFFF000000`, not
`0xFF000000`: the byte `0xFF` shifted by 24 as an `int` is negative and is
sign-extended when added to the `uint64` accumulator.  Writing 8 bytes and
reading 8 back ends in the shift of an `int` by 32. -/
theorem round_trip_breaks_at_four_bytes :
    ∃ m1 m2,
      write emptyMemory16 0xFF000000 0x0010 4 = .ok m1 ∧
      read m1 0x0010 4 = .ok 0xFFFFFFFFFF000000 ∧
      0xFF000000 % 2 ^ (8 * 4) = 0xFF000000 ∧
      write emptyMemory16 0x0102030405060708 0x0010 8 = .ok m2 ∧
      read m2 0x0010 8 = .error .undefinedShift :=
  ⟨putBytes emptyMemory16 0x0010 [0x00, 0x00, 0x00, 0xFF],
    putBytes emptyMemory16 0x0010 [0x08, 0x07, 0x06, 0x05, 0x04, 0x03, 0x02, 0x01],
    write_ok configured_emptyMemory16 0xFF000000 0x0010 4 (by decide) (by decide)
      (by decide), by decide!, by decide,
    write_ok configured_emptyMemory16 0x0102030405060708 0x0010 8 (by decide) (by decide)
      (by decide), by decide!⟩

/-- C5 (failing input): with only page 0 of set 0 resident, `read( 0x0010, 1)`
(page 1 of set 0 is `NULL`) and `read( 0x0100, 1)` (set 1 is `NULL`, set 0 is
not) pass the residency test without a failed assertion and index a `NULL`
pointer in the `RDWR` state. -/
theorem read_nonresident_passes_asserts :
    ∃ m1,
      write emptyMemory16 1 0 1 = .ok m1 ∧
      isResident m1 0 0 = true ∧
      isResident m1 0 1 = false ∧
      readCheck m1 0 1 = .ok () ∧
      read m1 0x0010 1 = .error .nullDeref ∧
      isResident m1 1 0 = false ∧
      readCheck m1 1 0 = .ok () ∧
      read m1 0x0100 1 = .error .nullDeref :=
  ⟨putBytes emptyMemory16 0 [1],
    write_ok configured_emptyMemory16 1 0 1 (by decide) (by decide) (by decide),
    by decide!, by decide!, rfl, by decide!, by decide!, rfl, by decide!⟩

/-- C9 (failing input): the resident bytes at addresses 0 to 3 are
`0x00, 0x00, 0x00, 0x80`, whose little-endian sum is `0x80000000`, but
`read( 0, 4)` returns `0xFFFFFFFF80000000`; `read( 0, 5)` over five resident bytes
ends in the shift of an `int` by 32. -/
theorem read_sign_extends_top_byte :
    ∃ m1,
      write emptyMemory16 0x80000000 0 4 = .ok m1 ∧
      byteOf m1 0 = some 0x00 ∧ byteOf m1 1 = some 0x00 ∧
      byteOf m1 2 = some 0x00 ∧ byteOf m1 3 = some 0x80 ∧ byteOf m1 4 = some 0x00 ∧
      0x00 * 256 ^ 0 + 0x00 * 256 ^ 1 + 0x00 * 256 ^ 2 + 0x80 * 256 ^ 3 = 0x80000000 ∧
      read m1 0 4 = .ok 0xFFFFFFFF80000000 ∧
      read m1 0 5 = .error .undefinedShift :=
  ⟨putBytes emptyMemory16 0 [0x00, 0x00, 0x00, 0x80],
    write_ok configured_emptyMemory16 0x80000000 0 4 (by decide) (by decide) (by decide),
    by decide!, by decide!, by decide!, by decide!, by decide!, by decide, by decide!,
    by decide!⟩

end FuncMem

/-! ## The constructor and its loader -/

namespace FuncMem

theorem shlInt_one {k : Nat} (hk : k ≤ 30) : shlInt 1 k = .ok ((2 ^ k : Nat) : Int) := by
  have h1 : 2 ^ k ≤ 2 ^ 30 := Nat.pow_le_pow_right (by decide) hk
  have h2 : (2 : Nat) ^ 30 = 1073741824 := by norm_num
  have e1 : 2 ^ k % 4294967296 = 2 ^ k := Nat.mod_eq_of_lt (by omega)
  have e2 : 2 ^ k < 2147483648 := by omega
  have e3 : ¬ 32 ≤ k := by omega
  simp only [shlInt, e3, if_false, Nat.one_mul, e1, e2, if_true]

theorem toUint64_natCast {x : Nat} (hx : x < twoTo64) : toUint64 (x : Int) = x := by
  unfold twoTo64 at hx
  unfold toUint64
  omega

theorem create_eq {ab pb ob : Nat} (h : ConfigOk ab pb ob) (secs : List ElfSection) :
    create secs ab pb ob = loadSections secs (emptyMemory ab pb ob) := by
  obtain ⟨h1, h2, h3, h4, h5⟩ := h
  have h30 : (2 : Nat) ^ 30 = 1073741824 := by norm_num
  have b1 : 2 ^ (ab - pb - ob) ≤ 2 ^ 30 := Nat.pow_le_pow_right (by decide) h3
  have b2 : 2 ^ pb ≤ 2 ^ 30 := Nat.pow_le_pow_right (by decide) h4
  have b3 : 2 ^ ob ≤ 2 ^ 30 := Nat.pow_le_pow_right (by decide) h5
  have hck : configCheck ab pb ob = .ok () := by
    unfold configCheck
    rw [Nat.mod_eq_of_lt (by unfold twoTo64; omega), if_pos h1]
  unfold create
  rw [hck]
  simp only []
  rw [shlInt_one h3, shlInt_one h4, shlInt_one h5]
  simp only []
  rw [toUint64_natCast (by unfold twoTo64; omega), toUint64_natCast (by unfold twoTo64; omega),
    toUint64_natCast (by unfold twoTo64; omega)]
  rfl

theorem configured_emptyMemory {ab pb ob : Nat} (h : ConfigOk ab pb ob) :
    Configured (emptyMemory ab pb ob) := by
  obtain ⟨h1, h2, h3, h4, h5⟩ := h
  have h30 : (2 : Nat) ^ 30 = 1073741824 := by norm_num
  have b1 : 2 ^ (ab - pb - ob) ≤ 2 ^ 30 := Nat.pow_le_pow_right (by decide) h3
  have b2 : 2 ^ pb ≤ 2 ^ 30 := Nat.pow_le_pow_right (by decide) h4
  have b3 : 2 ^ ob ≤ 2 ^ 30 := Nat.pow_le_pow_right (by decide) h5
  refine ⟨h1, rfl, rfl, rfl, ?_, ?_, ?_⟩
  · show 2 ^ (ab - pb - ob) < twoTo64
    unfold twoTo64
    omega
  · show 2 ^ pb < twoTo64
    unfold twoTo64
    omega
  · show 2 ^ ob < twoTo64
    unfold twoTo64
    omega

theorem markText_fields (m : FuncMemory) (sec : ElfSection) :
    (markText m sec).addr_bits = m.addr_bits ∧
    (markText m sec).page_num_size = m.page_num_size ∧
    (markText m sec).offset_size = m.offset_size ∧
    (markText m sec).sets_array_size = m.sets_array_size ∧
    (markText m sec).pages_array_size = m.pages_array_size ∧
    (markText m sec).page_size = m.page_size ∧
    (markText m sec).sets_array = m.sets_array := by
  unfold markText
  split <;> simp

theorem Configured_markText {m : FuncMemory} (h : Configured m) (sec : ElfSection) :
    Configured (markText m sec) := by
  obtain ⟨a1, a2, a3, a4, a5, a6, _⟩ := markText_fields m sec
  exact Configured_of_fields h a1 a2 a3 a4 a5 a6

theorem loadFrom_eq (sec : ElfSection) :
    ∀ (rem i : Nat) (m : FuncMemory), Configured m → i + rem ≤ sec.content.length →
      i + rem < 2147483648 → sec.start_addr + i + rem ≤ twoTo64 →
      loadFrom sec rem i m
        = .ok (putBytes m (sec.start_addr + i) ((sec.content.drop i).take rem)) := by
  intro rem
  induction rem with
  | zero => intro i m _ _ _ _; simp [loadFrom, putBytes]
  | succ rem ih =>
    intro i m hc hlen hint hw
    have hi : i < sec.content.length := by omega
    have e1 : (sec.start_addr + i) % twoTo64 = sec.start_addr + i := Nat.mod_eq_of_lt (by omega)
    have e2 : ¬ 2147483647 ≤ i := by omega
    rw [loadFrom, List.get?_eq_getElem?, List.getElem?_eq_getElem hi]
    simp only [e1, loadByte_eq_putByte hc, e2, if_false]
    rw [ih (i + 1) _ (Configured_putByte hc _ _) (by omega) (by omega) (by omega),
      List.drop_eq_getElem_cons hi, List.take_succ_cons, putBytes]
    rfl

theorem loadSection_eq {m : FuncMemory} (hc : Configured m) (h64 : m.addr_bits ≤ 64)
    {sec : ElfSection} (hs : SectionOk m.addr_bits sec) :
    loadSection m sec = .ok (loadSectionRef m sec) := by
  obtain ⟨h1, h2, h3, _⟩ := hs
  have hp : 2 ^ m.addr_bits ≤ twoTo64 := by
    have : 2 ^ m.addr_bits ≤ 2 ^ 64 := Nat.pow_le_pow_right (by decide) h64
    unfold twoTo64
    norm_num at this ⊢
    exact this
  unfold loadSection loadSectionRef
  rw [loadFrom_eq sec sec.size 0 _ (Configured_markText hc sec) (by omega) (by omega) (by omega)]
  simp [← h1]

theorem loadSectionRef_fields (m : FuncMemory) (sec : ElfSection) :
    (loadSectionRef m sec).addr_bits = m.addr_bits ∧
    (loadSectionRef m sec).page_num_size = m.page_num_size ∧
    (loadSectionRef m sec).offset_size = m.offset_size ∧
    (loadSectionRef m sec).sets_array_size = m.sets_array_size ∧
    (loadSectionRef m sec).pages_array_size = m.pages_array_size ∧
    (loadSectionRef m sec).page_size = m.page_size := by
  obtain ⟨a1, a2, a3, a4, a5, a6, _⟩ := markText_fields m sec
  obtain ⟨b1, b2, b3, b4, b5, b6, _⟩ := putBytes_fields sec.content (markText m sec) sec.start_addr
  unfold loadSectionRef
  exact ⟨b1.trans a1, b2.trans a2, b3.trans a3, b4.trans a4, b5.trans a5, b6.trans a6⟩

theorem Configured_loadSectionRef {m : FuncMemory} (h : Configured m) (sec : ElfSection) :
    Configured (loadSectionRef m sec) := by
  obtain ⟨a1, a2, a3, a4, a5, a6⟩ := loadSectionRef_fields m sec
  exact Configured_of_fields h a1 a2 a3 a4 a5 a6

theorem loadAllRef_fields (secs : List ElfSection) :
    ∀ (m : FuncMemory),
      (loadAllRef secs m).addr_bits = m.addr_bits ∧
      (loadAllRef secs m).page_num_size = m.page_num_size ∧
      (loadAllRef secs m).offset_size = m.offset_size ∧
      (loadAllRef secs m).sets_array_size = m.sets_array_size ∧
      (loadAllRef secs m).pages_array_size = m.pages_array_size ∧
      (loadAllRef secs m).page_size = m.page_size := by
  induction secs with
  | nil => intro m; simp [loadAllRef]
  | cons sec rest ih =>
    intro m
    obtain ⟨a1, a2, a3, a4, a5, a6⟩ := loadSectionRef_fields m sec
    obtain ⟨b1, b2, b3, b4, b5, b6⟩ := ih (loadSectionRef m sec)
    rw [loadAllRef]
    exact ⟨b1.trans a1, b2.trans a2, b3.trans a3, b4.trans a4, b5.trans a5, b6.trans a6⟩

theorem Configured_loadAllRef {m : FuncMemory} (h : Configured m) (secs : List ElfSection) :
    Configured (loadAllRef secs m) := by
  obtain ⟨a1, a2, a3, a4, a5, a6⟩ := loadAllRef_fields secs m
  exact Configured_of_fields h a1 a2 a3 a4 a5 a6

theorem loadSections_eq (secs : List ElfSection) :
    ∀ {m : FuncMemory}, Configured m → m.addr_bits ≤ 64 →
      (∀ s ∈ secs, SectionOk m.addr_bits s) →
      loadSections secs m = .ok (loadAllRef secs m) := by
  induction secs with
  | nil => intro m _ _ _; rfl
  | cons sec rest ih =>
    intro m hc h64 hs
    obtain ⟨a1, _⟩ := loadSectionRef_fields m sec
    rw [loadSections, loadSection_eq hc h64 (hs sec (List.mem_cons_self _ _))]
    simp only []
    rw [ih (Configured_loadSectionRef hc sec) (by rw [a1]; exact h64)
      (by rw [a1]; exact fun s h => hs s (List.mem_cons_of_mem _ h)), loadAllRef]

theorem create_ok {ab pb ob : Nat} (h : ConfigOk ab pb ob) {secs : List ElfSection}
    (hs : ∀ s ∈ secs, SectionOk ab s) :
    create secs ab pb ob = .ok (loadAllRef secs (emptyMemory ab pb ob)) := by
  rw [create_eq h]
  exact loadSections_eq secs (configured_emptyMemory h) h.2.1 hs

end FuncMem

/-! ## The entry point -/

namespace FuncMem

theorem allocSet_text {m m1 : FuncMemory} {i : Nat} (h : allocSet m i = .ok m1) :
    m1.text_start_addr = m.text_start_addr := by
  unfold allocSet at h
  split at h
  · cases h; rfl
  · cases h

theorem allocPage_text {m m1 : FuncMemory} {i j : Nat} (h : allocPage m i j = .ok m1) :
    m1.text_start_addr = m.text_start_addr := by
  unfold allocPage at h
  split at h
  · cases h
  · cases h
  · split at h
    · cases h; rfl
    · cases h

theorem storeByte_text {m m1 : FuncMemory} {i j k b : Nat}
    (h : storeByte m i j k b = .ok m1) : m1.text_start_addr = m.text_start_addr := by
  unfold storeByte at h
  split at h
  · cases h
  · cases h
  · split at h
    · split at h
      · cases h
      · cases h; rfl
    · cases h

theorem loadByte_text {m m1 : FuncMemory} {a b : Nat} (h : loadByte m a b = .ok m1) :
    m1.text_start_addr = m.text_start_addr := by
  unfold loadByte at h
  simp only [] at h
  split at h
  · cases h
  · rename_i s hs
    split at h
    · cases h
    · rename_i m2 hm2
      have e2 : m2.text_start_addr = m.text_start_addr := by
        split at hm2
        · exact allocSet_text hm2
        · cases hm2; rfl
      split at h
      · cases h
      · rename_i p hp
        split at h
        · cases h
        · rename_i m3 hm3
          have e3 : m3.text_start_addr = m2.text_start_addr := by
            split at hm3
            · exact allocPage_text hm3
            · cases hm3; rfl
          rw [storeByte_text h, e3, e2]

theorem loadFrom_text (sec : ElfSection) :
    ∀ (rem i : Nat) (m m1 : FuncMemory), loadFrom sec rem i m = .ok m1 →
      m1.text_start_addr = m.text_start_addr := by
  intro rem
  induction rem with
  | zero =>
    intro i m m1 h
    rw [loadFrom] at h
    cases h
    rfl
  | succ rem ih =>
    intro i m m1 h
    rw [loadFrom] at h
    split at h
    · cases h
    · split at h
      · cases h
      · rename_i m2 hm2
        split at h
        · cases h
        · rw [ih _ _ _ h, loadByte_text hm2]

theorem loadSection_text {m m1 : FuncMemory} {sec : ElfSection}
    (h : loadSection m sec = .ok m1) :
    m1.text_start_addr = (markText m sec).text_start_addr :=
  loadFrom_text sec _ _ _ _ h

theorem loadSections_text_none (secs : List ElfSection) :
    ∀ (m m1 : FuncMemory), loadSections secs m = .ok m1 →
      (∀ t ∈ secs, t.name ≠ ".text") → m1.text_start_addr = m.text_start_addr := by
  induction secs with
  | nil =>
    intro m m1 h _
    rw [loadSections] at h
    cases h
    rfl
  | cons sec rest ih =>
    intro m m1 h hn
    rw [loadSections] at h
    split at h
    · cases h
    · rename_i m2 hm2
      rw [ih _ _ h (fun t ht => hn t (List.mem_cons_of_mem _ ht)), loadSection_text hm2]
      unfold markText
      rw [if_neg (hn sec (List.mem_cons_self _ _))]

theorem loadSections_text_last (pre : List ElfSection) :
    ∀ (m m1 : FuncMemory) (sec : ElfSection) (post : List ElfSection),
      loadSections (pre ++ sec :: post) m = .ok m1 → sec.name = ".text" →
      (∀ t ∈ post, t.name ≠ ".text") → m1.text_start_addr = some sec.start_addr := by
  induction pre with
  | nil =>
    intro m m1 sec post h hs hn
    rw [List.nil_append, loadSections] at h
    split at h
    · cases h
    · rename_i m2 hm2
      rw [loadSections_text_none post _ _ h hn, loadSection_text hm2]
      unfold markText
      rw [if_pos hs]
  | cons p pre ih =>
    intro m m1 sec post h hs hn
    rw [List.cons_append, loadSections] at h
    split at h
    · cases h
    · exact ih _ _ sec post h hs hn

theorem create_inv {secs : List ElfSection} {ab pb ob : Nat} {m : FuncMemory}
    (h : create secs ab pb ob = .ok m) : ∃ m0, loadSections secs m0 = .ok m := by
  unfold create at h
  split at h
  · cases h
  · split at h
    · cases h
    · split at h
      · cases h
      · split at h
        · cases h
        · exact ⟨_, h⟩

/-- C3 (amended): for every constructed memory whose section list holds a
section named `.text`, `startPC()` returns the start address of the LAST section
in load order whose name is `.text`. -/
theorem startPC_last_text (pre post : List ElfSection) (sec : ElfSection)
    (ab pb ob : Nat) (m : FuncMemory)
    (hm : create (pre ++ sec :: post) ab pb ob = .ok m)
    (hs : sec.name = ".text") (hn : ∀ t ∈ post, t.name ≠ ".text") :
    startPC m = .ok sec.start_addr := by
  obtain ⟨m0, h0⟩ := create_inv hm
  unfold startPC
  rw [loadSections_text_last pre m0 m sec post h0 hs hn]

/-- Witness for C3 (amended): two `.text` sections, at `0x10` and at `0x20`,
followed by a `.data` section. -/
theorem startPC_last_text_witness :
    create ([⟨".text", 0x10, 2, [1, 2]⟩] ++ ⟨".text", 0x20, 1, [7]⟩ :: [⟨".data", 0x30, 1, [9]⟩])
        16 4 4 = .ok (loadAllRef [⟨".text", 0x10, 2, [1, 2]⟩, ⟨".text", 0x20, 1, [7]⟩,
          ⟨".data", 0x30, 1, [9]⟩] (emptyMemory 16 4 4)) ∧
    startPC (loadAllRef [⟨".text", 0x10, 2, [1, 2]⟩, ⟨".text", 0x20, 1, [7]⟩,
          ⟨".data", 0x30, 1, [9]⟩] (emptyMemory 16 4 4)) = .ok 0x20 :=
  have hc : create ([⟨".text", 0x10, 2, [1, 2]⟩] ++ ⟨".text", 0x20, 1, [7]⟩ ::
      [⟨".data", 0x30, 1, [9]⟩]) 16 4 4
      = .ok (loadAllRef [⟨".text", 0x10, 2, [1, 2]⟩, ⟨".text", 0x20, 1, [7]⟩,
          ⟨".data", 0x30, 1, [9]⟩] (emptyMemory 16 4 4)) :=
    create_ok (by unfold ConfigOk; decide) (by simp [SectionOk])
  ⟨hc, startPC_last_text [⟨".text", 0x10, 2, [1, 2]⟩] [⟨".data", 0x30, 1, [9]⟩]
    ⟨".text", 0x20, 1, [7]⟩ 16 4 4 _ hc rfl (by simp)⟩

/-- C3 (counterexample): with two `.text` sections, at `0x10` and then at `0x20`,
the constructed memory has `startPC() = 0x20`, the later one, so "the first
`.text` section wins" fails. -/
theorem first_text_does_not_win :
    ∃ m, create [⟨".text", 0x10, 1, [1]⟩, ⟨".text", 0x20, 1, [7]⟩] 16 4 4 = .ok m ∧
      startPC m = .ok 0x20 ∧
      ¬ FirstTextWins [⟨".text", 0x10, 1, [1]⟩, ⟨".text", 0x20, 1, [7]⟩] m := by
  have hc : create [⟨".text", 0x10, 1, [1]⟩, ⟨".text", 0x20, 1, [7]⟩] 16 4 4
      = .ok (loadAllRef [⟨".text", 0x10, 1, [1]⟩, ⟨".text", 0x20, 1, [7]⟩]
          (emptyMemory 16 4 4)) :=
    create_ok (by unfold ConfigOk; decide) (by simp [SectionOk])
  have hpc : startPC (loadAllRef [⟨".text", 0x10, 1, [1]⟩, ⟨".text", 0x20, 1, [7]⟩]
      (emptyMemory 16 4 4)) = .ok 0x20 := by decide!
  refine ⟨_, hc, hpc, ?_⟩
  intro hf
  have h1 := hf ⟨".text", 0x10, 1, [1]⟩ (by simp)
  rw [hpc] at h1
  cases h1

end FuncMem

/-! ## Contents and residency after loading -/

namespace FuncMem

theorem byteOf_markText (m : FuncMemory) (sec : ElfSection) (x : Nat) :
    byteOf (markText m sec) x = byteOf m x := by
  unfold markText
  split <;> rfl

theorem isResident_markText (m : FuncMemory) (sec : ElfSection) (s p : Nat) :
    isResident (markText m sec) s p = isResident m s p := by
  unfold markText
  split <;> rfl

theorem loadAllRef_append (pre : List ElfSection) :
    ∀ (rest : List ElfSection) (m : FuncMemory),
      loadAllRef (pre ++ rest) m = loadAllRef rest (loadAllRef pre m) := by
  induction pre with
  | nil => intro rest m; rfl
  | cons p pre ih => intro rest m; rw [List.cons_append, loadAllRef, ih, loadAllRef]

theorem isResident_loadSectionRef_iff (m : FuncMemory) (sec : ElfSection) (s p : Nat) :
    isResident (loadSectionRef m sec) s p = true ↔
      isResident m s p = true ∨
        ∃ i, i < sec.content.length ∧ s = setIdx m (sec.start_addr + i)
          ∧ p = pageIdx m (sec.start_addr + i) := by
  obtain ⟨a1, a2, a3, _⟩ := markText_fields m sec
  unfold loadSectionRef
  rw [isResident_putBytes_iff, isResident_markText]
  simp only [setIdx_congr a1 a2 a3, pageIdx_congr a2 a3]

theorem isResident_loadAllRef_iff (secs : List ElfSection) :
    ∀ (m : FuncMemory) (s p : Nat),
      isResident (loadAllRef secs m) s p = true ↔
        isResident m s p = true ∨
          ∃ t, t ∈ secs ∧ ∃ i, i < t.content.length ∧ s = setIdx m (t.start_addr + i)
            ∧ p = pageIdx m (t.start_addr + i) := by
  induction secs with
  | nil => intro m s p; simp [loadAllRef]
  | cons sec rest ih =>
    intro m s p
    obtain ⟨a1, a2, a3, _⟩ := loadSectionRef_fields m sec
    rw [loadAllRef, ih, isResident_loadSectionRef_iff]
    simp only [setIdx_congr a1 a2 a3, pageIdx_congr a2 a3, List.mem_cons]
    constructor
    · rintro ((h | h) | ⟨t, ht, h⟩)
      · exact Or.inl h
      · exact Or.inr ⟨sec, Or.inl rfl, h⟩
      · exact Or.inr ⟨t, Or.inr ht, h⟩
    · rintro (h | ⟨t, ht | ht, h⟩)
      · exact Or.inl (Or.inl h)
      · subst ht
        exact Or.inl (Or.inr h)
      · exact Or.inr ⟨t, ht, h⟩

theorem byteOf_loadSectionRef_other {m : FuncMemory} (hc : Configured m) {sec : ElfSection}
    (hs : SectionOk m.addr_bits sec) {x : Nat} (hx : x < spaceSize m)
    (hr : isResident m (setIdx m x) (pageIdx m x) = true)
    (hne : ∀ j, j < sec.size → sec.start_addr + j ≠ x) :
    byteOf (loadSectionRef m sec) x = byteOf m x := by
  obtain ⟨a1, a2, a3, a4, a5, a6, _⟩ := markText_fields m sec
  obtain ⟨h1, h2, h3, _⟩ := hs
  have hsp := spaceSize_congr a4 a5 a6
  have hsz := spaceSize_eq hc
  have hrange : x < sec.start_addr ∨ sec.start_addr + sec.content.length ≤ x := by
    by_contra hcon
    have hj := hne (x - sec.start_addr) (by omega)
    omega
  unfold loadSectionRef
  rw [byteOf_putBytes_other sec.content (Configured_markText hc sec) (by rw [hsp]; exact hx)
    (by rw [hsp, hsz]; omega) hrange
    (by rw [setIdx_congr a1 a2 a3, pageIdx_congr a2 a3, isResident_markText]; exact hr),
    byteOf_markText]

theorem byteOf_loadAllRef_other (secs : List ElfSection) :
    ∀ {m : FuncMemory}, Configured m → (∀ s ∈ secs, SectionOk m.addr_bits s) →
      ∀ {x : Nat}, x < spaceSize m → isResident m (setIdx m x) (pageIdx m x) = true →
      (∀ t ∈ secs, ∀ j, j < t.size → t.start_addr + j ≠ x) →
      byteOf (loadAllRef secs m) x = byteOf m x := by
  induction secs with
  | nil => intro m _ _ x _ _ _; rfl
  | cons sec rest ih =>
    intro m hc hs x hx hr hne
    obtain ⟨a1, a2, a3, a4, a5, a6⟩ := loadSectionRef_fields m sec
    rw [loadAllRef, ih (Configured_loadSectionRef hc sec)
      (by rw [a1]; exact fun s h => hs s (List.mem_cons_of_mem _ h))
      (by rw [spaceSize_congr a4 a5 a6]; exact hx)
      (by rw [setIdx_congr a1 a2 a3, pageIdx_congr a2 a3, isResident_loadSectionRef_iff]
          exact Or.inl hr)
      (fun t ht => hne t (List.mem_cons_of_mem _ ht))]
    exact byteOf_loadSectionRef_other hc (hs sec (List.mem_cons_self _ _)) hx hr
      (hne sec (List.mem_cons_self _ _))

theorem byteOf_loadSectionRef_same {m : FuncMemory} (hc : Configured m) {sec : ElfSection}
    (hs : SectionOk m.addr_bits sec) {i : Nat} (hi : i < sec.content.length) :
    byteOf (loadSectionRef m sec) (sec.start_addr + i) = some (sec.content.get ⟨i, hi⟩) := by
  obtain ⟨a1, a2, a3, a4, a5, a6, _⟩ := markText_fields m sec
  obtain ⟨h1, h2, h3, _⟩ := hs
  have hsp := spaceSize_congr a4 a5 a6
  have hsz := spaceSize_eq hc
  unfold loadSectionRef
  exact byteOf_putBytes_same sec.content (Configured_markText hc sec)
    (by rw [hsp, hsz]; omega) hi

/-- C2 (amended): the constructor succeeds on well-formed sections, and for a
loaded section with start `S` and content `c[0..L)` inside the address space,
`read( S+i, 1)` returns `c[i]` for every `i < L` whose address `S+i` is not
covered by a section later in the list. -/
theorem load_fidelity (pre post : List ElfSection) (sec : ElfSection) (ab pb ob : Nat)
    (hcfg : ConfigOk ab pb ob) (hwf : ∀ s ∈ pre ++ sec :: post, SectionOk ab s) :
    ∃ m, create (pre ++ sec :: post) ab pb ob = .ok m ∧
      ∀ (i : Nat) (hi : i < sec.content.length),
        (∀ t ∈ post, ∀ j, j < t.size → t.start_addr + j ≠ sec.start_addr + i) →
        read m (sec.start_addr + i) 1 = .ok (sec.content.get ⟨i, hi⟩) := by
  refine ⟨_, create_ok hcfg hwf, ?_⟩
  intro i hi hne
  have hc0 := configured_emptyMemory hcfg
  have hcp : Configured (loadAllRef pre (emptyMemory ab pb ob)) := Configured_loadAllRef hc0 pre
  obtain ⟨p1, p2, p3, p4, p5, p6⟩ := loadAllRef_fields pre (emptyMemory ab pb ob)
  have hab : (loadAllRef pre (emptyMemory ab pb ob)).addr_bits = ab := p1
  have hsec : SectionOk ab sec := hwf sec (by simp)
  have hpost : ∀ s ∈ post, SectionOk ab s := fun s h => hwf s (by simp [h])
  obtain ⟨a1, a2, a3, a4, a5, a6⟩ :=
    loadSectionRef_fields (loadAllRef pre (emptyMemory ab pb ob)) sec
  have hcs := Configured_loadSectionRef hcp sec
  have hsame := byteOf_loadSectionRef_same hcp (by rw [hab]; exact hsec) hi
  have hx : sec.start_addr + i
      < spaceSize (loadSectionRef (loadAllRef pre (emptyMemory ab pb ob)) sec) := by
    rw [spaceSize_eq hcs, a1, hab]
    have := hsec.2.2.1
    have := hsec.1
    omega
  have hres : isResident (loadSectionRef (loadAllRef pre (emptyMemory ab pb ob)) sec)
      (setIdx (loadSectionRef (loadAllRef pre (emptyMemory ab pb ob)) sec) (sec.start_addr + i))
      (pageIdx (loadSectionRef (loadAllRef pre (emptyMemory ab pb ob)) sec) (sec.start_addr + i))
      = true := by
    rw [← peek_isSome_iff _ _ _
      (offsetIdx (loadSectionRef (loadAllRef pre (emptyMemory ab pb ob)) sec)
        (sec.start_addr + i))]
    unfold byteOf at hsame
    rw [hsame]
    rfl
  have hfinal := byteOf_loadAllRef_other post hcs (by rw [a1, hab]; exact hpost) hx hres hne
  rw [hsame] at hfinal
  rw [loadAllRef_append, loadAllRef]
  exact read_one (Configured_loadAllRef hcs post) hfinal (hsec.2.2.2 _ (List.get_mem _ _ _))

end FuncMem

namespace FuncMem

/-- Witness for C2 (amended): a two-byte `.text` section at `0x10` followed by a
`.data` section that covers `0x11`. -/
theorem load_fidelity_witness :
    ConfigOk 16 4 4 ∧
    (∀ s ∈ [] ++ (⟨".text", 0x10, 2, [1, 2]⟩ : ElfSection) :: [⟨".data", 0x11, 1, [9]⟩],
      SectionOk 16 s) ∧
    ∃ m, create ([] ++ (⟨".text", 0x10, 2, [1, 2]⟩ : ElfSection) :: [⟨".data", 0x11, 1, [9]⟩])
        16 4 4 = .ok m ∧
      ∀ (i : Nat) (hi : i < [1, 2].length),
        (∀ t ∈ [(⟨".data", 0x11, 1, [9]⟩ : ElfSection)], ∀ j, j < t.size →
          t.start_addr + j ≠ 0x10 + i) →
        read m (0x10 + i) 1 = .ok ([1, 2].get ⟨i, hi⟩) :=
  ⟨by unfold ConfigOk; decide, by simp [SectionOk],
    load_fidelity [] [⟨".data", 0x11, 1, [9]⟩] ⟨".text", 0x10, 2, [1, 2]⟩ 16 4 4
      (by unfold ConfigOk; decide) (by simp [SectionOk])⟩

/-- C2 (counterexample): two one-byte sections at the same address `0x10`, with
contents `1` and `2`; after construction `read( 0x10, 1)` returns `2`, not the
byte `1` of the first section. -/
theorem later_section_overwrites :
    ∃ m, create [⟨".data", 0x10, 1, [1]⟩, ⟨".bss", 0x10, 1, [2]⟩] 16 4 4 = .ok m ∧
      read m 0x10 1 = .ok 2 ∧ read m 0x10 1 ≠ .ok 1 :=
  ⟨loadAllRef [⟨".data", 0x10, 1, [1]⟩, ⟨".bss", 0x10, 1, [2]⟩] (emptyMemory 16 4 4),
    create_ok (by unfold ConfigOk; decide) (by simp [SectionOk]), by decide!, by decide!⟩

/-! ## Residency after writes, and reads of pages that are not resident -/

theorem writesRef_fields (ws : List (Nat × Nat × Nat)) :
    ∀ (m : FuncMemory),
      (writesRef ws m).addr_bits = m.addr_bits ∧
      (writesRef ws m).page_num_size = m.page_num_size ∧
      (writesRef ws m).offset_size = m.offset_size ∧
      (writesRef ws m).sets_array_size = m.sets_array_size ∧
      (writesRef ws m).pages_array_size = m.pages_array_size ∧
      (writesRef ws m).page_size = m.page_size := by
  induction ws with
  | nil => intro m; simp [writesRef]
  | cons w rest ih =>
    intro m
    obtain ⟨v, a, n⟩ := w
    obtain ⟨a1, a2, a3, a4, a5, a6, _⟩ := putBytes_fields (valueBytes (v % twoTo64) 0 n) m a
    obtain ⟨b1, b2, b3, b4, b5, b6⟩ := ih (putBytes m a (valueBytes (v % twoTo64) 0 n))
    rw [writesRef]
    exact ⟨b1.trans a1, b2.trans a2, b3.trans a3, b4.trans a4, b5.trans a5, b6.trans a6⟩

theorem Configured_writesRef {m : FuncMemory} (h : Configured m) (ws : List (Nat × Nat × Nat)) :
    Configured (writesRef ws m) := by
  obtain ⟨a1, a2, a3, a4, a5, a6⟩ := writesRef_fields ws m
  exact Configured_of_fields h a1 a2 a3 a4 a5 a6

theorem writes_eq (ws : List (Nat × Nat × Nat)) :
    ∀ {m : FuncMemory}, Configured m →
      (∀ w ∈ ws, 1 ≤ w.2.2 ∧ w.2.2 ≤ 8 ∧ w.2.1 + w.2.2 ≤ 2 ^ m.addr_bits) →
      writes ws m = .ok (writesRef ws m) := by
  induction ws with
  | nil => intro m _ _; rfl
  | cons w rest ih =>
    intro m hc hw
    obtain ⟨v, a, n⟩ := w
    obtain ⟨h1, h8, ha⟩ := hw (v, a, n) (List.mem_cons_self _ _)
    obtain ⟨a1, _⟩ := putBytes_fields (valueBytes (v % twoTo64) 0 n) m a
    rw [writes, write_ok hc v a n h1 h8 ha]
    simp only []
    rw [ih (Configured_putBytes _ hc a)
      (by rw [a1]; exact fun w h => hw w (List.mem_cons_of_mem _ h)), writesRef]

theorem isResident_writesRef_iff (ws : List (Nat × Nat × Nat)) :
    ∀ (m : FuncMemory) (s p : Nat),
      isResident (writesRef ws m) s p = true ↔
        isResident m s p = true ∨
          ∃ w, w ∈ ws ∧ ∃ j, j < w.2.2 ∧ s = setIdx m (w.2.1 + j)
            ∧ p = pageIdx m (w.2.1 + j) := by
  induction ws with
  | nil => intro m s p; simp [writesRef]
  | cons w rest ih =>
    intro m s p
    obtain ⟨v, a, n⟩ := w
    obtain ⟨a1, a2, a3, _⟩ := putBytes_fields (valueBytes (v % twoTo64) 0 n) m a
    rw [writesRef, ih, isResident_putBytes_iff, valueBytes_length]
    simp only [setIdx_congr a1 a2 a3, pageIdx_congr a2 a3, List.mem_cons]
    constructor
    · rintro ((h | h) | ⟨t, ht, h⟩)
      · exact Or.inl h
      · exact Or.inr ⟨(v, a, n), Or.inl rfl, h⟩
      · exact Or.inr ⟨t, Or.inr ht, h⟩
    · rintro (h | ⟨t, ht | ht, h⟩)
      · exact Or.inl (Or.inl h)
      · subst ht
        exact Or.inl (Or.inr h)
      · exact Or.inr ⟨t, ht, h⟩

theorem byteAt_not_resident {m : FuncMemory} {s p : Nat} (o : Nat)
    (h : isResident m s p = false) : ∃ e, byteAt m s p o = .error e := by
  unfold byteAt pageAt setAt
  by_cases hs : s < m.sets_array_size
  · cases h1 : m.sets_array s with
    | none => exact ⟨_, by simp [hs, h1]; rfl⟩
    | some t =>
      by_cases hp : p < m.pages_array_size
      · cases h2 : t p with
        | none => exact ⟨_, by simp [hs, h1, hp, h2]; rfl⟩
        | some pg => simp [isResident, h1, h2] at h
      · exact ⟨_, by simp [hs, h1, hp]; rfl⟩
  · exact ⟨_, by simp [hs]; rfl⟩

theorem read_not_resident (m : FuncMemory) (x n : Nat)
    (h : isResident m (setIdx m x) (pageIdx m x) = false) : ∃ e, read m x n = .error e := by
  unfold read
  by_cases hn : 0 < n
  · rw [if_neg (by omega)]
    simp only []
    cases hck : readCheck m
        (getSetIdx (m.addr_bits - m.page_num_size - m.offset_size) x m.addr_bits)
        (getPageIdx m.page_num_size m.offset_size x) with
    | error e => exact ⟨e, rfl⟩
    | ok u =>
      obtain ⟨f, hf⟩ : ∃ f, 4 * n = f + 1 := ⟨4 * n - 1, by omega⟩
      obtain ⟨e, he⟩ := byteAt_not_resident (getOffsetIdx m.offset_size x) h
      unfold setIdx pageIdx at he
      simp only [hf]
      rw [readLoop_succ _ _ _ _ _ (by show 0 < n; exact hn)]
      simp only [readStep, he]
      exact ⟨e, rfl⟩
  · rw [if_pos hn]
    exact ⟨_, rfl⟩

end FuncMem

namespace FuncMem

/-- C4 (amended): loading well-formed sections and then performing in-range
writes succeeds, and in the resulting memory `read` never returns a value at an
address whose (set, page) holds no address of a loaded section and no address
of a write. -/
theorem read_untouched_page_faults (secs : List ElfSection) (ws : List (Nat × Nat × Nat))
    (ab pb ob : Nat) (hcfg : ConfigOk ab pb ob) (hwf : ∀ s ∈ secs, SectionOk ab s)
    (hws : ∀ w ∈ ws, 1 ≤ w.2.2 ∧ w.2.2 ≤ 8 ∧ w.2.1 + w.2.2 ≤ 2 ^ ab) :
    ∃ m0 m, create secs ab pb ob = .ok m0 ∧ writes ws m0 = .ok m ∧
      ∀ x n,
        (∀ t ∈ secs, ∀ i, i < t.size →
          ¬ (setIdx m (t.start_addr + i) = setIdx m x
              ∧ pageIdx m (t.start_addr + i) = pageIdx m x)) →
        (∀ w ∈ ws, ∀ j, j < w.2.2 →
          ¬ (setIdx m (w.2.1 + j) = setIdx m x ∧ pageIdx m (w.2.1 + j) = pageIdx m x)) →
        ∃ e, read m x n = .error e := by
  have hc0 := configured_emptyMemory hcfg
  have hc1 : Configured (loadAllRef secs (emptyMemory ab pb ob)) := Configured_loadAllRef hc0 secs
  obtain ⟨p1, p2, p3, _⟩ := loadAllRef_fields secs (emptyMemory ab pb ob)
  obtain ⟨q1, q2, q3, _⟩ := writesRef_fields ws (loadAllRef secs (emptyMemory ab pb ob))
  have hab : (loadAllRef secs (emptyMemory ab pb ob)).addr_bits = ab := p1
  refine ⟨_, _, create_ok hcfg hwf, writes_eq ws hc1 (by rw [hab]; exact hws), ?_⟩
  intro x n hsec hwr
  apply read_not_resident
  rw [Bool.eq_false_iff]
  intro hres
  rw [isResident_writesRef_iff, isResident_loadAllRef_iff] at hres
  simp only [setIdx_congr q1 q2 q3, pageIdx_congr q2 q3] at hres hsec hwr
  simp only [setIdx_congr p1 p2 p3, pageIdx_congr p2 p3] at hres hsec hwr
  rcases hres with (h | ⟨t, ht, i, hi, h1, h2⟩) | ⟨w, hw, j, hj, h1, h2⟩
  · simp [isResident, emptyMemory] at h
  · exact hsec t ht i (by rw [← (hwf t ht).1]; exact hi) ⟨h1.symm, h2.symm⟩
  · exact hwr w hw j hj ⟨h1.symm, h2.symm⟩

/-- Witness for C4 (amended): one section at `0x10` and one write at `0x00FE`
on the 16-bit configuration. -/
theorem read_untouched_page_faults_witness :
    ConfigOk 16 4 4 ∧
    ∃ m0 m, create [⟨".text", 0x10, 2, [1, 2]⟩] 16 4 4 = .ok m0 ∧
      writes [(0x1234, 0x00FE, 2)] m0 = .ok m ∧
      ∀ x n,
        (∀ t ∈ [(⟨".text", 0x10, 2, [1, 2]⟩ : ElfSection)], ∀ i, i < t.size →
          ¬ (setIdx m (t.start_addr + i) = setIdx m x
              ∧ pageIdx m (t.start_addr + i) = pageIdx m x)) →
        (∀ w ∈ [((0x1234, 0x00FE, 2) : Nat × Nat × Nat)], ∀ j, j < w.2.2 →
          ¬ (setIdx m (w.2.1 + j) = setIdx m x ∧ pageIdx m (w.2.1 + j) = pageIdx m x)) →
        ∃ e, read m x n = .error e :=
  ⟨by unfold ConfigOk; decide,
    read_untouched_page_faults [⟨".text", 0x10, 2, [1, 2]⟩] [(0x1234, 0x00FE, 2)] 16 4 4
      (by unfold ConfigOk; decide) (by simp [SectionOk]) (by simp)⟩

/-- C4 (counterexample): after loading the single one-byte section at `S = 0x11`,
the address `S - 1 = 0x10` lies in no section and was never written, yet
`read( 0x10, 1)` returns `0`: its page became resident, zero filled, with the
section. -/
theorem read_below_section_returns_zero :
    ∃ m, create [⟨".data", 0x11, 1, [7]⟩] 16 4 4 = .ok m ∧
      read m 0x11 1 = .ok 7 ∧ read m (0x11 - 1) 1 = .ok 0 :=
  ⟨loadAllRef [⟨".data", 0x11, 1, [7]⟩] (emptyMemory 16 4 4),
    create_ok (by unfold ConfigOk; decide) (by simp [SectionOk]), by decide!, by decide!⟩

end FuncMem

/-! ## `read` leaves the memory as it was -/

namespace FuncMem

theorem readStepS_eq (m : FuncMemory) (c : Cursor) (number : Nat) :
    readStepS m c number = (m, readStep m c number) := by
  unfold readStepS readStep
  cases c.state with
  | RDWR =>
    simp only []
    cases byteAt m c.set_idx c.page_idx c.offset_idx with
    | error e => rfl
    | ok b =>
      simp only []
      cases shlInt b (c.bytes * 8) with
      | error e => rfl
      | ok sh =>
        simp only []
        split <;> rfl
  | CNG_PG =>
    simp only []
    split
    · rfl
    · cases pageAt m c.set_idx c.page_idx with
      | error e => rfl
      | ok pg => cases pg <;> rfl
  | CNG_SET =>
    simp only []
    split
    · rfl
    · cases setAt m c.set_idx with
      | error e => rfl
      | ok t => cases t <;> rfl
  | EXIT => rfl

theorem readLoopS_eq (n : Nat) :
    ∀ (fuel : Nat) (m : FuncMemory) (c : Cursor) (number : Nat),
      readLoopS n fuel m c number = (m, readLoop m n fuel c number) := by
  intro fuel
  induction fuel with
  | zero =>
    intro m c number
    unfold readLoopS readLoop
    split <;> rfl
  | succ fuel ih =>
    intro m c number
    unfold readLoopS readLoop
    split
    · rw [readStepS_eq]
      cases readStep m c number with
      | error e => rfl
      | ok r =>
        obtain ⟨c1, number1⟩ := r
        exact ih m c1 number1
    · rfl

theorem readS_eq (m : FuncMemory) (addr n : Nat) : readS m addr n = (m, read m addr n) := by
  unfold readS read
  split
  · rfl
  · simp only []
    cases readCheck m
        (getSetIdx (m.addr_bits - m.page_num_size - m.offset_size) addr m.addr_bits)
        (getPageIdx m.page_num_size m.offset_size addr) with
    | error e => rfl
    | ok u => exact readLoopS_eq _ _ _ _ _

/-- C11: for every memory, address and byte count, the memory that `read` leaves
behind, whether it returns or faults, is the memory it was called on: every
stored byte, the residency of every set and page, and the set of allocated
blocks are as before, and the outcome is that of `read`. -/
theorem read_leaves_memory (m : FuncMemory) (addr n : Nat) :
    (readS m addr n).1 = m ∧
    (readS m addr n).2 = read m addr n ∧
    (∀ s p o, peek (readS m addr n).1 s p o = peek m s p o) ∧
    (∀ s p, isResident (readS m addr n).1 s p = isResident m s p) ∧
    (∀ s, ((readS m addr n).1.sets_array s).isSome = (m.sets_array s).isSome) ∧
    (∀ b, isAllocated (readS m addr n).1 b = isAllocated m b) := by
  rw [readS_eq]
  exact ⟨rfl, rfl, fun _ _ _ => rfl, fun _ _ => rfl, fun _ => rfl, fun _ => rfl⟩

end FuncMem

/-! ## Zero fill -/

namespace FuncMem

theorem byteOf_eq_none_iff (m : FuncMemory) (x : Nat) :
    byteOf m x = none ↔ isResident m (setIdx m x) (pageIdx m x) = false := by
  unfold byteOf
  rw [← peek_isSome_iff m _ _ (offsetIdx m x)]
  cases peek m (setIdx m x) (pageIdx m x) (offsetIdx m x) <;> simp

theorem peek_ensureAllocated_absent (m : FuncMemory) {s p s1 p1 : Nat} (o1 : Nat)
    (h : isResident m s1 p1 = false) (hne : ¬ (s1 = s ∧ p1 = p)) :
    peek (ensureAllocated m s p) s1 p1 o1 = none := by
  have hr : isResident (ensureAllocated m s p) s1 p1 = false := by
    rw [Bool.eq_false_iff]
    intro hres
    rw [isResident_ensureAllocated_iff] at hres
    rcases hres with h1 | h1
    · rw [h] at h1
      cases h1
    · exact hne h1
  rw [← peek_isSome_iff _ _ _ o1] at hr
  cases hp : peek (ensureAllocated m s p) s1 p1 o1 with
  | none => rfl
  | some b => rw [hp] at hr; cases hr

theorem zeroOrAbsent_putByte {m : FuncMemory} (hc : Configured m) {x a : Nat} (b : Nat)
    (hx : x < spaceSize m) (ha : a < spaceSize m) (hne : x ≠ a)
    (h : byteOf m x = none ∨ byteOf m x = some 0) :
    byteOf (putByte m a b) x = none ∨ byteOf (putByte m a b) x = some 0 := by
  rcases h with h | h
  · have hnr := (byteOf_eq_none_iff m x).1 h
    obtain ⟨a1, a2, a3, _⟩ := putByte_fields m a b
    have hbyte : byteOf (putByte m a b) x
        = peek (ensureAllocated m (setIdx m a) (pageIdx m a))
            (setIdx m x) (pageIdx m x) (offsetIdx m x) := by
      unfold byteOf
      rw [setIdx_congr a1 a2 a3, pageIdx_congr a2 a3, offsetIdx_congr a3]
      unfold putByte
      rw [peek_poke_other _ _ (fun e => hne (decompose_injective hc hx ha e))]
    rw [hbyte]
    by_cases hsame : setIdx m x = setIdx m a ∧ pageIdx m x = pageIdx m a
    · right
      rw [hsame.1, hsame.2]
      rw [hsame.1, hsame.2] at hnr
      exact peek_ensureAllocated_fresh _ hnr
    · left
      exact peek_ensureAllocated_absent m _ hnr hsame
  · right
    have hr : isResident m (setIdx m x) (pageIdx m x) = true := by
      cases hres : isResident m (setIdx m x) (pageIdx m x) with
      | true => rfl
      | false =>
        rw [(byteOf_eq_none_iff m x).2 hres] at h
        cases h
    rw [byteOf_putByte_other hc b hx ha hne hr]
    exact h

theorem zeroOrAbsent_putBytes (bs : List Nat) :
    ∀ {m : FuncMemory} (_ : Configured m) {x a : Nat} (_ : x < spaceSize m)
      (_ : a + bs.length ≤ spaceSize m) (_ : x < a ∨ a + bs.length ≤ x)
      (_ : byteOf m x = none ∨ byteOf m x = some 0),
      byteOf (putBytes m a bs) x = none ∨ byteOf (putBytes m a bs) x = some 0 := by
  induction bs with
  | nil => intro m _ x a _ _ _ h; exact h
  | cons b bs ih =>
    intro m hc x a hx ha hne h
    obtain ⟨a1, a2, a3, a4, a5, a6, _⟩ := putByte_fields m a b
    have hsp := spaceSize_congr a4 a5 a6
    simp only [List.length_cons] at ha hne
    rw [putBytes]
    exact ih (Configured_putByte hc a b) (by rw [hsp]; exact hx) (by rw [hsp]; omega)
      (by omega) (zeroOrAbsent_putByte hc b hx (by omega) (by omega) h)

theorem byteOf_zero_of_resident {m : FuncMemory} {x : Nat}
    (h : byteOf m x = none ∨ byteOf m x = some 0)
    (hr : isResident m (setIdx m x) (pageIdx m x) = true) : byteOf m x = some 0 := by
  rcases h with h | h
  · rw [(byteOf_eq_none_iff m x).1 h] at hr
    cases hr
  · exact h

theorem zeroOrAbsent_loadAllRef (secs : List ElfSection) :
    ∀ {m : FuncMemory}, Configured m → (∀ s ∈ secs, SectionOk m.addr_bits s) →
      ∀ {x : Nat}, x < spaceSize m →
      (∀ t ∈ secs, ∀ j, j < t.size → t.start_addr + j ≠ x) →
      (byteOf m x = none ∨ byteOf m x = some 0) →
      byteOf (loadAllRef secs m) x = none ∨ byteOf (loadAllRef secs m) x = some 0 := by
  induction secs with
  | nil => intro m _ _ x _ _ h; exact h
  | cons sec rest ih =>
    intro m hc hs x hx hne h
    obtain ⟨a1, a2, a3, a4, a5, a6⟩ := loadSectionRef_fields m sec
    obtain ⟨c1, c2, c3, c4, c5, c6, _⟩ := markText_fields m sec
    obtain ⟨h1, h2, h3, _⟩ := hs sec (List.mem_cons_self _ _)
    have hsz := spaceSize_eq hc
    have hrange : x < sec.start_addr ∨ sec.start_addr + sec.content.length ≤ x := by
      by_contra hcon
      have hj := hne sec (List.mem_cons_self _ _) (x - sec.start_addr) (by omega)
      omega
    rw [loadAllRef]
    refine ih (Configured_loadSectionRef hc sec)
      (by rw [a1]; exact fun s h => hs s (List.mem_cons_of_mem _ h))
      (by rw [spaceSize_congr a4 a5 a6]; exact hx)
      (fun t ht => hne t (List.mem_cons_of_mem _ ht)) ?_
    unfold loadSectionRef
    exact zeroOrAbsent_putBytes sec.content (Configured_markText hc sec)
      (by rw [spaceSize_congr c4 c5 c6]; exact hx)
      (by rw [spaceSize_congr c4 c5 c6, hsz]; omega) hrange
      (by rw [byteOf_markText]; exact h)

/-- C12: a page is all zeros when it becomes resident.  After a write of `n`
bytes at `a` inside the address space, every address `x` outside `[a, a+n)` whose
page was not resident before and holds an address of `[a, a+n)` reads back `0`
with `read( x, 1)`; and after the constructor has loaded well-formed sections,
every address that lies in no section but in the page of a loaded byte reads
back `0`. -/
theorem zero_fill (m : FuncMemory) (hc : Configured m) (v a n : Nat)
    (h1 : 1 ≤ n) (h8 : n ≤ 8) (ha : a + n ≤ 2 ^ m.addr_bits)
    (secs : List ElfSection) (ab pb ob : Nat) (hcfg : ConfigOk ab pb ob)
    (hwf : ∀ s ∈ secs, SectionOk ab s) :
    (∃ m1, write m v a n = .ok m1 ∧
      ∀ x, x < 2 ^ m.addr_bits → (x < a ∨ a + n ≤ x) →
        isResident m (setIdx m x) (pageIdx m x) = false →
        (∃ i, i < n ∧ setIdx m x = setIdx m (a + i) ∧ pageIdx m x = pageIdx m (a + i)) →
        byteOf m1 x = some 0 ∧ read m1 x 1 = .ok 0) ∧
    (∃ m2, create secs ab pb ob = .ok m2 ∧
      ∀ x, x < 2 ^ ab → (∀ t ∈ secs, ∀ j, j < t.size → t.start_addr + j ≠ x) →
        (∃ t ∈ secs, ∃ j, j < t.size ∧ setIdx m2 x = setIdx m2 (t.start_addr + j)
          ∧ pageIdx m2 x = pageIdx m2 (t.start_addr + j)) →
        byteOf m2 x = some 0 ∧ read m2 x 1 = .ok 0) := by
  constructor
  · refine ⟨_, write_ok hc v a n h1 h8 ha, ?_⟩
    intro x hx hout hnr hpage
    have hsz := spaceSize_eq hc
    have hlen := valueBytes_length (v % twoTo64) n 0
    obtain ⟨a1, a2, a3, _⟩ := putBytes_fields (valueBytes (v % twoTo64) 0 n) m a
    have hza := zeroOrAbsent_putBytes (valueBytes (v % twoTo64) 0 n) hc (x := x) (a := a)
      (by rw [hsz]; exact hx) (by rw [hlen, hsz]; exact ha) (by rw [hlen]; exact hout)
      (Or.inl ((byteOf_eq_none_iff m x).2 hnr))
    have hres : isResident (putBytes m a (valueBytes (v % twoTo64) 0 n))
        (setIdx (putBytes m a (valueBytes (v % twoTo64) 0 n)) x)
        (pageIdx (putBytes m a (valueBytes (v % twoTo64) 0 n)) x) = true := by
      rw [setIdx_congr a1 a2 a3, pageIdx_congr a2 a3, isResident_putBytes_iff, hlen]
      exact Or.inr hpage
    have hb := byteOf_zero_of_resident hza hres
    exact ⟨hb, read_one (Configured_putBytes _ hc a) hb (by decide)⟩
  · refine ⟨_, create_ok hcfg hwf, ?_⟩
    intro x hx hout hpage
    have hc0 := configured_emptyMemory hcfg
    have hsz := spaceSize_eq hc0
    obtain ⟨p1, p2, p3, _⟩ := loadAllRef_fields secs (emptyMemory ab pb ob)
    have hab : (emptyMemory ab pb ob).addr_bits = ab := rfl
    have hza := zeroOrAbsent_loadAllRef secs hc0 (by rw [hab]; exact hwf) (x := x)
      (by rw [hsz, hab]; exact hx) hout (Or.inl rfl)
    have hres : isResident (loadAllRef secs (emptyMemory ab pb ob))
        (setIdx (loadAllRef secs (emptyMemory ab pb ob)) x)
        (pageIdx (loadAllRef secs (emptyMemory ab pb ob)) x) = true := by
      obtain ⟨t, ht, j, hj, e1, e2⟩ := hpage
      simp only [setIdx_congr p1 p2 p3, pageIdx_congr p2 p3] at e1 e2 ⊢
      rw [isResident_loadAllRef_iff]
      exact Or.inr ⟨t, ht, j, by rw [(hwf t ht).1]; exact hj, e1, e2⟩
    have hb := byteOf_zero_of_resident hza hres
    exact ⟨hb, read_one (Configured_loadAllRef hc0 secs) hb (by decide)⟩

/-- Witness for C12: the write of `0x1234` at `0x00FE` into the empty 16-bit
memory, and the load of a one-byte section at `0x11`. -/
theorem zero_fill_witness :
    Configured emptyMemory16 ∧ ConfigOk 16 4 4 ∧
    (∃ m1, write emptyMemory16 0x1234 0x00FE 2 = .ok m1 ∧
      ∀ x, x < 2 ^ emptyMemory16.addr_bits → (x < 0x00FE ∨ 0x00FE + 2 ≤ x) →
        isResident emptyMemory16 (setIdx emptyMemory16 x) (pageIdx emptyMemory16 x) = false →
        (∃ i, i < 2 ∧ setIdx emptyMemory16 x = setIdx emptyMemory16 (0x00FE + i)
          ∧ pageIdx emptyMemory16 x = pageIdx emptyMemory16 (0x00FE + i)) →
        byteOf m1 x = some 0 ∧ read m1 x 1 = .ok 0) ∧
    (∃ m2, create [⟨".data", 0x11, 1, [7]⟩] 16 4 4 = .ok m2 ∧
      ∀ x, x < 2 ^ 16 →
        (∀ t ∈ [(⟨".data", 0x11, 1, [7]⟩ : ElfSection)], ∀ j, j < t.size →
          t.start_addr + j ≠ x) →
        (∃ t ∈ [(⟨".data", 0x11, 1, [7]⟩ : ElfSection)], ∃ j, j < t.size
          ∧ setIdx m2 x = setIdx m2 (t.start_addr + j)
          ∧ pageIdx m2 x = pageIdx m2 (t.start_addr + j)) →
        byteOf m2 x = some 0 ∧ read m2 x 1 = .ok 0) :=
  ⟨configured_emptyMemory16, by unfold ConfigOk; decide,
    zero_fill emptyMemory16 configured_emptyMemory16 0x1234 0x00FE 2 (by decide) (by decide)
      (by decide) [⟨".data", 0x11, 1, [7]⟩] 16 4 4 (by unfold ConfigOk; decide)
      (by simp [SectionOk])⟩

end FuncMem

/-! ## Argument order of `write` -/

namespace FuncMem

theorem leValue_valueBytes (v : Nat) :
    ∀ (r k : Nat), leValue (valueBytes v k r) = (v / 256 ^ k) % 256 ^ r := by
  intro r
  induction r with
  | zero => intro k; simp [valueBytes, leValue, Nat.mod_one]
  | succ r ih =>
    intro k
    rw [valueBytes, leValue, ih, pow_succ 256 k, ← Nat.div_div_eq_div_mul, pow_succ' 256 r,
      Nat.mod_mul]

theorem uint64_low_bytes (v n : Nat) (hn : n ≤ 8) :
    (v % twoTo64) % 256 ^ n = v % 2 ^ (8 * n) := by
  have e : (256 : Nat) ^ n = 2 ^ (8 * n) := by
    rw [pow_mul]
    norm_num
  have hd : 256 ^ n ∣ twoTo64 := by
    have : twoTo64 = 256 ^ n * 256 ^ (8 - n) := by
      rw [← pow_add]
      have : n + (8 - n) = 8 := by omega
      rw [this]
      rfl
    exact ⟨_, this⟩
  rw [Nat.mod_mod_of_dvd _ hd, e]

/-- C13 (amended): `write` takes (value, address, byteCount) in that order: for
every value `y`, address `x` and `n` in `[1,8]` with `[x, x+n)` inside the address
space, the call `write( y, x, n)` stores at `x, x+1, ..., x+n-1` the `n` bytes whose
little-endian value is `y mod 2^(8n)`. -/
theorem write_value_then_address (m : FuncMemory) (hc : Configured m) (y x n : Nat)
    (h1 : 1 ≤ n) (h8 : n ≤ 8) (hx : x + n ≤ 2 ^ m.addr_bits) :
    ∃ m1, write m y x n = .ok m1 ∧
      ∃ bs : List Nat, bs.length = n ∧
        (∀ (i : Nat) (hi : i < bs.length), byteOf m1 (x + i) = some (bs.get ⟨i, hi⟩)) ∧
        leValue bs = y % 2 ^ (8 * n) := by
  have hsz := spaceSize_eq hc
  have hlen := valueBytes_length (y % twoTo64) n 0
  refine ⟨_, write_ok hc y x n h1 h8 hx, valueBytes (y % twoTo64) 0 n, hlen, ?_, ?_⟩
  · intro i hi
    exact byteOf_putBytes_same _ hc (by rw [hlen, hsz]; exact hx) hi
  · rw [leValue_valueBytes, pow_zero, Nat.div_one, uint64_low_bytes y n h8]

/-- Witness for C13 (amended): the value `0x1234` written with 2 bytes at the
address `0x00FE` of the empty 16-bit memory. -/
theorem write_value_then_address_witness :
    Configured emptyMemory16 ∧
    ∃ m1, write emptyMemory16 0x1234 0x00FE 2 = .ok m1 ∧
      ∃ bs : List Nat, bs.length = 2 ∧
        (∀ (i : Nat) (hi : i < bs.length),
          byteOf m1 (0x00FE + i) = some (bs.get ⟨i, hi⟩)) ∧
        leValue bs = 0x1234 % 2 ^ (8 * 2) :=
  ⟨configured_emptyMemory16,
    write_value_then_address emptyMemory16 configured_emptyMemory16 0x1234 0x00FE 2
      (by decide) (by decide) (by decide)⟩

/-- C13 (counterexample): read with the address first, the call
`write( 0x0010, 0x0034, 1)` should store the byte `0x34` at address `0x0010`; the
code takes `0x0010` as the value and `0x0034` as the address: the byte `0x10` is
stored at `0x0034`, nothing is stored at `0x0010`, and `read( 0x0010, 1)` does
not return `0x34`. -/
theorem write_takes_value_first :
    ∃ m1, write emptyMemory16 0x0010 0x0034 1 = .ok m1 ∧
      byteOf m1 0x0034 = some 0x10 ∧
      byteOf m1 0x0010 = none ∧
      read m1 0x0034 1 = .ok 0x10 ∧
      read m1 0x0010 1 ≠ .ok 0x34 :=
  ⟨putBytes emptyMemory16 0x0034 [0x10],
    write_ok configured_emptyMemory16 0x0010 0x0034 1 (by decide) (by decide) (by decide),
    by decide!, by decide!, by decide!, by decide!⟩

/-! ## The configuration check and the derived sizes -/

theorem shlInt_undefined {x k : Nat} (h : 32 ≤ k) : shlInt x k = .error .undefinedShift := by
  unfold shlInt
  rw [if_pos h]

theorem shlInt_error {x k : Nat} {e : Fault} (h : shlInt x k = .error e) :
    e = .undefinedShift := by
  unfold shlInt at h
  split at h
  · cases h
    rfl
  · cases h

/-- C15 (failing input): for `addr_bits = 64`, `page_bits = 10`, `offset_bits = 12`
the check passes and `set_bits` is 42, but line 51 computes `1 << 42` on an
`int`, a shift by more than 31 positions: no size `2^42` is computed.  The same
happens for `set_bits = 32` (`addr_bits = 32` with no page and offset bits). -/
theorem sizes_undefined_for_wide_sets :
    configCheck 64 10 12 = .ok () ∧
    64 - 10 - 12 = 42 ∧
    shlInt 1 42 = .error .undefinedShift ∧
    create [] 64 10 12 = .error .undefinedShift ∧
    configCheck 32 0 0 = .ok () ∧
    create [] 32 0 0 = .error .undefinedShift :=
  ⟨rfl, rfl, rfl, rfl, rfl, rfl⟩

/-! ## The destructor -/

/-- C16 (failing input): after `write( 1, 0, 1)` on the empty 16-bit memory the
page array of set 0 and the bytes of its page 0 are allocated; the destructor
releases the top-level array only, so both blocks remain allocated. -/
theorem destructor_leaves_sets_and_pages :
    ∃ m1, write emptyMemory16 1 0 1 = .ok m1 ∧
      isAllocated m1 (.set 0) = true ∧
      isAllocated m1 (.page 0 0) = true ∧
      remainsAfterDestructor m1 .top = false ∧
      remainsAfterDestructor m1 (.set 0) = true ∧
      remainsAfterDestructor m1 (.page 0 0) = true :=
  ⟨putBytes emptyMemory16 0 [1],
    write_ok configured_emptyMemory16 1 0 1 (by decide) (by decide) (by decide),
    by decide!, by decide!, by decide!, by decide!, by decide!⟩

/-! ## The frame of `write` -/

theorem read_one_gen {m : FuncMemory} (hc : Configured m) {x b : Nat} {z : Int}
    (h : byteOf m x = some b) (hz : shlInt b (0 * 8) = .ok z) :
    read m x 1 = .ok ((0 + toUint64 z) % twoTo64) := by
  have hs := setIdx_lt hc x
  have hp := pageIdx_lt hc x
  have ho := offsetIdx_lt hc x
  have hr : isResident m (setIdx m x) (pageIdx m x) = true := by
    rw [← peek_isSome_iff m _ _ (offsetIdx m x)]
    unfold byteOf at h
    rw [h]
    rfl
  obtain ⟨c1, hstep, hbytes⟩ := readStep_RDWR 0 hs hp ho h hz
  have hck := readCheck_of_resident hs hp hr
  unfold setIdx at hck hstep
  unfold pageIdx at hck hstep
  unfold offsetIdx at hstep
  unfold read
  rw [if_neg (by omega)]
  simp only [hck]
  rw [show 4 * 1 = 3 + 1 from rfl, readLoop_succ _ _ _ _ _ (by show 0 < 1; omega), hstep]
  exact readLoop_done _ _ _ _ _ (by rw [hbytes]; omega)

theorem read_one_congr {m m1 : FuncMemory} (hc : Configured m) (hc1 : Configured m1)
    {x b : Nat} (h : byteOf m x = some b) (h1 : byteOf m1 x = some b) :
    read m1 x 1 = read m x 1 := by
  obtain ⟨z, hz⟩ : ∃ z, shlInt b (0 * 8) = .ok z := ⟨_, by simp [shlInt]; rfl⟩
  rw [read_one_gen hc h hz, read_one_gen hc1 h1 hz]

/-- C19: after a write of `n` bytes (`1 ≤ n ≤ 8`) at `a` that stays inside the
address space, every address `b` of the address space outside `[a, a+n)` that was
resident before holds the same byte, `read( b, 1)` gives what it gave before,
and `startPC()` is unchanged. -/
theorem write_frame (m : FuncMemory) (hc : Configured m) (v a n : Nat)
    (h1 : 1 ≤ n) (h8 : n ≤ 8) (ha : a + n ≤ 2 ^ m.addr_bits) :
    ∃ m1, write m v a n = .ok m1 ∧
      (∀ b, b < 2 ^ m.addr_bits → (b < a ∨ a + n ≤ b) →
        isResident m (setIdx m b) (pageIdx m b) = true →
        byteOf m1 b = byteOf m b ∧ read m1 b 1 = read m b 1) ∧
      startPC m1 = startPC m := by
  have hsz := spaceSize_eq hc
  have hlen := valueBytes_length (v % twoTo64) n 0
  refine ⟨_, write_ok hc v a n h1 h8 ha, ?_, ?_⟩
  · intro b hb hout hr
    have hbyte := byteOf_putBytes_other (valueBytes (v % twoTo64) 0 n) hc (x := b) (a := a)
      (by rw [hsz]; exact hb) (by rw [hlen, hsz]; exact ha) (by rw [hlen]; exact hout) hr
    refine ⟨hbyte, ?_⟩
    cases hv : byteOf m b with
    | none =>
      rw [(byteOf_eq_none_iff m b).1 hv] at hr
      cases hr
    | some B =>
      rw [hv] at hbyte
      exact read_one_congr hc (Configured_putBytes _ hc a) hv hbyte
  · unfold startPC
    rw [(putBytes_fields (valueBytes (v % twoTo64) 0 n) m a).2.2.2.2.2.2]

/-- Witness for C19: the write of `0x0607` at `0x00FF` into the memory that holds
`0x34, 0x12` at `0x00FE, 0x00FF`. -/
theorem write_frame_witness :
    Configured (putBytes emptyMemory16 0x00FE [0x34, 0x12]) ∧
    ∃ m1, write (putBytes emptyMemory16 0x00FE [0x34, 0x12]) 0x0607 0x00FF 2 = .ok m1 ∧
      (∀ b, b < 2 ^ (putBytes emptyMemory16 0x00FE [0x34, 0x12]).addr_bits →
        (b < 0x00FF ∨ 0x00FF + 2 ≤ b) →
        isResident (putBytes emptyMemory16 0x00FE [0x34, 0x12])
          (setIdx (putBytes emptyMemory16 0x00FE [0x34, 0x12]) b)
          (pageIdx (putBytes emptyMemory16 0x00FE [0x34, 0x12]) b) = true →
        byteOf m1 b = byteOf (putBytes emptyMemory16 0x00FE [0x34, 0x12]) b ∧
        read m1 b 1 = read (putBytes emptyMemory16 0x00FE [0x34, 0x12]) b 1) ∧
      startPC m1 = startPC (putBytes emptyMemory16 0x00FE [0x34, 0x12]) :=
  ⟨Configured_putBytes _ configured_emptyMemory16 _,
    write_frame (putBytes emptyMemory16 0x00FE [0x34, 0x12])
      (Configured_putBytes _ configured_emptyMemory16 _) 0x0607 0x00FF 2
      (by decide) (by decide) (by decide)⟩

end FuncMem

/-! ## The loader against one-byte writes -/

namespace FuncMem

end FuncMem

/-! ## The logged loops -/

namespace FuncMem

theorem writeLoopLog_done (v n fuel : Nat) (m : FuncMemory) (c : Cursor) (log : RunLog)
    (h : ¬ c.bytes < n) : writeLoopLog v n fuel m c log = (log, .ok m) := by
  cases fuel <;> simp [writeLoopLog, h]

theorem writeLoopLog_succ (v n fuel : Nat) (m : FuncMemory) (c : Cursor) (log : RunLog)
    (h : c.bytes < n) :
    writeLoopLog v n (fuel + 1) m c log =
      match writeStep v m c with
      | .error e => (logStep log c, .error e)
      | .ok (m1, c1) => writeLoopLog v n fuel m1 c1 (logStep log c) := by
  simp [writeLoopLog, h]

theorem writeLoopLog_snd (v n : Nat) :
    ∀ (fuel : Nat) (m : FuncMemory) (c : Cursor) (log : RunLog),
      (writeLoopLog v n fuel m c log).2 = writeLoop v n fuel m c := by
  intro fuel
  induction fuel with
  | zero =>
    intro m c log
    unfold writeLoopLog writeLoop
    split <;> rfl
  | succ fuel ih =>
    intro m c log
    unfold writeLoopLog writeLoop
    split
    · cases writeStep v m c with
      | error e => rfl
      | ok r =>
        obtain ⟨m1, c1⟩ := r
        exact ih m1 c1 _
    · rfl

theorem readLoopLog_done (m : FuncMemory) (n fuel : Nat) (c : Cursor) (number : Nat)
    (log : RunLog) (h : ¬ c.bytes < n) :
    readLoopLog m n fuel c number log = (log, .ok number) := by
  cases fuel <;> simp [readLoopLog, h]

theorem readLoopLog_succ (m : FuncMemory) (n fuel : Nat) (c : Cursor) (number : Nat)
    (log : RunLog) (h : c.bytes < n) :
    readLoopLog m n (fuel + 1) c number log =
      match readStep m c number with
      | .error e => (logStep log c, .error e)
      | .ok (c1, number1) => readLoopLog m n fuel c1 number1 (logStep log c) := by
  simp [readLoopLog, h]

theorem readLoopLog_snd (m : FuncMemory) (n : Nat) :
    ∀ (fuel : Nat) (c : Cursor) (number : Nat) (log : RunLog),
      (readLoopLog m n fuel c number log).2 = readLoop m n fuel c number := by
  intro fuel
  induction fuel with
  | zero =>
    intro c number log
    unfold readLoopLog readLoop
    split <;> rfl
  | succ fuel ih =>
    intro c number log
    unfold readLoopLog readLoop
    split
    · cases readStep m c number with
      | error e => rfl
      | ok r =>
        obtain ⟨c1, number1⟩ := r
        exact ih c1 number1 _
    · rfl

theorem decompose_addrOf {m : FuncMemory} (h : Configured m) {s p o : Nat}
    (hs : s < m.sets_array_size) (hp : p < m.pages_array_size) (ho : o < m.page_size) :
    decompose m (addrOf m s p o) = (s, p, o) := by
  unfold decompose
  rw [setIdx_addrOf h hs hp ho, pageIdx_addrOf (s := s) h hp ho,
    offsetIdx_addrOf (s := s) (p := p) h ho]

theorem triplesFrom_congr {m m1 : FuncMemory} (h1 : m1.addr_bits = m.addr_bits)
    (h2 : m1.page_num_size = m.page_num_size) (h3 : m1.offset_size = m.offset_size) :
    ∀ (j x : Nat), triplesFrom m1 x j = triplesFrom m x j := by
  intro j
  induction j with
  | zero => intro x; rfl
  | succ j ih =>
    intro x
    rw [triplesFrom, triplesFrom, ih]
    unfold decompose
    rw [setIdx_congr h1 h2 h3, pageIdx_congr h2 h3, offsetIdx_congr h3]

theorem accesses_step {m : FuncMemory} {x s p o : Nat} (acc : List (Nat × Nat × Nat)) (j : Nat)
    (h : decompose m x = (s, p, o)) :
    (acc ++ [(s, p, o)]) ++ triplesFrom m (x + 1) j = acc ++ triplesFrom m x (j + 1) := by
  rw [triplesFrom, h, List.append_assoc]
  rfl

theorem accesses_one {m : FuncMemory} {x s p o : Nat} (acc : List (Nat × Nat × Nat))
    (h : decompose m x = (s, p, o)) :
    acc ++ [(s, p, o)] = acc ++ triplesFrom m x 1 := by
  rw [triplesFrom, h]
  rfl

theorem writeLoopLog_run (v n : Nat) (hn8 : n ≤ 8) :
    ∀ (r : Nat) (m : FuncMemory) (s p o k fuel : Nat) (log0 : RunLog), Configured m →
      isResident m s p = true → s < m.sets_array_size → p < m.pages_array_size →
      o < m.page_size → k + (r + 1) = n → 4 * (r + 1) ≤ fuel →
      ∃ j, 1 ≤ j ∧ j ≤ r + 1 ∧
        (writeLoopLog v n fuel m ⟨.RDWR, s, p, o, k⟩ log0).1.accesses
          = log0.accesses ++ triplesFrom m (addrOf m s p o) j ∧
        (writeLoopLog v n fuel m ⟨.RDWR, s, p, o, k⟩ log0).1.iterations
          ≤ log0.iterations + 4 * (r + 1) ∧
        (addrOf m s p o + (r + 1) ≤ spaceSize m → j = r + 1) := by
  intro r
  induction r with
  | zero =>
    intro m s p o k fuel log0 hc hr hs hp ho hk hf
    obtain ⟨f, rfl⟩ : ∃ f, fuel = f + 1 := ⟨fuel - 1, by omega⟩
    have hz := hc.2.2.2.2.2.2
    have hq := hc.2.2.2.2.2.1
    have hd := decompose_addrOf hc hs hp ho
    have e : writeLoopLog v n (f + 1) m ⟨.RDWR, s, p, o, k⟩ log0
        = (logStep log0 ⟨.RDWR, s, p, o, k⟩, .ok (poke m s p o ((v / 256 ^ k) % 256))) := by
      rw [writeLoopLog_succ _ _ _ _ _ _ (by show k < n; omega)]
      rcases Nat.lt_or_ge (o + 1) m.page_size with hn | hn
      · rw [writeStep_RDWR_stay v (by omega) hs hp ho hr hz hn]
        exact writeLoopLog_done _ _ _ _ _ _ (by show ¬ k + 1 < n; omega)
      · rw [writeStep_RDWR_cross v (by omega) hs hp ho hr hz hq hn]
        exact writeLoopLog_done _ _ _ _ _ _ (by show ¬ k + 1 < n; omega)
    rw [e]
    refine ⟨1, le_refl _, le_refl _, accesses_one _ hd, ?_, fun _ => rfl⟩
    show log0.iterations + 1 ≤ _
    omega
  | succ r ih =>
    intro m s p o k fuel log0 hc hr hs hp ho hk hf
    obtain ⟨f, rfl⟩ : ∃ f, fuel = f + 4 := ⟨fuel - 4, by omega⟩
    have hz := hc.2.2.2.2.2.2
    have hq := hc.2.2.2.2.2.1
    have hS := hc.2.2.2.2.1
    have hd := decompose_addrOf hc hs hp ho
    obtain ⟨a1, a2, a3, a4, a5, a6, _⟩ := poke_fields m s p o ((v / 256 ^ k) % 256)
    have hc1 : Configured (poke m s p o ((v / 256 ^ k) % 256)) := Configured_poke hc _ _ _ _
    have hr1 : isResident (poke m s p o ((v / 256 ^ k) % 256)) s p = true := by
      rw [isResident_poke]; exact hr
    rw [show f + 4 = (f + 3) + 1 from rfl,
      writeLoopLog_succ _ _ _ _ _ _ (by show k < n; omega)]
    rcases Nat.lt_or_ge (o + 1) m.page_size with hn | hn
    · rw [writeStep_RDWR_stay v (by omega) hs hp ho hr hz hn]
      simp only []
      obtain ⟨j, hj1, hj2, hacc, hit, hfull⟩ := ih _ s p (o + 1) (k + 1) (f + 3)
        (logStep log0 ⟨.RDWR, s, p, o, k⟩) hc1 hr1 (by rw [a4]; exact hs)
        (by rw [a5]; exact hp) (by rw [a6]; exact hn) (by omega) (by omega)
      rw [addrOf_congr a5 a6, addrOf_succ_offset, triplesFrom_congr a1 a2 a3] at hacc
      rw [addrOf_congr a5 a6, spaceSize_congr a4 a5 a6, addrOf_succ_offset] at hfull
      refine ⟨j + 1, by omega, by omega, ?_, ?_, ?_⟩
      · rw [hacc]
        exact accesses_step _ _ hd
      · refine le_trans hit ?_
        show log0.iterations + 1 + 4 * (r + 1) ≤ _
        omega
      · intro hle
        have := hfull (by omega)
        omega
    · have hP : o + 1 = m.page_size := by omega
      rw [writeStep_RDWR_cross v (by omega) hs hp ho hr hz hq hn]
      simp only []
      rw [show f + 3 = (f + 2) + 1 from rfl,
        writeLoopLog_succ _ _ _ _ _ _ (by show k + 1 < n; omega)]
      rcases Nat.lt_or_ge (p + 1) m.pages_array_size with hpn | hpn
      · rw [writeStep_CNG_PG_alloc v (by rw [a4]; exact hs) (by rw [a5]; exact hpn)
          (isSome_set_of_resident hr1)]
        simp only []
        obtain ⟨b1, b2, b3, b4, b5, b6, _⟩ :=
          ensureAllocated_fields (poke m s p o ((v / 256 ^ k) % 256)) s (p + 1)
        obtain ⟨j, hj1, hj2, hacc, hit, hfull⟩ := ih _ s (p + 1) 0 (k + 1) (f + 2)
          (logStep (logStep log0 ⟨.RDWR, s, p, o, k⟩) ⟨.CNG_PG, s, p + 1, o + 1, k + 1⟩)
          (Configured_ensureAllocated hc1 _ _)
          (isResident_ensureAllocated _ _ _) (by rw [b4, a4]; exact hs)
          (by rw [b5, a5]; exact hpn) (by rw [b6, a6]; omega) (by omega) (by omega)
        rw [addrOf_congr (b5.trans a5) (b6.trans a6), addrOf_succ_page m s p o hP,
          triplesFrom_congr (b1.trans a1) (b2.trans a2) (b3.trans a3)] at hacc
        rw [addrOf_congr (b5.trans a5) (b6.trans a6),
          spaceSize_congr (b4.trans a4) (b5.trans a5) (b6.trans a6),
          addrOf_succ_page m s p o hP] at hfull
        refine ⟨j + 1, by omega, by omega, ?_, ?_, ?_⟩
        · rw [hacc]
          exact accesses_step _ _ hd
        · refine le_trans hit ?_
          show log0.iterations + 1 + 1 + 4 * (r + 1) ≤ _
          omega
        · intro hle
          have := hfull (by omega)
          omega
      · have hQ : p + 1 = m.pages_array_size := by omega
        rw [writeStep_CNG_PG_wrap v (by rw [a4]; exact hs) (by rw [a4]; exact hS)
          (by rw [a5]; exact hpn)]
        simp only []
        rw [show f + 2 = (f + 1) + 1 from rfl,
          writeLoopLog_succ _ _ _ _ _ _ (by show k + 1 < n; omega)]
        rcases Nat.lt_or_ge (s + 1) m.sets_array_size with hsn | hsn
        · rw [writeStep_CNG_SET_alloc v (by rw [a4]; exact hsn)]
          simp only []
          obtain ⟨d1, d2, d3, d4, d5, d6, _⟩ :=
            ensureSet_fields (poke m s p o ((v / 256 ^ k) % 256)) (s + 1)
          have hQpos : 0 < m.pages_array_size := by omega
          rw [writeLoopLog_succ _ _ _ _ _ _ (by show k + 1 < n; omega),
            writeStep_CNG_PG_alloc v (by rw [d4, a4]; exact hsn) (by rw [d5, a5]; exact hQpos)
              (isSome_set_ensureSet _ _)]
          simp only []
          rw [ensureAllocated_ensureSet]
          obtain ⟨b1, b2, b3, b4, b5, b6, _⟩ :=
            ensureAllocated_fields (poke m s p o ((v / 256 ^ k) % 256)) (s + 1) 0
          obtain ⟨j, hj1, hj2, hacc, hit, hfull⟩ := ih _ (s + 1) 0 0 (k + 1) f
            (logStep (logStep (logStep (logStep log0 ⟨.RDWR, s, p, o, k⟩)
              ⟨.CNG_PG, s, p + 1, o + 1, k + 1⟩) ⟨.CNG_SET, s + 1, p + 1, 0, k + 1⟩)
              ⟨.CNG_PG, s + 1, 0, 0, k + 1⟩)
            (Configured_ensureAllocated hc1 _ _)
            (isResident_ensureAllocated _ _ _) (by rw [b4, a4]; exact hsn)
            (by rw [b5, a5]; exact hQpos) (by rw [b6, a6]; omega) (by omega) (by omega)
          rw [addrOf_congr (b5.trans a5) (b6.trans a6), addrOf_succ_set m s p o hP hQ,
            triplesFrom_congr (b1.trans a1) (b2.trans a2) (b3.trans a3)] at hacc
          rw [addrOf_congr (b5.trans a5) (b6.trans a6),
            spaceSize_congr (b4.trans a4) (b5.trans a5) (b6.trans a6),
            addrOf_succ_set m s p o hP hQ] at hfull
          refine ⟨j + 1, by omega, by omega, ?_, ?_, ?_⟩
          · rw [hacc]
            exact accesses_step _ _ hd
          · refine le_trans hit ?_
            show log0.iterations + 1 + 1 + 1 + 1 + 4 * (r + 1) ≤ _
            omega
          · intro hle
            have := hfull (by omega)
            omega
        · have hSe : s + 1 = m.sets_array_size := by omega
          rw [writeStep_CNG_SET_exit v (by rw [a4]; exact hsn)]
          simp only []
          rw [writeLoopLog_succ _ _ _ _ _ _ (by show k + 1 < n; omega), writeStep_EXIT]
          simp only []
          refine ⟨1, le_refl _, by omega, accesses_one _ hd, ?_, ?_⟩
          · show log0.iterations + 1 + 1 + 1 + 1 ≤ _
            omega
          · intro hle
            rw [spaceSize_eq_succ m s p o hP hQ hSe] at hle
            omega

end FuncMem

namespace FuncMem

theorem byteAt_error_ne {m : FuncMemory} {s p o : Nat} {e : Fault}
    (h : byteAt m s p o = .error e) : e ≠ .outOfFuel := by
  unfold byteAt pageAt setAt at h
  intro he
  subst he
  by_cases hs : s < m.sets_array_size
  · cases h1 : m.sets_array s with
    | none => simp [hs, h1] at h
    | some t =>
      by_cases hp : p < m.pages_array_size
      · cases h2 : t p with
        | none => simp [hs, h1, hp, h2] at h
        | some pg =>
          by_cases ho : o < m.page_size
          · simp [hs, h1, hp, h2, ho] at h
          · simp [hs, h1, hp, h2, ho] at h
      · simp [hs, h1, hp] at h
  · simp [hs] at h

theorem byteAt_ok_set {m : FuncMemory} {s p o b : Nat} (h : byteAt m s p o = .ok b) :
    ∃ t, m.sets_array s = some t := by
  unfold byteAt pageAt setAt at h
  by_cases hs : s < m.sets_array_size
  · cases h1 : m.sets_array s with
    | none => simp [hs, h1] at h
    | some t => exact ⟨t, rfl⟩
  · simp [hs] at h

theorem readStep_RDWR_cases (m : FuncMemory) {s p o k : Nat} (number : Nat)
    (ho : o < m.page_size) (hz : m.page_size < twoTo64) (hp : p < m.pages_array_size)
    (hq : m.pages_array_size < twoTo64) :
    (∃ e, readStep m ⟨.RDWR, s, p, o, k⟩ number = .error e ∧ e ≠ .outOfFuel) ∨
    (∃ number1 t, m.sets_array s = some t ∧
      readStep m ⟨.RDWR, s, p, o, k⟩ number =
        .ok (if m.page_size ≤ o + 1 then ⟨.CNG_PG, s, p + 1, o + 1, k + 1⟩
             else ⟨.RDWR, s, p, o + 1, k + 1⟩, number1)) := by
  have e1 : (o + 1) % twoTo64 = o + 1 := mod_twoTo64 (by omega)
  have e2 : (p + 1) % twoTo64 = p + 1 := mod_twoTo64 (by omega)
  cases hb : byteAt m s p o with
  | error e =>
    left
    exact ⟨e, by simp [readStep, hb], byteAt_error_ne hb⟩
  | ok b =>
    cases hsh : shlInt b (k * 8) with
    | error e =>
      left
      refine ⟨e, by simp [readStep, hb, hsh], ?_⟩
      rw [shlInt_error hsh]
      decide
    | ok z =>
      right
      obtain ⟨t, ht⟩ := byteAt_ok_set hb
      refine ⟨(number + toUint64 z) % twoTo64, t, ht, ?_⟩
      by_cases hn : m.page_size ≤ o + 1
      · simp [readStep, hb, hsh, e1, e2, hn]
      · simp [readStep, hb, hsh, e1, hn]

theorem readStep_CNG_PG_wrap (m : FuncMemory) {s p o k : Nat} (number : Nat)
    (hs : s < m.sets_array_size) (hz : m.sets_array_size < twoTo64)
    (hp : m.pages_array_size ≤ p) :
    readStep m ⟨.CNG_PG, s, p, o, k⟩ number = .ok (⟨.CNG_SET, s + 1, p, 0, k⟩, number) := by
  have e : (s + 1) % twoTo64 = s + 1 := mod_twoTo64 (by omega)
  simp [readStep, hp, e]

theorem readStep_CNG_PG_page (m : FuncMemory) {s p o k : Nat} (number : Nat)
    {t : PageTable} (hs : s < m.sets_array_size) (hp : p < m.pages_array_size)
    (ht : m.sets_array s = some t) :
    readStep m ⟨.CNG_PG, s, p, o, k⟩ number =
      .ok (⟨if (t p).isSome then .RDWR else .EXIT, s, p, 0, k⟩, number) := by
  cases h2 : t p <;> simp [readStep, pageAt, setAt, hs, hp, ht, h2]

theorem readStep_CNG_SET_exit (m : FuncMemory) {s p o k : Nat} (number : Nat)
    (hs : m.sets_array_size ≤ s) :
    readStep m ⟨.CNG_SET, s, p, o, k⟩ number = .ok (⟨.EXIT, s, 0, o, k⟩, number) := by
  simp [readStep, hs]

theorem readStep_CNG_SET_set (m : FuncMemory) {s p o k : Nat} (number : Nat)
    (hs : s < m.sets_array_size) :
    readStep m ⟨.CNG_SET, s, p, o, k⟩ number =
      .ok (⟨if (m.sets_array s).isSome then .CNG_PG else .EXIT, s, 0, o, k⟩, number) := by
  cases h1 : m.sets_array s <;> simp [readStep, setAt, hs, h1]

theorem readStep_EXIT (m : FuncMemory) (s p o k number : Nat) :
    readStep m ⟨.EXIT, s, p, o, k⟩ number = .error .assertion := by
  simp [readStep]

theorem readLoopLog_exit (m : FuncMemory) (n fuel : Nat) {s p o k : Nat} (number : Nat)
    (log : RunLog) (h : k < n) :
    readLoopLog m n (fuel + 1) ⟨.EXIT, s, p, o, k⟩ number log
      = (⟨log.accesses, log.iterations + 1⟩, .error .assertion) := by
  rw [readLoopLog_succ _ _ _ _ _ _ (by show k < n; exact h), readStep_EXIT]
  rfl

end FuncMem

namespace FuncMem

theorem readLoopLog_run (m : FuncMemory) (hc : Configured m) (n : Nat) :
    ∀ (r s p o k fuel number : Nat) (log0 : RunLog),
      s < m.sets_array_size → p < m.pages_array_size → o < m.page_size →
      k + (r + 1) = n → 4 * (r + 1) ≤ fuel →
      ∃ j, 1 ≤ j ∧ j ≤ r + 1 ∧ addrOf m s p o + j ≤ spaceSize m ∧
        (readLoopLog m n fuel ⟨.RDWR, s, p, o, k⟩ number log0).1.accesses
          = log0.accesses ++ triplesFrom m (addrOf m s p o) j ∧
        (readLoopLog m n fuel ⟨.RDWR, s, p, o, k⟩ number log0).1.iterations
          ≤ log0.iterations + 4 * (r + 1) ∧
        (readLoopLog m n fuel ⟨.RDWR, s, p, o, k⟩ number log0).2 ≠ .error .outOfFuel ∧
        (∀ v, (readLoopLog m n fuel ⟨.RDWR, s, p, o, k⟩ number log0).2 = .ok v → j = r + 1) := by
  have hz := hc.2.2.2.2.2.2
  have hq := hc.2.2.2.2.2.1
  have hS := hc.2.2.2.2.1
  intro r
  induction r with
  | zero =>
    intro s p o k fuel number log0 hs hp ho hk hf
    obtain ⟨f, rfl⟩ : ∃ f, fuel = f + 1 := ⟨fuel - 1, by omega⟩
    have hd := decompose_addrOf hc hs hp ho
    have hlt := addrOf_lt_spaceSize m hs hp ho
    rw [readLoopLog_succ _ _ _ _ _ _ (by show k < n; omega)]
    rcases readStep_RDWR_cases m number ho hz hp hq with ⟨e, he, hne⟩ | ⟨number1, t, ht, hstep⟩
    · rw [he]
      refine ⟨1, le_refl _, le_refl _, by omega, accesses_one _ hd, ?_,
        fun h => hne (Except.error.inj h), fun v h => by cases h⟩
      show log0.iterations + 1 ≤ _
      omega
    · rw [hstep]
      simp only []
      have hdone : ∀ c : Cursor, c.bytes = k + 1 →
          readLoopLog m n f c number1 (logStep log0 ⟨.RDWR, s, p, o, k⟩)
            = (logStep log0 ⟨.RDWR, s, p, o, k⟩, .ok number1) :=
        fun c hcb => readLoopLog_done _ _ _ _ _ _ (by rw [hcb]; omega)
      rw [hdone _ (by split <;> rfl)]
      refine ⟨1, le_refl _, le_refl _, by omega, accesses_one _ hd, ?_,
        (fun h => by cases h), fun _ _ => rfl⟩
      show log0.iterations + 1 ≤ _
      omega
  | succ r ih =>
    intro s p o k fuel number log0 hs hp ho hk hf
    obtain ⟨f, rfl⟩ : ∃ f, fuel = f + 5 := ⟨fuel - 5, by omega⟩
    have hd := decompose_addrOf hc hs hp ho
    have hlt := addrOf_lt_spaceSize m hs hp ho
    rw [show f + 5 = (f + 4) + 1 from rfl,
      readLoopLog_succ _ _ _ _ _ _ (by show k < n; omega)]
    rcases readStep_RDWR_cases m number ho hz hp hq with ⟨e, he, hne⟩ | ⟨number1, t, ht, hstep⟩
    · rw [he]
      refine ⟨1, le_refl _, by omega, by omega, accesses_one _ hd, ?_,
        fun h => hne (Except.error.inj h), fun v h => by cases h⟩
      show log0.iterations + 1 ≤ _
      omega
    · rw [hstep]
      simp only []
      rcases Nat.lt_or_ge (o + 1) m.page_size with hn | hn
      · -- the next byte lies in the same page
        rw [if_neg (by omega)]
        obtain ⟨j, hj1, hj2, hsp, hacc, hit, hnf, hok⟩ := ih s p (o + 1) (k + 1) (f + 4)
          number1 (logStep log0 ⟨.RDWR, s, p, o, k⟩) hs hp hn (by omega) (by omega)
        rw [addrOf_succ_offset] at hsp hacc
        refine ⟨j + 1, by omega, by omega, by omega, ?_, ?_, hnf, ?_⟩
        · rw [hacc]
          exact accesses_step _ _ hd
        · refine le_trans hit ?_
          show log0.iterations + 1 + 4 * (r + 1) ≤ _
          omega
        · intro v hv
          have := hok v hv
          omega
      · have hP : o + 1 = m.page_size := by omega
        rw [if_pos hn, show f + 4 = (f + 3) + 1 from rfl,
          readLoopLog_succ _ _ _ _ _ _ (by show k + 1 < n; omega)]
        rcases Nat.lt_or_ge (p + 1) m.pages_array_size with hpn | hpn
        · rw [readStep_CNG_PG_page m number1 hs hpn ht]
          simp only []
          cases h2 : t (p + 1) with
          | none =>
            -- the next page is not resident
            simp only [Option.isSome_none, Bool.false_eq_true, if_false]
            rw [show f + 3 = (f + 2) + 1 from rfl,
              readLoopLog_exit _ _ _ _ _ (by omega)]
            refine ⟨1, le_refl _, by omega, by omega, accesses_one _ hd, ?_,
              (fun h => by cases h), fun v h => by cases h⟩
            show log0.iterations + 1 + 1 + 1 ≤ _
            omega
          | some pg =>
            -- the next byte lies in the next page of the same set
            simp only [Option.isSome_some, if_true]
            obtain ⟨j, hj1, hj2, hsp, hacc, hit, hnf, hok⟩ := ih s (p + 1) 0 (k + 1) (f + 3)
              number1
              (logStep (logStep log0 ⟨.RDWR, s, p, o, k⟩) ⟨.CNG_PG, s, p + 1, o + 1, k + 1⟩)
              hs hpn (by omega) (by omega) (by omega)
            rw [addrOf_succ_page m s p o hP] at hsp hacc
            refine ⟨j + 1, by omega, by omega, by omega, ?_, ?_, hnf, ?_⟩
            · rw [hacc]
              exact accesses_step _ _ hd
            · refine le_trans hit ?_
              show log0.iterations + 1 + 1 + 4 * (r + 1) ≤ _
              omega
            · intro v hv
              have := hok v hv
              omega
        · have hQ : p + 1 = m.pages_array_size := by omega
          rw [readStep_CNG_PG_wrap m number1 hs hS hpn]
          simp only []
          rw [show f + 3 = (f + 2) + 1 from rfl,
            readLoopLog_succ _ _ _ _ _ _ (by show k + 1 < n; omega)]
          rcases Nat.lt_or_ge (s + 1) m.sets_array_size with hsn | hsn
          · rw [readStep_CNG_SET_set m number1 hsn]
            simp only []
            cases h1 : m.sets_array (s + 1) with
            | none =>
              -- the next set is not resident
              simp only [Option.isSome_none, Bool.false_eq_true, if_false]
              rw [show f + 2 = (f + 1) + 1 from rfl,
                readLoopLog_exit _ _ _ _ _ (by omega)]
              refine ⟨1, le_refl _, by omega, by omega, accesses_one _ hd, ?_,
                (fun h => by cases h), fun v h => by cases h⟩
              show log0.iterations + 1 + 1 + 1 + 1 ≤ _
              omega
            | some t1 =>
              simp only [Option.isSome_some, if_true]
              have hQpos : 0 < m.pages_array_size := by omega
              rw [show f + 2 = (f + 1) + 1 from rfl,
                readLoopLog_succ _ _ _ _ _ _ (by show k + 1 < n; omega),
                readStep_CNG_PG_page m number1 hsn hQpos h1]
              simp only []
              cases h2 : t1 0 with
              | none =>
                -- page 0 of the next set is not resident
                simp only [Option.isSome_none, Bool.false_eq_true, if_false]
                rw [readLoopLog_exit _ _ _ _ _ (by omega)]
                refine ⟨1, le_refl _, by omega, by omega, accesses_one _ hd, ?_,
                  (fun h => by cases h), fun v h => by cases h⟩
                show log0.iterations + 1 + 1 + 1 + 1 + 1 ≤ _
                omega
              | some pg =>
                -- the next byte lies in page 0 of the next set
                simp only [Option.isSome_some, if_true]
                obtain ⟨j, hj1, hj2, hsp, hacc, hit, hnf, hok⟩ :=
                  ih (s + 1) 0 0 (k + 1) (f + 1) number1
                    (logStep (logStep (logStep (logStep log0 ⟨.RDWR, s, p, o, k⟩)
                      ⟨.CNG_PG, s, p + 1, o + 1, k + 1⟩) ⟨.CNG_SET, s + 1, p + 1, 0, k + 1⟩)
                      ⟨.CNG_PG, s + 1, 0, 0, k + 1⟩)
                    hsn hQpos (by omega) (by omega) (by omega)
                rw [addrOf_succ_set m s p o hP hQ] at hsp hacc
                refine ⟨j + 1, by omega, by omega, by omega, ?_, ?_, hnf, ?_⟩
                · rw [hacc]
                  exact accesses_step _ _ hd
                · refine le_trans hit ?_
                  show log0.iterations + 1 + 1 + 1 + 1 + 4 * (r + 1) ≤ _
                  omega
                · intro v hv
                  have := hok v hv
                  omega
          · -- the next byte lies beyond the last set
            rw [readStep_CNG_SET_exit m number1 hsn]
            simp only []
            rw [show f + 2 = (f + 1) + 1 from rfl, readLoopLog_exit _ _ _ _ _ (by omega)]
            refine ⟨1, le_refl _, by omega, by omega, accesses_one _ hd, ?_,
              (fun h => by cases h), fun v h => by cases h⟩
            show log0.iterations + 1 + 1 + 1 + 1 ≤ _
            omega

end FuncMem

namespace FuncMem

theorem readCheck_error_ne {m : FuncMemory} {s p : Nat} {e : Fault}
    (h : readCheck m s p = .error e) : e ≠ .outOfFuel := by
  intro he
  subst he
  unfold readCheck pageAt setAt at h
  by_cases hs : s < m.sets_array_size
  · cases h1 : m.sets_array s with
    | none =>
      by_cases h0 : (if s = 0 then 1 else 0) < m.sets_array_size
      · cases h2 : m.sets_array (if s = 0 then 1 else 0) <;> simp [hs, h1, h0, h2] at h
      · simp [hs, h1, h0] at h
    | some t =>
      by_cases hp : p < m.pages_array_size
      · simp [hs, h1, hp] at h
      · simp [hs, h1, hp] at h
  · simp [hs] at h

theorem readLog_snd (m : FuncMemory) (a n : Nat) : (readLog m a n).2 = read m a n := by
  unfold readLog read
  split
  · rfl
  · simp only []
    cases readCheck m
        (getSetIdx (m.addr_bits - m.page_num_size - m.offset_size) a m.addr_bits)
        (getPageIdx m.page_num_size m.offset_size a) with
    | error e => rfl
    | ok u => exact readLoopLog_snd _ _ _ _ _ _

theorem writeLog_snd (m : FuncMemory) (v a n : Nat) : (writeLog m v a n).2 = write m v a n := by
  unfold writeLog write
  split
  · rfl
  · simp only []
    cases writeInit m
        (getSetIdx (m.addr_bits - m.page_num_size - m.offset_size) a m.addr_bits)
        (getPageIdx m.page_num_size m.offset_size a) with
    | error e => rfl
    | ok m1 => exact writeLoopLog_snd _ _ _ _ _ _

theorem readLog_run {m : FuncMemory} (hc : Configured m) (a n : Nat) (h1 : 1 ≤ n)
    (ha : a < spaceSize m) :
    ∃ j, j ≤ n ∧ a + j ≤ spaceSize m ∧
      (readLog m a n).1.accesses = triplesFrom m a j ∧
      (readLog m a n).1.iterations ≤ 4 * n ∧
      (readLog m a n).2 ≠ .error .outOfFuel ∧
      (∀ v, (readLog m a n).2 = .ok v → j = n) := by
  have hs := setIdx_lt hc a
  have hp := pageIdx_lt hc a
  have ho := offsetIdx_lt hc a
  obtain ⟨r, rfl⟩ : ∃ r, n = r + 1 := ⟨n - 1, by omega⟩
  cases hck : readCheck m (setIdx m a) (pageIdx m a) with
  | error e =>
    have e1 : readLog m a (r + 1) = (⟨[], 0⟩, .error e) := by
      unfold setIdx pageIdx at hck
      unfold readLog
      rw [if_neg (by omega)]
      simp only [hck]
    rw [e1]
    exact ⟨0, by omega, by omega, rfl, by show 0 ≤ _; omega,
      fun h => readCheck_error_ne hck (Except.error.inj h), fun v h => by cases h⟩
  | ok u =>
    have e1 : readLog m a (r + 1)
        = readLoopLog m (r + 1) (4 * (r + 1))
            ⟨.RDWR, setIdx m a, pageIdx m a, offsetIdx m a, 0⟩ 0 ⟨[], 0⟩ := by
      unfold setIdx pageIdx at hck
      unfold readLog
      rw [if_neg (by omega)]
      simp only [hck]
      rfl
    obtain ⟨j, hj1, hj2, hsp, hacc, hit, hnf, hok⟩ := readLoopLog_run m hc (r + 1) r
      (setIdx m a) (pageIdx m a) (offsetIdx m a) 0 (4 * (r + 1)) 0 ⟨[], 0⟩ hs hp ho
      (by omega) (le_refl _)
    rw [addrOf_setIdx hc ha] at hsp hacc
    rw [e1]
    refine ⟨j, hj2, hsp, ?_, ?_, hnf, hok⟩
    · rw [hacc]
      rfl
    · refine le_trans hit ?_
      show 0 + 4 * (r + 1) ≤ _
      omega

theorem writeLog_run {m : FuncMemory} (hc : Configured m) (v a n : Nat) (h1 : 1 ≤ n)
    (h8 : n ≤ 8) (ha : a < spaceSize m) :
    ∃ j, 1 ≤ j ∧ j ≤ n ∧
      (writeLog m v a n).1.accesses = triplesFrom m a j ∧
      (writeLog m v a n).1.iterations ≤ 4 * n ∧
      (a + n ≤ spaceSize m → j = n) := by
  have hs := setIdx_lt hc a
  have hp := pageIdx_lt hc a
  have ho := offsetIdx_lt hc a
  obtain ⟨b1, b2, b3, b4, b5, b6, _⟩ := ensureAllocated_fields m (setIdx m a) (pageIdx m a)
  obtain ⟨r, rfl⟩ : ∃ r, n = r + 1 := ⟨n - 1, by omega⟩
  have hi := writeInit_eq hs hp
  have e1 : writeLog m v a (r + 1)
      = writeLoopLog (v % twoTo64) (r + 1) (4 * (r + 1))
          (ensureAllocated m (setIdx m a) (pageIdx m a))
          ⟨.RDWR, setIdx m a, pageIdx m a, offsetIdx m a, 0⟩ ⟨[], 0⟩ := by
    unfold setIdx pageIdx at hi
    unfold writeLog
    rw [if_neg (by omega)]
    simp only [hi]
    rfl
  obtain ⟨j, hj1, hj2, hacc, hit, hfull⟩ := writeLoopLog_run (v % twoTo64) (r + 1) h8 r
    (ensureAllocated m (setIdx m a) (pageIdx m a)) (setIdx m a) (pageIdx m a) (offsetIdx m a) 0
    (4 * (r + 1)) ⟨[], 0⟩ (Configured_ensureAllocated hc _ _) (isResident_ensureAllocated _ _ _)
    (by rw [b4]; exact hs) (by rw [b5]; exact hp) (by rw [b6]; exact ho) (by omega) (le_refl _)
  rw [addrOf_congr b5 b6, addrOf_setIdx hc ha, triplesFrom_congr b1 b2 b3] at hacc
  rw [addrOf_congr b5 b6, addrOf_setIdx hc ha, spaceSize_congr b4 b5 b6] at hfull
  rw [e1]
  refine ⟨j, hj1, hj2, ?_, ?_, hfull⟩
  · rw [hacc]
    rfl
  · refine le_trans hit ?_
    show 0 + 4 * (r + 1) ≤ _
    omega

theorem triplesFrom_length (m : FuncMemory) : ∀ (j x : Nat), (triplesFrom m x j).length = j := by
  intro j
  induction j with
  | zero => intro x; rfl
  | succ j ih => intro x; simp [triplesFrom, ih]

theorem triplesFrom_get? (m : FuncMemory) :
    ∀ (j x i : Nat), i < j → (triplesFrom m x j).get? i = some (decompose m (x + i)) := by
  intro j
  induction j with
  | zero => intro x i hi; omega
  | succ j ih =>
    intro x i hi
    cases i with
    | zero => simp [triplesFrom]
    | succ i =>
      rw [triplesFrom, List.get?_cons_succ, ih (x + 1) i (by omega)]
      congr 2
      omega

theorem specDecompose_eq {m : FuncMemory} (hc : Configured m) (x : Nat) :
    specDecompose m.addr_bits m.page_num_size m.offset_size x = decompose m x := by
  obtain ⟨h1, _⟩ := hc
  have e : m.addr_bits - (m.addr_bits - m.page_num_size - m.offset_size)
      = m.page_num_size + m.offset_size := by omega
  unfold specDecompose decompose setIdx pageIdx offsetIdx getSetIdx getPageIdx getOffsetIdx
  rw [Nat.and_pow_two_sub_one_eq_mod, Nat.and_pow_two_sub_one_eq_mod,
    Nat.and_pow_two_sub_one_eq_mod, Nat.shiftRight_eq_div_pow, Nat.shiftRight_eq_div_pow, e]

end FuncMem

namespace FuncMem

/-- The loops stop within their budget: on a configured memory, for every
address of the address space and `n ≥ 1`, the loop of `read` runs at most `4 * n`
iterations and never uses up its budget, and for `n ≤ 8` the loop of `write` runs
at most `4 * n` iterations and ends with a memory or with the failed assertion of
the `EXIT` state. -/
theorem loops_stop_within_budget {m : FuncMemory} (hc : Configured m) (v a n : Nat)
    (h1 : 1 ≤ n) (ha : a < 2 ^ m.addr_bits) :
    (readLog m a n).1.iterations ≤ 4 * n ∧
    read m a n ≠ .error .outOfFuel ∧
    (n ≤ 8 →
      (writeLog m v a n).1.iterations ≤ 4 * n ∧
      ((∃ m1, write m v a n = .ok m1 ∧ (writeLog m v a n).1.accesses.length = n) ∨
        write m v a n = .error .assertion)) := by
  have hsz := spaceSize_eq hc
  obtain ⟨j, hj1, hsp, hacc, hit, hnf, hok⟩ := readLog_run hc a n h1 (by omega)
  refine ⟨hit, by rw [← readLog_snd]; exact hnf, ?_⟩
  intro h8
  obtain ⟨j, hj1, hj2, hacc, hit, hfull⟩ := writeLog_run hc v a n h1 h8 (by omega)
  refine ⟨hit, ?_⟩
  rcases Nat.lt_or_ge (2 ^ m.addr_bits) (a + n) with h | h
  · exact Or.inr (write_overflow hc v a n h1 h8 ha h)
  · refine Or.inl ⟨_, write_ok hc v a n h1 h8 h, ?_⟩
    rw [hacc, triplesFrom_length]
    exact hfull (by omega)

/-- C20 (failing input): with only page 0 of set 0 resident, the loop of
`read( 0x0010, 1)` stops in its first iteration at the byte access through the
`NULL` page pointer, neither with a byte consumed nor from the `EXIT` state; and
over five resident bytes the loop of `read( 0, 5)` stops in its fifth iteration
at the shift of an `int` by 32.  (A missing page met later in the traversal does
end in the `EXIT` state, as for `read( 0x000F, 2)`.) -/
theorem read_loop_stops_outside_exit :
    ∃ m1, write emptyMemory16 1 0 1 = .ok m1 ∧
      readLog m1 0x0010 1 = (⟨[(0, 1, 0)], 1⟩, .error .nullDeref) ∧
      readLog m1 0 5
        = (⟨[(0, 0, 0), (0, 0, 1), (0, 0, 2), (0, 0, 3), (0, 0, 4)], 5⟩, .error .undefinedShift) ∧
      readLog m1 0x000F 2 = (⟨[(0, 0, 15)], 3⟩, .error .assertion) :=
  ⟨putBytes emptyMemory16 0 [1],
    write_ok configured_emptyMemory16 1 0 1 (by decide) (by decide) (by decide),
    by decide!, by decide!, by decide!⟩

end FuncMem

/-! ## The loop of `read` however the undefined shift resolves -/

namespace FuncMem

theorem readStepWith_shlInt (m : FuncMemory) (c : Cursor) (number : Nat) :
    readStepWith shlInt m c number = readStep m c number := rfl

theorem readLoopLogWith_shlInt (m : FuncMemory) (n : Nat) :
    ∀ (fuel : Nat) (c : Cursor) (number : Nat) (log : RunLog),
      readLoopLogWith shlInt m n fuel c number log = readLoopLog m n fuel c number log := by
  intro fuel
  induction fuel with
  | zero => intro c number log; rfl
  | succ fuel ih =>
    intro c number log
    unfold readLoopLogWith readLoopLog
    split
    · rw [readStepWith_shlInt]
      cases readStep m c number with
      | error e => rfl
      | ok r =>
        obtain ⟨c1, number1⟩ := r
        exact ih c1 number1 _
    · rfl

theorem readLogWith_shlInt (m : FuncMemory) (a n : Nat) :
    readLogWith shlInt m a n = readLog m a n := by
  unfold readLogWith readLog
  split
  · rfl
  · simp only []
    cases readCheck m
        (getSetIdx (m.addr_bits - m.page_num_size - m.offset_size) a m.addr_bits)
        (getPageIdx m.page_num_size m.offset_size a) with
    | error e => rfl
    | ok u => exact readLoopLogWith_shlInt _ _ _ _ _ _

theorem readLoopLogWith_done (shl : Nat → Nat → Except Fault Int) (m : FuncMemory)
    (n fuel : Nat) (c : Cursor) (number : Nat) (log : RunLog) (h : ¬ c.bytes < n) :
    readLoopLogWith shl m n fuel c number log = (log, .ok number) := by
  cases fuel <;> simp [readLoopLogWith, h]

theorem readLoopLogWith_succ (shl : Nat → Nat → Except Fault Int) (m : FuncMemory)
    (n fuel : Nat) (c : Cursor) (number : Nat) (log : RunLog) (h : c.bytes < n) :
    readLoopLogWith shl m n (fuel + 1) c number log =
      match readStepWith shl m c number with
      | .error e => (logStep log c, .error e)
      | .ok (c1, number1) => readLoopLogWith shl m n fuel c1 number1 (logStep log c) := by
  simp [readLoopLogWith, h]

theorem byteAt_of_resident {m : FuncMemory} {s p o : Nat}
    (hs : s < m.sets_array_size) (hp : p < m.pages_array_size) (ho : o < m.page_size)
    (h : isResident m s p = true) : ∃ b, byteAt m s p o = .ok b := by
  cases hpk : peek m s p o with
  | none =>
    rw [← peek_isSome_iff m s p o, hpk] at h
    cases h
  | some b => exact ⟨b, byteAt_of_peek hs hp ho hpk⟩

theorem readStepWith_RDWR_cases (shl : Nat → Nat → Except Fault Int) (m : FuncMemory)
    {s p o k : Nat} (number : Nat)
    (ho : o < m.page_size) (hz : m.page_size < twoTo64) (hp : p < m.pages_array_size)
    (hq : m.pages_array_size < twoTo64) :
    (∃ e, readStepWith shl m ⟨.RDWR, s, p, o, k⟩ number = .error e ∧
      (byteAt m s p o = .error e ∨ ∃ b, shl b (k * 8) = .error e)) ∨
    (∃ number1 t, m.sets_array s = some t ∧
      readStepWith shl m ⟨.RDWR, s, p, o, k⟩ number =
        .ok (if m.page_size ≤ o + 1 then ⟨.CNG_PG, s, p + 1, o + 1, k + 1⟩
             else ⟨.RDWR, s, p, o + 1, k + 1⟩, number1)) := by
  have e1 : (o + 1) % twoTo64 = o + 1 := mod_twoTo64 (by omega)
  have e2 : (p + 1) % twoTo64 = p + 1 := mod_twoTo64 (by omega)
  cases hb : byteAt m s p o with
  | error e =>
    left
    exact ⟨e, by simp [readStepWith, hb], Or.inl rfl⟩
  | ok b =>
    cases hsh : shl b (k * 8) with
    | error e =>
      left
      exact ⟨e, by simp [readStepWith, hb, hsh], Or.inr ⟨b, hsh⟩⟩
    | ok z =>
      right
      obtain ⟨t, ht⟩ := byteAt_ok_set hb
      refine ⟨(number + toUint64 z) % twoTo64, t, ht, ?_⟩
      by_cases hn : m.page_size ≤ o + 1
      · simp [readStepWith, hb, hsh, e1, e2, hn]
      · simp [readStepWith, hb, hsh, e1, hn]

theorem readStepWith_CNG_PG_wrap (shl : Nat → Nat → Except Fault Int) (m : FuncMemory)
    {s p o k : Nat} (number : Nat)
    (hs : s < m.sets_array_size) (hz : m.sets_array_size < twoTo64)
    (hp : m.pages_array_size ≤ p) :
    readStepWith shl m ⟨.CNG_PG, s, p, o, k⟩ number
      = .ok (⟨.CNG_SET, s + 1, p, 0, k⟩, number) := by
  have e : (s + 1) % twoTo64 = s + 1 := mod_twoTo64 (by omega)
  simp [readStepWith, hp, e]

theorem readStepWith_CNG_PG_page (shl : Nat → Nat → Except Fault Int) (m : FuncMemory)
    {s p o k : Nat} (number : Nat)
    {t : PageTable} (hs : s < m.sets_array_size) (hp : p < m.pages_array_size)
    (ht : m.sets_array s = some t) :
    readStepWith shl m ⟨.CNG_PG, s, p, o, k⟩ number =
      .ok (⟨if (t p).isSome then .RDWR else .EXIT, s, p, 0, k⟩, number) := by
  cases h2 : t p <;> simp [readStepWith, pageAt, setAt, hs, hp, ht, h2]

theorem readStepWith_CNG_SET_exit (shl : Nat → Nat → Except Fault Int) (m : FuncMemory)
    {s p o k : Nat} (number : Nat) (hs : m.sets_array_size ≤ s) :
    readStepWith shl m ⟨.CNG_SET, s, p, o, k⟩ number
      = .ok (⟨.EXIT, s, 0, o, k⟩, number) := by
  simp [readStepWith, hs]

theorem readStepWith_CNG_SET_set (shl : Nat → Nat → Except Fault Int) (m : FuncMemory)
    {s p o k : Nat} (number : Nat) (hs : s < m.sets_array_size) :
    readStepWith shl m ⟨.CNG_SET, s, p, o, k⟩ number =
      .ok (⟨if (m.sets_array s).isSome then .CNG_PG else .EXIT, s, 0, o, k⟩, number) := by
  cases h1 : m.sets_array s <;> simp [readStepWith, setAt, hs, h1]

theorem readLoopLogWith_exit (shl : Nat → Nat → Except Fault Int) (m : FuncMemory)
    (n fuel : Nat) {s p o k : Nat} (number : Nat) (log : RunLog) (h : k < n) :
    readLoopLogWith shl m n (fuel + 1) ⟨.EXIT, s, p, o, k⟩ number log
      = (⟨log.accesses, log.iterations + 1⟩, .error .assertion) := by
  rw [readLoopLogWith_succ _ _ _ _ _ _ _ (by show k < n; exact h)]
  rfl

theorem not_resident_of_page_none {m : FuncMemory} {s p : Nat} {t : PageTable}
    (ht : m.sets_array s = some t) (h2 : t p = none) : isResident m s p = false := by
  simp [isResident, ht, h2]

theorem not_resident_of_set_none {m : FuncMemory} {s : Nat} (p : Nat)
    (h1 : m.sets_array s = none) : isResident m s p = false := by
  simp [isResident, h1]

end FuncMem

namespace FuncMem

theorem resident_at {m : FuncMemory} (hc : Configured m) {x s p o i : Nat}
    (hs : s < m.sets_array_size) (hp : p < m.pages_array_size) (ho : o < m.page_size)
    (hnext : addrOf m s p o = x + i)
    (h : isResident m (setIdx m (x + i)) (pageIdx m (x + i)) = true) :
    isResident m s p = true := by
  rw [← hnext, setIdx_addrOf hc hs hp ho, pageIdx_addrOf (s := s) hc hp ho] at h
  exact h

theorem readLoopLogWith_run (shl : Nat → Nat → Except Fault Int) (m : FuncMemory)
    (hc : Configured m) (n : Nat) :
    ∀ (r s p o k fuel number : Nat) (log0 : RunLog),
      s < m.sets_array_size → p < m.pages_array_size → o < m.page_size →
      k + (r + 1) = n → 4 * (r + 1) ≤ fuel →
      ∃ j, 1 ≤ j ∧ j ≤ r + 1 ∧ addrOf m s p o + j ≤ spaceSize m ∧
        (readLoopLogWith shl m n fuel ⟨.RDWR, s, p, o, k⟩ number log0).1.accesses
          = log0.accesses ++ triplesFrom m (addrOf m s p o) j ∧
        (readLoopLogWith shl m n fuel ⟨.RDWR, s, p, o, k⟩ number log0).1.iterations
          ≤ log0.iterations + 4 * (r + 1) ∧
        (∀ v, (readLoopLogWith shl m n fuel ⟨.RDWR, s, p, o, k⟩ number log0).2 = .ok v →
          j = r + 1) ∧
        ((∀ i, i < r + 1 → isResident m (setIdx m (addrOf m s p o + i))
            (pageIdx m (addrOf m s p o + i)) = true) →
          (∀ b c, ∃ z, shl b c = .ok z) → addrOf m s p o + (r + 1) ≤ spaceSize m →
          ∃ v, (readLoopLogWith shl m n fuel ⟨.RDWR, s, p, o, k⟩ number log0).2 = .ok v) := by
  have hz := hc.2.2.2.2.2.2
  have hq := hc.2.2.2.2.2.1
  have hS := hc.2.2.2.2.1
  have hfail : ∀ {s p o k : Nat} {e : Fault}, s < m.sets_array_size →
      p < m.pages_array_size → o < m.page_size →
      (byteAt m s p o = .error e ∨ ∃ b, shl b (k * 8) = .error e) →
      isResident m (setIdx m (addrOf m s p o + 0)) (pageIdx m (addrOf m s p o + 0)) = true →
      (∀ b c, ∃ z, shl b c = .ok z) → False := by
    intro s p o k e hs hp ho hcase hres htot
    have hr := resident_at hc hs hp ho rfl hres
    rcases hcase with hb | ⟨b, hb⟩
    · obtain ⟨b, hb1⟩ := byteAt_of_resident hs hp ho hr
      rw [hb1] at hb
      cases hb
    · obtain ⟨z, hz1⟩ := htot b (k * 8)
      rw [hz1] at hb
      cases hb
  intro r
  induction r with
  | zero =>
    intro s p o k fuel number log0 hs hp ho hk hf
    obtain ⟨f, rfl⟩ : ∃ f, fuel = f + 1 := ⟨fuel - 1, by omega⟩
    have hd := decompose_addrOf hc hs hp ho
    have hlt := addrOf_lt_spaceSize m hs hp ho
    rw [readLoopLogWith_succ _ _ _ _ _ _ _ (by show k < n; omega)]
    rcases readStepWith_RDWR_cases shl m number ho hz hp hq with
      ⟨e, he, hcase⟩ | ⟨number1, t, ht, hstep⟩
    · rw [he]
      refine ⟨1, le_refl _, le_refl _, by omega, accesses_one _ hd, ?_,
        (fun v h => by cases h),
        fun hres htot _ => (hfail hs hp ho hcase (hres 0 (by omega)) htot).elim⟩
      show log0.iterations + 1 ≤ _
      omega
    · rw [hstep]
      simp only []
      have hdone : ∀ c : Cursor, c.bytes = k + 1 →
          readLoopLogWith shl m n f c number1 (logStep log0 ⟨.RDWR, s, p, o, k⟩)
            = (logStep log0 ⟨.RDWR, s, p, o, k⟩, .ok number1) :=
        fun c hcb => readLoopLogWith_done _ _ _ _ _ _ _ (by rw [hcb]; omega)
      rw [hdone _ (by split <;> rfl)]
      refine ⟨1, le_refl _, le_refl _, by omega, accesses_one _ hd, ?_,
        (fun _ _ => rfl), fun _ _ _ => ⟨number1, rfl⟩⟩
      show log0.iterations + 1 ≤ _
      omega
  | succ r ih =>
    intro s p o k fuel number log0 hs hp ho hk hf
    obtain ⟨f, rfl⟩ : ∃ f, fuel = f + 5 := ⟨fuel - 5, by omega⟩
    have hd := decompose_addrOf hc hs hp ho
    have hlt := addrOf_lt_spaceSize m hs hp ho
    rw [show f + 5 = (f + 4) + 1 from rfl,
      readLoopLogWith_succ _ _ _ _ _ _ _ (by show k < n; omega)]
    rcases readStepWith_RDWR_cases shl m number ho hz hp hq with
      ⟨e, he, hcase⟩ | ⟨number1, t, ht, hstep⟩
    · rw [he]
      refine ⟨1, le_refl _, by omega, by omega, accesses_one _ hd, ?_,
        (fun v h => by cases h),
        fun hres htot _ => (hfail hs hp ho hcase (hres 0 (by omega)) htot).elim⟩
      show log0.iterations + 1 ≤ _
      omega
    · rw [hstep]
      simp only []
      rcases Nat.lt_or_ge (o + 1) m.page_size with hn | hn
      · -- the next byte lies in the same page
        rw [if_neg (by omega)]
        obtain ⟨j, hj1, hj2, hsp, hacc, hit, hok, hlast⟩ := ih s p (o + 1) (k + 1) (f + 4)
          number1 (logStep log0 ⟨.RDWR, s, p, o, k⟩) hs hp hn (by omega) (by omega)
        rw [addrOf_succ_offset] at hsp hacc hlast
        refine ⟨j + 1, by omega, by omega, by omega, ?_, ?_, ?_, ?_⟩
        · rw [hacc]
          exact accesses_step _ _ hd
        · refine le_trans hit ?_
          show log0.iterations + 1 + 4 * (r + 1) ≤ _
          omega
        · intro v hv
          have := hok v hv
          omega
        · intro hres htot hfit
          refine hlast (fun i hi => ?_) htot (by omega)
          have h := hres (i + 1) (by omega)
          have e : addrOf m s p o + (i + 1) = addrOf m s p o + 1 + i := by omega
          rw [e] at h
          exact h
      · have hP : o + 1 = m.page_size := by omega
        rw [if_pos hn, show f + 4 = (f + 3) + 1 from rfl,
          readLoopLogWith_succ _ _ _ _ _ _ _ (by show k + 1 < n; omega)]
        rcases Nat.lt_or_ge (p + 1) m.pages_array_size with hpn | hpn
        · rw [readStepWith_CNG_PG_page shl m number1 hs hpn ht]
          simp only []
          cases h2 : t (p + 1) with
          | none =>
            -- the next page is not resident
            simp only [Option.isSome_none, Bool.false_eq_true, if_false]
            rw [show f + 3 = (f + 2) + 1 from rfl,
              readLoopLogWith_exit _ _ _ _ _ _ (by omega)]
            refine ⟨1, le_refl _, by omega, by omega, accesses_one _ hd, ?_,
              (fun v h => by cases h), ?_⟩
            · show log0.iterations + 1 + 1 + 1 ≤ _
              omega
            · intro hres _ _
              have hr := resident_at hc hs hpn (by omega : 0 < m.page_size)
                (addrOf_succ_page m s p o hP) (hres 1 (by omega))
              rw [not_resident_of_page_none ht h2] at hr
              cases hr
          | some pg =>
            -- the next byte lies in the next page of the same set
            simp only [Option.isSome_some, if_true]
            obtain ⟨j, hj1, hj2, hsp, hacc, hit, hok, hlast⟩ := ih s (p + 1) 0 (k + 1)
              (f + 3) number1
              (logStep (logStep log0 ⟨.RDWR, s, p, o, k⟩) ⟨.CNG_PG, s, p + 1, o + 1, k + 1⟩)
              hs hpn (by omega) (by omega) (by omega)
            rw [addrOf_succ_page m s p o hP] at hsp hacc hlast
            refine ⟨j + 1, by omega, by omega, by omega, ?_, ?_, ?_, ?_⟩
            · rw [hacc]
              exact accesses_step _ _ hd
            · refine le_trans hit ?_
              show log0.iterations + 1 + 1 + 4 * (r + 1) ≤ _
              omega
            · intro v hv
              have := hok v hv
              omega
            · intro hres htot hfit
              refine hlast (fun i hi => ?_) htot (by omega)
              have h := hres (i + 1) (by omega)
              have e : addrOf m s p o + (i + 1) = addrOf m s p o + 1 + i := by omega
              rw [e] at h
              exact h
        · have hQ : p + 1 = m.pages_array_size := by omega
          rw [readStepWith_CNG_PG_wrap shl m number1 hs hS hpn]
          simp only []
          rw [show f + 3 = (f + 2) + 1 from rfl,
            readLoopLogWith_succ _ _ _ _ _ _ _ (by show k + 1 < n; omega)]
          rcases Nat.lt_or_ge (s + 1) m.sets_array_size with hsn | hsn
          · have hQpos : 0 < m.pages_array_size := by omega
            rw [readStepWith_CNG_SET_set shl m number1 hsn]
            simp only []
            cases h1 : m.sets_array (s + 1) with
            | none =>
              -- the next set is not resident
              simp only [Option.isSome_none, Bool.false_eq_true, if_false]
              rw [show f + 2 = (f + 1) + 1 from rfl,
                readLoopLogWith_exit _ _ _ _ _ _ (by omega)]
              refine ⟨1, le_refl _, by omega, by omega, accesses_one _ hd, ?_,
                (fun v h => by cases h), ?_⟩
              · show log0.iterations + 1 + 1 + 1 + 1 ≤ _
                omega
              · intro hres _ _
                have hr := resident_at hc hsn hQpos (by omega : 0 < m.page_size)
                  (addrOf_succ_set m s p o hP hQ) (hres 1 (by omega))
                rw [not_resident_of_set_none 0 h1] at hr
                cases hr
            | some t1 =>
              simp only [Option.isSome_some, if_true]
              rw [show f + 2 = (f + 1) + 1 from rfl,
                readLoopLogWith_succ _ _ _ _ _ _ _ (by show k + 1 < n; omega),
                readStepWith_CNG_PG_page shl m number1 hsn hQpos h1]
              simp only []
              cases h2 : t1 0 with
              | none =>
                -- page 0 of the next set is not resident
                simp only [Option.isSome_none, Bool.false_eq_true, if_false]
                rw [readLoopLogWith_exit _ _ _ _ _ _ (by omega)]
                refine ⟨1, le_refl _, by omega, by omega, accesses_one _ hd, ?_,
                  (fun v h => by cases h), ?_⟩
                · show log0.iterations + 1 + 1 + 1 + 1 + 1 ≤ _
                  omega
                · intro hres _ _
                  have hr := resident_at hc hsn hQpos (by omega : 0 < m.page_size)
                    (addrOf_succ_set m s p o hP hQ) (hres 1 (by omega))
                  rw [not_resident_of_page_none h1 h2] at hr
                  cases hr
              | some pg =>
                -- the next byte lies in page 0 of the next set
                simp only [Option.isSome_some, if_true]
                obtain ⟨j, hj1, hj2, hsp, hacc, hit, hok, hlast⟩ :=
                  ih (s + 1) 0 0 (k + 1) (f + 1) number1
                    (logStep (logStep (logStep (logStep log0 ⟨.RDWR, s, p, o, k⟩)
                      ⟨.CNG_PG, s, p + 1, o + 1, k + 1⟩) ⟨.CNG_SET, s + 1, p + 1, 0, k + 1⟩)
                      ⟨.CNG_PG, s + 1, 0, 0, k + 1⟩)
                    hsn hQpos (by omega) (by omega) (by omega)
                rw [addrOf_succ_set m s p o hP hQ] at hsp hacc hlast
                refine ⟨j + 1, by omega, by omega, by omega, ?_, ?_, ?_, ?_⟩
                · rw [hacc]
                  exact accesses_step _ _ hd
                · refine le_trans hit ?_
                  show log0.iterations + 1 + 1 + 1 + 1 + 4 * (r + 1) ≤ _
                  omega
                · intro v hv
                  have := hok v hv
                  omega
                · intro hres htot hfit
                  refine hlast (fun i hi => ?_) htot (by omega)
                  have h := hres (i + 1) (by omega)
                  have e : addrOf m s p o + (i + 1) = addrOf m s p o + 1 + i := by omega
                  rw [e] at h
                  exact h
          · -- the next byte lies beyond the last set
            have hSe : s + 1 = m.sets_array_size := by omega
            rw [readStepWith_CNG_SET_exit shl m number1 hsn]
            simp only []
            rw [show f + 2 = (f + 1) + 1 from rfl,
              readLoopLogWith_exit _ _ _ _ _ _ (by omega)]
            refine ⟨1, le_refl _, by omega, by omega, accesses_one _ hd, ?_,
              (fun v h => by cases h), ?_⟩
            · show log0.iterations + 1 + 1 + 1 + 1 ≤ _
              omega
            · intro _ _ hfit
              rw [spaceSize_eq_succ m s p o hP hQ hSe] at hfit
              omega

end FuncMem

namespace FuncMem

theorem shlIntWith_total (u : Nat → Nat → Int) (b c : Nat) : ∃ z, shlIntWith u b c = .ok z := by
  unfold shlIntWith shlInt
  by_cases h : 32 ≤ c
  · exact ⟨_, if_pos h⟩
  · rw [if_neg h, if_neg h]
    exact ⟨_, rfl⟩

theorem shlIntWith_eq (u : Nat → Nat → Int) (b : Nat) {k : Nat} (h : k < 4) :
    shlIntWith u b (k * 8) = shlInt b (k * 8) := by
  unfold shlIntWith
  rw [if_neg (by omega)]

theorem readStepWith_congr {shl1 shl2 : Nat → Nat → Except Fault Int} (m : FuncMemory)
    (c : Cursor) (number : Nat) (h : ∀ b, shl1 b (c.bytes * 8) = shl2 b (c.bytes * 8)) :
    readStepWith shl1 m c number = readStepWith shl2 m c number := by
  obtain ⟨st, s, p, o, k⟩ := c
  have h1 : ∀ b, shl1 b (k * 8) = shl2 b (k * 8) := h
  cases st
  · simp only [readStepWith]
    cases byteAt m s p o with
    | error e => rfl
    | ok b =>
      simp only []
      rw [h1 b]
  · rfl
  · rfl
  · rfl

theorem readLoopLogWith_congr {shl1 shl2 : Nat → Nat → Except Fault Int} (m : FuncMemory)
    (n : Nat) (h : ∀ b k, k < n → shl1 b (k * 8) = shl2 b (k * 8)) :
    ∀ (fuel : Nat) (c : Cursor) (number : Nat) (log : RunLog),
      readLoopLogWith shl1 m n fuel c number log
        = readLoopLogWith shl2 m n fuel c number log := by
  intro fuel
  induction fuel with
  | zero => intro c number log; rfl
  | succ fuel ih =>
    intro c number log
    unfold readLoopLogWith
    by_cases hk : c.bytes < n
    · rw [if_pos hk, if_pos hk, readStepWith_congr m c number (fun b => h b c.bytes hk)]
      cases readStepWith shl2 m c number with
      | error e => rfl
      | ok r =>
        obtain ⟨c1, number1⟩ := r
        exact ih c1 number1 _
    · rw [if_neg hk, if_neg hk]

theorem readLogWith_congr {shl1 shl2 : Nat → Nat → Except Fault Int} (m : FuncMemory)
    (a n : Nat) (h : ∀ b k, k < n → shl1 b (k * 8) = shl2 b (k * 8)) :
    readLogWith shl1 m a n = readLogWith shl2 m a n := by
  unfold readLogWith
  split
  · rfl
  · simp only []
    cases readCheck m
        (getSetIdx (m.addr_bits - m.page_num_size - m.offset_size) a m.addr_bits)
        (getPageIdx m.page_num_size m.offset_size a) with
    | error e => rfl
    | ok u => exact readLoopLogWith_congr m n h _ _ _ _

theorem readLogWith_run (shl : Nat → Nat → Except Fault Int) {m : FuncMemory}
    (hc : Configured m) (a n : Nat) (h1 : 1 ≤ n) (ha : a < spaceSize m) :
    ∃ j, j ≤ n ∧ a + j ≤ spaceSize m ∧
      (readLogWith shl m a n).1.accesses = triplesFrom m a j ∧
      (readLogWith shl m a n).1.iterations ≤ 4 * n ∧
      (∀ v, (readLogWith shl m a n).2 = .ok v → j = n) ∧
      ((∀ i, i < n → isResident m (setIdx m (a + i)) (pageIdx m (a + i)) = true) →
        (∀ b c, ∃ z, shl b c = .ok z) → a + n ≤ spaceSize m →
        ∃ v, (readLogWith shl m a n).2 = .ok v) := by
  have hs := setIdx_lt hc a
  have hp := pageIdx_lt hc a
  have ho := offsetIdx_lt hc a
  obtain ⟨r, rfl⟩ : ∃ r, n = r + 1 := ⟨n - 1, by omega⟩
  cases hck : readCheck m (setIdx m a) (pageIdx m a) with
  | error e =>
    have e1 : readLogWith shl m a (r + 1) = (⟨[], 0⟩, .error e) := by
      unfold setIdx pageIdx at hck
      unfold readLogWith
      rw [if_neg (by omega)]
      simp only [hck]
    rw [e1]
    refine ⟨0, by omega, by omega, rfl, by show 0 ≤ _; omega, (fun v h => by cases h), ?_⟩
    intro hres _ _
    have h0 := hres 0 (by omega)
    rw [Nat.add_zero] at h0
    rw [readCheck_of_resident hs hp h0] at hck
    cases hck
  | ok u =>
    have e1 : readLogWith shl m a (r + 1)
        = readLoopLogWith shl m (r + 1) (4 * (r + 1))
            ⟨.RDWR, setIdx m a, pageIdx m a, offsetIdx m a, 0⟩ 0 ⟨[], 0⟩ := by
      unfold setIdx pageIdx at hck
      unfold readLogWith
      rw [if_neg (by omega)]
      simp only [hck]
      rfl
    obtain ⟨j, hj1, hj2, hsp, hacc, hit, hok, hlast⟩ := readLoopLogWith_run shl m hc (r + 1) r
      (setIdx m a) (pageIdx m a) (offsetIdx m a) 0 (4 * (r + 1)) 0 ⟨[], 0⟩ hs hp ho
      (by omega) (le_refl _)
    rw [addrOf_setIdx hc ha] at hsp hacc hlast
    rw [e1]
    refine ⟨j, hj2, hsp, ?_, ?_, hok, hlast⟩
    · rw [hacc]
      rfl
    · refine le_trans hit ?_
      show 0 + 4 * (r + 1) ≤ _
      omega

end FuncMem

/-! ## C17: the traversal against the decomposition -/

namespace FuncMem

/-- C17: on a configured memory, for `n` in `[1,8]` and `[a, a+n)` inside the
address space, the loop of `write` performs exactly `n` byte accesses and the
`i`-th one indexes `sets_array` at the decomposition of `a + i` in the words of
the specification.  The loop of `read` is taken with the shift of line 147
resolved by an arbitrary `u` where the source leaves it undefined (counts of 32
and more, at the fifth byte and later): it is the embedded `read` for `n ≤ 4`
and with `shlInt` in place of the resolved shift; every byte access it performs
is the `i`-th one at the decomposition of `a + i`, there are at most `n` of
them and exactly `n` when it returns; and when every page of `[a, a+n)` is
resident it does return, after exactly `n` byte accesses, the `i`-th at the
decomposition of `a + i` for every `i < n`.  Each of these index triples lies
below `sets_array_size`, `pages_array_size` and `page_size`. -/
theorem traversal_follows_decomposition (m : FuncMemory) (hc : Configured m) (v a n : Nat)
    (h1 : 1 ≤ n) (h8 : n ≤ 8) (ha : a + n ≤ 2 ^ m.addr_bits) (u : Nat → Nat → Int) :
    ((writeLog m v a n).2 = write m v a n ∧
      (writeLog m v a n).1.accesses.length = n ∧
      ∀ i, i < n → (writeLog m v a n).1.accesses.get? i
        = some (specDecompose m.addr_bits m.page_num_size m.offset_size (a + i))) ∧
    ((readLogWith shlInt m a n).2 = read m a n ∧
      (n ≤ 4 → (readLogWith (shlIntWith u) m a n).2 = read m a n) ∧
      (readLogWith (shlIntWith u) m a n).1.accesses.length ≤ n ∧
      (∀ i, i < (readLogWith (shlIntWith u) m a n).1.accesses.length →
        (readLogWith (shlIntWith u) m a n).1.accesses.get? i
          = some (specDecompose m.addr_bits m.page_num_size m.offset_size (a + i))) ∧
      (∀ val, (readLogWith (shlIntWith u) m a n).2 = .ok val →
        (readLogWith (shlIntWith u) m a n).1.accesses.length = n) ∧
      ((∀ i, i < n → isResident m (setIdx m (a + i)) (pageIdx m (a + i)) = true) →
        (∃ val, (readLogWith (shlIntWith u) m a n).2 = .ok val) ∧
        (readLogWith (shlIntWith u) m a n).1.accesses.length = n ∧
        ∀ i, i < n → (readLogWith (shlIntWith u) m a n).1.accesses.get? i
          = some (specDecompose m.addr_bits m.page_num_size m.offset_size (a + i)))) ∧
    (∀ i, i < n →
      (specDecompose m.addr_bits m.page_num_size m.offset_size (a + i)).1
        < m.sets_array_size ∧
      (specDecompose m.addr_bits m.page_num_size m.offset_size (a + i)).2.1
        < m.pages_array_size ∧
      (specDecompose m.addr_bits m.page_num_size m.offset_size (a + i)).2.2
        < m.page_size) := by
  have hsz := spaceSize_eq hc
  refine ⟨?_, ?_, ?_⟩
  · obtain ⟨j, hj1, hj2, hacc, hit, hfull⟩ := writeLog_run hc v a n h1 h8 (by omega)
    have hj : j = n := hfull (by omega)
    subst hj
    refine ⟨writeLog_snd m v a j, by rw [hacc, triplesFrom_length], ?_⟩
    intro i hi
    rw [hacc, triplesFrom_get? m j a i hi, specDecompose_eq hc]
  · obtain ⟨j, hj1, hsp, hacc, hit, hok, hlast⟩ :=
      readLogWith_run (shlIntWith u) hc a n h1 (by omega)
    refine ⟨by rw [readLogWith_shlInt, readLog_snd], ?_,
      by rw [hacc, triplesFrom_length]; exact hj1, ?_, ?_, ?_⟩
    · intro h4
      rw [readLogWith_congr m a n (fun b k hk => shlIntWith_eq u b (by omega)),
        readLogWith_shlInt, readLog_snd]
    · intro i hi
      rw [hacc, triplesFrom_length] at hi
      rw [hacc, triplesFrom_get? m j a i hi, specDecompose_eq hc]
    · intro val hval
      rw [hacc, triplesFrom_length]
      exact hok val hval
    · intro hres
      obtain ⟨val, hval⟩ := hlast hres (shlIntWith_total u) (by omega)
      have hj : j = n := hok val hval
      subst hj
      refine ⟨⟨val, hval⟩, by rw [hacc, triplesFrom_length], ?_⟩
      intro i hi
      rw [hacc, triplesFrom_get? m j a i hi, specDecompose_eq hc]
  · intro i _
    rw [specDecompose_eq hc]
    exact ⟨setIdx_lt hc _, pageIdx_lt hc _, offsetIdx_lt hc _⟩

/-- Witness for C17: eight bytes from `0x00FC` on, crossing from set 0 into set 1
of `storedMemory16`, with the undefined shift resolved as `shlMasked`: the read
makes its eight byte accesses in eleven iterations and returns `0x06080A0C`. -/
theorem traversal_follows_decomposition_witness :
    Configured storedMemory16 ∧
    (∀ i, i < 8 → isResident storedMemory16 (setIdx storedMemory16 (0x00FC + i))
      (pageIdx storedMemory16 (0x00FC + i)) = true) ∧
    readLogWith (shlIntWith shlMasked) storedMemory16 0x00FC 8
      = (⟨[(0, 15, 12), (0, 15, 13), (0, 15, 14), (0, 15, 15),
            (1, 0, 0), (1, 0, 1), (1, 0, 2), (1, 0, 3)], 11⟩, .ok 0x06080A0C) ∧
    ((writeLog storedMemory16 0x0102030405060708 0x00FC 8).2
        = write storedMemory16 0x0102030405060708 0x00FC 8 ∧
      (writeLog storedMemory16 0x0102030405060708 0x00FC 8).1.accesses.length = 8 ∧
      ∀ i, i < 8 → (writeLog storedMemory16 0x0102030405060708 0x00FC 8).1.accesses.get? i
        = some (specDecompose storedMemory16.addr_bits storedMemory16.page_num_size
            storedMemory16.offset_size (0x00FC + i))) ∧
    ((readLogWith shlInt storedMemory16 0x00FC 8).2 = read storedMemory16 0x00FC 8 ∧
      (8 ≤ 4 → (readLogWith (shlIntWith shlMasked) storedMemory16 0x00FC 8).2
        = read storedMemory16 0x00FC 8) ∧
      (readLogWith (shlIntWith shlMasked) storedMemory16 0x00FC 8).1.accesses.length ≤ 8 ∧
      (∀ i, i < (readLogWith (shlIntWith shlMasked) storedMemory16 0x00FC 8).1.accesses.length →
        (readLogWith (shlIntWith shlMasked) storedMemory16 0x00FC 8).1.accesses.get? i
          = some (specDecompose storedMemory16.addr_bits storedMemory16.page_num_size
              storedMemory16.offset_size (0x00FC + i))) ∧
      (∀ val, (readLogWith (shlIntWith shlMasked) storedMemory16 0x00FC 8).2 = .ok val →
        (readLogWith (shlIntWith shlMasked) storedMemory16 0x00FC 8).1.accesses.length = 8) ∧
      ((∀ i, i < 8 → isResident storedMemory16 (setIdx storedMemory16 (0x00FC + i))
          (pageIdx storedMemory16 (0x00FC + i)) = true) →
        (∃ val, (readLogWith (shlIntWith shlMasked) storedMemory16 0x00FC 8).2 = .ok val) ∧
        (readLogWith (shlIntWith shlMasked) storedMemory16 0x00FC 8).1.accesses.length = 8 ∧
        ∀ i, i < 8 →
          (readLogWith (shlIntWith shlMasked) storedMemory16 0x00FC 8).1.accesses.get? i
            = some (specDecompose storedMemory16.addr_bits storedMemory16.page_num_size
                storedMemory16.offset_size (0x00FC + i)))) ∧
    (∀ i, i < 8 →
      (specDecompose storedMemory16.addr_bits storedMemory16.page_num_size
        storedMemory16.offset_size (0x00FC + i)).1 < storedMemory16.sets_array_size ∧
      (specDecompose storedMemory16.addr_bits storedMemory16.page_num_size
        storedMemory16.offset_size (0x00FC + i)).2.1 < storedMemory16.pages_array_size ∧
      (specDecompose storedMemory16.addr_bits storedMemory16.page_num_size
        storedMemory16.offset_size (0x00FC + i)).2.2 < storedMemory16.page_size) :=
  ⟨Configured_putBytes _ configured_emptyMemory16 _, by decide!, by decide!,
    traversal_follows_decomposition storedMemory16
      (Configured_putBytes _ configured_emptyMemory16 _)
      0x0102030405060708 0x00FC 8 (by decide) (by decide) (by decide!) shlMasked⟩

end FuncMem
